import Mathlib

/-!
# pipelineconductor: policy engine, context builder, profile validator, reports

A shallow embedding of `internal/policy` (engine, profiles, context, loader),
of `pkg/model` and of the parts of `internal/report` the theorems are about,
followed by theorems about them.

Go slices are lists (a nil slice and an empty slice are both `[]`), Go `int`
is `Int`, a Go pointer result that may be nil is an `Option`, and a method that
mutates its receiver returns the new receiver next to its result.
-/

namespace PipelineConductor

/-! ## pkg/model/result.go -/

/-- Severity is a string type in the source (`type Severity string`). -/
abbrev Severity := String

def SeverityCritical : Severity := "critical"
def SeverityHigh : Severity := "high"
def SeverityMedium : Severity := "medium"
def SeverityLow : Severity := "low"
def SeverityInfo : Severity := "info"

/-- Violation represents a policy violation. -/
structure Violation where
  Policy : String := ""
  Rule : String := ""
  Message : String := ""
  Severity : Severity := ""
  Remediation : String := ""
  File : String := ""
  Line : Int := 0
  deriving DecidableEq, Repr

/-! ## pkg/model/policy.go -/

structure RepoContext where
  Name : String := ""
  Org : String := ""
  FullName : String := ""
  Language : List String := []
  Topics : List String := []
  Archived : Bool := false
  Fork : Bool := false
  deriving DecidableEq, Repr

structure CIContext where
  HasWorkflow : Bool := false
  UsesReusableWorkflow : Bool := false
  ReusableWorkflowRef : String := ""
  RequiredChecks : List String := []
  LastRunPassed : Bool := false
  OSMatrix : List String := []
  deriving DecidableEq, Repr

structure GoContext where
  Versions : List String := []
  Profile : String := ""
  HasGoMod : Bool := false
  GoModTidy : Bool := false
  deriving DecidableEq, Repr

structure DependenciesContext where
  HasRenovate : Bool := false
  HasDependabot : Bool := false
  OldestDependencyDays : Int := 0
  HasVulnerabilities : Bool := false
  VulnerabilityCount : Int := 0
  deriving DecidableEq, Repr

structure BranchProtectionContext where
  Enabled : Bool := false
  RequireReviews : Bool := false
  RequireStatusChecks : Bool := false
  EnforceAdmins : Bool := false
  deriving DecidableEq, Repr

/-- PolicyContext is the canonical context passed to Cedar for policy evaluation. -/
structure PolicyContext where
  Repo : RepoContext := {}
  CI : CIContext := {}
  Go : GoContext := {}
  Dependencies : DependenciesContext := {}
  BranchProtection : BranchProtectionContext := {}
  deriving DecidableEq, Repr

structure ProfileGo where
  Versions : List String := []
  deriving DecidableEq, Repr

structure ProfileChecks where
  Required : List String := []
  deriving DecidableEq, Repr

structure ProfileLint where
  Enabled : Bool := false
  Tool : String := ""
  deriving DecidableEq, Repr

structure ProfileTest where
  Coverage : Bool := false
  Race : Bool := false
  deriving DecidableEq, Repr

/-- Profile defines a named CI/CD configuration profile. -/
structure Profile where
  Name : String := ""
  Description : String := ""
  Go : ProfileGo := {}
  OS : List String := []
  Checks : ProfileChecks := {}
  Lint : ProfileLint := {}
  Test : ProfileTest := {}
  deriving DecidableEq, Repr

/-! ## fmt -/

/-- The `%v` verb of `fmt.Sprintf` on a `[]string`: the elements separated by
single spaces, inside square brackets. -/
def fmtStrings (xs : List String) : String :=
  "[" ++ " ".intercalate xs ++ "]"

/-- The conversion `[]byte(s)`: the UTF-8 encoding of a string. -/
def goBytes (s : String) : List UInt8 :=
  s.data.flatMap String.utf8EncodeChar

/-! ## The cedar-go values the engine builds -/

/-- An entity identifier: `cedar.NewEntityUID(type, id)`. -/
structure EntityUID where
  EntityType : String
  ID : String
  deriving DecidableEq, Repr

/-- Modelled from the spec: the values of the cedar-go library, which is not
part of the sources, that the engine puts in a request context: `cedar.String`,
`cedar.Boolean`, `cedar.Long` and a `cedar.Set` of strings. A set is unordered:
it has neither order nor multiplicity. -/
inductive Value where
  | String (s : String)
  | Boolean (b : Bool)
  | Long (n : Int)
  | Set (xs : Finset String)
  deriving DecidableEq

/-- A record: `cedar.NewRecord(cedar.RecordMap{...})`, its keys in the order the
source lists them. -/
abbrev Record := List (String × Value)

/-- The authorization request: `cedar.Request`. -/
structure Request where
  Principal : EntityUID
  Action : EntityUID
  Resource : EntityUID
  Context : Record
  deriving DecidableEq

/-- The entity store: `cedar.EntityMap`. -/
abbrev EntityMap := List (EntityUID × Record)

inductive Effect where
  | Permit
  | Forbid
  deriving DecidableEq, Repr

/-- A parsed policy: its effect, and whether its scope and conditions hold for a
request. Evaluating the conditions can fail (an absent attribute, a type
mismatch), which is the `error` case. -/
structure Policy where
  Effect : Effect
  eval : EntityMap → Request → Except String Bool

abbrev PolicyID := String

/-- The policy store, `cedar.PolicySet`: policy ids are unique, entries are in
insertion order. -/
abbrev PolicySet := List (PolicyID × Policy)

/-- Modelled from the spec: `cedar.NewPolicySet` of the cedar-go library, which
is not part of the sources; the empty policy store. -/
def NewPolicySet : PolicySet := []

/-- Modelled from the spec: `PolicySet.Add` of the cedar-go library, which is
not part of the sources. Re-adding an id replaces the previous rule; a new id
is put after the ones already present. -/
def PolicySet.Add : PolicySet → PolicyID → Policy → PolicySet
  | [], id, p => [(id, p)]
  | (k, q) :: rest, id, p =>
    if k = id then (k, p) :: rest else (k, q) :: PolicySet.Add rest id p

/-- The policy registered under an id, if any. -/
def PolicySet.Get : PolicySet → PolicyID → Option Policy
  | [], _ => none
  | (k, q) :: rest, id => if k = id then some q else PolicySet.Get rest id

inductive Decision where
  | Allow
  | Deny
  deriving DecidableEq, Repr

structure DiagnosticReason where
  PolicyID : PolicyID
  deriving DecidableEq, Repr

structure DiagnosticError where
  PolicyID : PolicyID
  Message : String
  deriving DecidableEq, Repr

/-- Modelled from the spec: `DiagnosticError.String` of the cedar-go library,
which is not part of the sources; the policy id followed by the message. -/
def DiagnosticError.String (e : DiagnosticError) : String :=
  "while evaluating policy \x60" ++ e.PolicyID ++ "\x60: " ++ e.Message

structure Diagnostic where
  Reasons : List DiagnosticReason := []
  Errors : List DiagnosticError := []
  deriving DecidableEq, Repr

/-- What the authorizer has collected while it walks the policies. -/
structure AuthState where
  forbids : List DiagnosticReason := []
  permits : List DiagnosticReason := []
  errors : List DiagnosticError := []
  deriving DecidableEq, Repr

/-- One round of the authorizer's loop: a policy whose evaluation fails is
recorded as an error and the loop goes on; a policy that does not hold is
passed over; one that holds is recorded under its effect. -/
def authorizeStep (entities : EntityMap) (req : Request) (st : AuthState)
    (entry : PolicyID × Policy) : AuthState :=
  match entry.2.eval entities req with
  | .error msg => { st with errors := st.errors ++ [⟨entry.1, msg⟩] }
  | .ok false => st
  | .ok true =>
    match entry.2.Effect with
    | .Forbid => { st with forbids := st.forbids ++ [⟨entry.1⟩] }
    | .Permit => { st with permits := st.permits ++ [⟨entry.1⟩] }

/-- Modelled from the spec: `cedar.Authorize` of the cedar-go library, which is
not part of the sources. Every policy is evaluated; the request is denied when
a forbid policy holds, otherwise allowed when a permit policy holds, otherwise
denied. The reasons are the policies that decided, the errors those whose
evaluation failed. -/
def Authorize (policies : PolicySet) (entities : EntityMap) (req : Request) :
    Decision × Diagnostic :=
  let st := policies.foldl (authorizeStep entities req) {}
  if st.forbids.length > 0 then
    (.Deny, { Reasons := st.forbids, Errors := st.errors })
  else if st.permits.length > 0 then
    (.Allow, { Reasons := st.permits, Errors := st.errors })
  else
    (.Deny, { Reasons := [], Errors := st.errors })

/-! ## internal/policy/engine.go -/

def ActionBuild : String := "build"
def ActionTest : String := "test"
def ActionLint : String := "lint"
def ActionMerge : String := "merge"
def ActionDeploy : String := "deploy"
def ActionRelease : String := "release"

/-- Engine evaluates Cedar policies against repository contexts. -/
structure Engine where
  policySet : PolicySet
  entities : EntityMap

/-- NewEngine creates a new policy evaluation engine. -/
def NewEngine : Engine :=
  { policySet := NewPolicySet, entities := [] }

/-- AddPolicy adds a policy to the engine. The parser `Policy.UnmarshalCedar`
belongs to the cedar-go library and is a parameter here. The result is the
error, if any, and the engine after the call. -/
def Engine.AddPolicy (UnmarshalCedar : List UInt8 → Except String Policy)
    (e : Engine) (id : String) (policyText : List UInt8) : Option String × Engine :=
  match UnmarshalCedar policyText with
  | .error err => (some ("parsing policy " ++ id ++ ": " ++ err), e)
  | .ok policy => (none, { e with policySet := e.policySet.Add id policy })

/-- AddPolicyFromFile loads and adds a policy from Cedar text. -/
def Engine.AddPolicyFromFile (UnmarshalCedar : List UInt8 → Except String Policy)
    (e : Engine) (id : String) (content : List UInt8) : Option String × Engine :=
  e.AddPolicy UnmarshalCedar id content

/-- stringSliceToSet converts a string slice to a Cedar Set: every element
becomes a `cedar.String` and `cedar.NewSet` collects them. -/
def stringSliceToSet (slice : List String) : Value :=
  .Set slice.toFinset

/-- buildRequest constructs a Cedar request from a policy context. -/
def Engine.buildRequest (_e : Engine) (ctx : PolicyContext) (action : String) : Request :=
  let principal : EntityUID := ⟨"CISystem", "pipelineconductor"⟩
  let actionUID : EntityUID := ⟨"Action", action⟩
  let resource : EntityUID := ⟨"Repository", ctx.Repo.FullName⟩
  let context : Record := [
    ("repoName", .String ctx.Repo.Name),
    ("repoOrg", .String ctx.Repo.Org),
    ("repoFullName", .String ctx.Repo.FullName),
    ("archived", .Boolean ctx.Repo.Archived),
    ("fork", .Boolean ctx.Repo.Fork),
    ("languages", stringSliceToSet ctx.Repo.Language),
    ("topics", stringSliceToSet ctx.Repo.Topics),
    ("hasWorkflow", .Boolean ctx.CI.HasWorkflow),
    ("usesReusableWorkflow", .Boolean ctx.CI.UsesReusableWorkflow),
    ("reusableWorkflowRef", .String ctx.CI.ReusableWorkflowRef),
    ("lastRunPassed", .Boolean ctx.CI.LastRunPassed),
    ("requiredChecks", stringSliceToSet ctx.CI.RequiredChecks),
    ("osMatrix", stringSliceToSet ctx.CI.OSMatrix),
    ("goVersions", stringSliceToSet ctx.Go.Versions),
    ("goProfile", .String ctx.Go.Profile),
    ("hasGoMod", .Boolean ctx.Go.HasGoMod),
    ("hasRenovate", .Boolean ctx.Dependencies.HasRenovate),
    ("hasDependabot", .Boolean ctx.Dependencies.HasDependabot),
    ("oldestDependencyDays", .Long ctx.Dependencies.OldestDependencyDays),
    ("hasVulnerabilities", .Boolean ctx.Dependencies.HasVulnerabilities),
    ("vulnerabilityCount", .Long ctx.Dependencies.VulnerabilityCount),
    ("branchProtectionEnabled", .Boolean ctx.BranchProtection.Enabled),
    ("requireReviews", .Boolean ctx.BranchProtection.RequireReviews),
    ("requireStatusChecks", .Boolean ctx.BranchProtection.RequireStatusChecks),
    ("branchProtectionEnforceAdmins", .Boolean ctx.BranchProtection.EnforceAdmins)
  ]
  { Principal := principal, Action := actionUID, Resource := resource, Context := context }

/-- EvaluationResult contains the result of a policy evaluation. -/
structure EvaluationResult where
  Allowed : Bool := false
  Action : String := ""
  RepoName : String := ""
  Reasons : List String := []
  Errors : List String := []
  Diagnostic : Diagnostic := {}
  deriving DecidableEq, Repr

/-- Evaluate evaluates policies for a repository and action. -/
def Engine.Evaluate (e : Engine) (ctx : PolicyContext) (action : String) : EvaluationResult :=
  let req := e.buildRequest ctx action
  let (decision, diagnostic) := Authorize e.policySet e.entities req
  let result : EvaluationResult :=
    { Allowed := decision == Decision.Allow
      Action := action
      RepoName := ctx.Repo.FullName
      Diagnostic := diagnostic }
  let result := diagnostic.Reasons.foldl
    (fun (r : EvaluationResult) reason => { r with Reasons := r.Reasons ++ [reason.PolicyID] }) result
  let result := diagnostic.Errors.foldl
    (fun (r : EvaluationResult) err => { r with Errors := r.Errors ++ [err.String] }) result
  result

/-- EvaluateAll evaluates all standard CI/CD actions for a repository. -/
def Engine.EvaluateAll (e : Engine) (ctx : PolicyContext) : List EvaluationResult :=
  let actions := [ActionBuild, ActionTest, ActionLint, ActionMerge]
  actions.foldl (fun results action => results ++ [e.Evaluate ctx action]) []

/-- ToViolation converts a denied evaluation to a model.Violation. -/
def EvaluationResult.ToViolation (r : EvaluationResult) : Option Violation :=
  if r.Allowed then
    none
  else
    let severity := SeverityMedium
    let severity :=
      if r.Action == ActionMerge || r.Action == ActionDeploy then SeverityHigh else severity
    let message := "Policy denied " ++ r.Action ++ " action"
    let message :=
      if r.Reasons.length > 0 then
        "Policy denied " ++ r.Action ++ " action (policies: " ++ fmtStrings r.Reasons ++ ")"
      else message
    some
      { Policy := "cedar/" ++ r.Action
        Rule := r.Action
        Message := message
        Severity := severity }

/-! ## internal/policy/profiles.go -/

/-- DefaultProfile returns the default CI/CD profile. -/
def DefaultProfile : Profile :=
  { Name := "default"
    Description := "Standard Go CI configuration for active projects"
    Go := { Versions := ["1.24", "1.25"] }
    OS := ["ubuntu-latest", "macos-latest", "windows-latest"]
    Checks := { Required := ["test", "lint", "build"] }
    Lint := { Enabled := true, Tool := "golangci-lint" }
    Test := { Coverage := true, Race := true } }

/-- A Go `map[string]bool`, as the list of its entries. -/
abbrev StringBoolMap := List (String × Bool)

/-- The assignment `m[k] = v`. -/
def StringBoolMap.set : StringBoolMap → String → Bool → StringBoolMap
  | [], k, v => [(k, v)]
  | (k', v') :: rest, k, v =>
    if k' = k then (k', v) :: rest else (k', v') :: StringBoolMap.set rest k v

/-- The read `m[k]`, which is `false` for a key that is not in the map. -/
def StringBoolMap.get : StringBoolMap → String → Bool
  | [], _ => false
  | (k', v') :: rest, k => if k' = k then v' else StringBoolMap.get rest k

/-- The inner loop of the version check and of the required-OS check: walk
`xs`, set `found` and break at the first element equal to `v`. -/
def foundIn (v : String) : List String → Bool
  | [] => false
  | x :: rest => if v = x then true else foundIn v rest

/-- The violation appended for a Go version that the profile does not allow. -/
def versionViolation (profile : Profile) (v : String) : Violation :=
  { Policy := "profile/go-version"
    Rule := "allowed-versions"
    Message := "Go version " ++ v ++ " not in profile " ++ profile.Name ++
      " allowed versions " ++ fmtStrings profile.Go.Versions
    Severity := SeverityMedium
    Remediation := "Update go-version to one of: " ++ fmtStrings profile.Go.Versions }

/-- The violation appended for an OS of the matrix that the profile does not list. -/
def allowedOSViolation (profile : Profile) (os : String) : Violation :=
  { Policy := "profile/os-matrix"
    Rule := "allowed-os"
    Message := "OS " ++ os ++ " not in profile " ++ profile.Name ++
      " allowed platforms " ++ fmtStrings profile.OS
    Severity := SeverityLow
    Remediation := "Update runs-on to one of: " ++ fmtStrings profile.OS }

/-- The violation appended for an OS of the profile that the matrix lacks. -/
def requiredOSViolation (profile : Profile) (requiredOS : String) : Violation :=
  { Policy := "profile/os-matrix"
    Rule := "required-os"
    Message := "Profile " ++ profile.Name ++ " requires OS " ++ requiredOS ++
      " but it's not in the matrix"
    Severity := SeverityInfo
    Remediation := "Add " ++ requiredOS ++ " to your OS matrix" }

/-- ValidateRepoAgainstProfile checks if a repo's CI config matches a profile. -/
def ValidateRepoAgainstProfile (ctx : PolicyContext) (profile : Profile) : List Violation :=
  let violations : List Violation := []
  -- Check Go versions
  let violations :=
    if ctx.Go.Versions.length > 0 then
      ctx.Go.Versions.foldl
        (fun violations v =>
          let found := foundIn v profile.Go.Versions
          if !found then violations ++ [versionViolation profile v] else violations)
        violations
    else violations
  -- Check OS matrix
  let violations :=
    if ctx.CI.OSMatrix.length > 0 then
      let profileOSSet : StringBoolMap :=
        profile.OS.foldl (fun m os => m.set os true) []
      let violations :=
        ctx.CI.OSMatrix.foldl
          (fun violations os =>
            if !profileOSSet.get os then violations ++ [allowedOSViolation profile os]
            else violations)
          violations
      -- Check for missing required OS
      profile.OS.foldl
        (fun violations requiredOS =>
          let found := foundIn requiredOS ctx.CI.OSMatrix
          if !found then violations ++ [requiredOSViolation profile requiredOS]
          else violations)
        violations
    else violations
  violations

/-- ModernProfile returns a profile for modern Go projects. -/
def ModernProfile : Profile :=
  { Name := "modern"
    Description := "Modern Go CI for projects using latest Go features"
    Go := { Versions := ["1.25"] }
    OS := ["ubuntu-latest", "macos-latest"]
    Checks := { Required := ["test", "lint", "build"] }
    Lint := { Enabled := true, Tool := "golangci-lint" }
    Test := { Coverage := true, Race := true } }

/-- LegacyProfile returns a profile for legacy Go projects. -/
def LegacyProfile : Profile :=
  { Name := "legacy"
    Description := "Legacy Go CI for older projects requiring Go 1.12-1.18"
    Go := { Versions := ["1.12"] }
    OS := ["ubuntu-latest"]
    Checks := { Required := ["test", "build"] }
    Lint := { Enabled := false }
    Test := { Coverage := false, Race := false } }

/-- A Go `map[string]*model.Profile`, as the list of its entries. -/
abbrev ProfileMap := List (String × Profile)

/-- The assignment `m[k] = p`. -/
def ProfileMap.set : ProfileMap → String → Profile → ProfileMap
  | [], k, p => [(k, p)]
  | (k', p') :: rest, k, p =>
    if k' = k then (k', p) :: rest else (k', p') :: ProfileMap.set rest k p

/-- The read `p, ok := m[k]`: `none` when `ok` is false. -/
def ProfileMap.get : ProfileMap → String → Option Profile
  | [], _ => none
  | (k', p') :: rest, k => if k' = k then some p' else ProfileMap.get rest k

/-- ProfileManager manages CI/CD profiles. -/
structure ProfileManager where
  profiles : ProfileMap
  deriving DecidableEq, Repr

/-- NewProfileManager creates a new profile manager. -/
def NewProfileManager : ProfileManager :=
  { profiles := [] }

/-- Get returns a profile by name. -/
def ProfileManager.Get (m : ProfileManager) (name : String) : Except String Profile :=
  match m.profiles.get name with
  | none => .error ("profile not found: " ++ name)
  | some profile => .ok profile

/-- GetOrDefault returns a profile by name, or the default profile if not found. -/
def ProfileManager.GetOrDefault (m : ProfileManager) (name : String) : Profile :=
  match m.profiles.get name with
  | some profile => profile
  | none =>
    match m.profiles.get "default" with
    | some profile => profile
    | none => DefaultProfile

/-- Add adds a profile to the manager. -/
def ProfileManager.Add (m : ProfileManager) (profile : Profile) : ProfileManager :=
  { m with profiles := m.profiles.set profile.Name profile }

/-- LoadBuiltinProfiles loads the built-in default profiles. -/
def ProfileManager.LoadBuiltinProfiles (m : ProfileManager) : ProfileManager :=
  ((m.Add DefaultProfile).Add ModernProfile).Add LegacyProfile

/-! ## pkg/model/repo.go -/

/-- A `time.Time`, as a number of nanoseconds. -/
abbrev Time := Int

/-- Repo represents a repository with its metadata. -/
structure Repo where
  Owner : String := ""
  Name : String := ""
  FullName : String := ""
  DefaultBranch : String := ""
  Languages : List String := []
  PrimaryLanguage : String := ""
  Topics : List String := []
  Visibility : String := ""
  Archived : Bool := false
  Fork : Bool := false
  CreatedAt : Time := 0
  UpdatedAt : Time := 0
  PushedAt : Time := 0
  HTMLURL : String := ""
  CloneURL : String := ""
  deriving DecidableEq, Repr

/-- RepoFilter defines criteria for filtering repositories. -/
structure RepoFilter where
  IncludeLanguages : List String := []
  ExcludeLanguages : List String := []
  IncludeTopics : List String := []
  ExcludeTopics : List String := []
  IncludeArchived : Bool := false
  IncludeForks : Bool := false
  VisibilityFilter : List String := []
  NamePattern : String := ""
  deriving DecidableEq, Repr

/-- BranchProtection represents branch protection settings. -/
structure BranchProtection where
  Branch : String := ""
  Enabled : Bool := false
  RequireReviews : Bool := false
  RequiredReviewers : Int := 0
  RequireStatusChecks : Bool := false
  RequiredStatusChecks : List String := []
  EnforceAdmins : Bool := false
  RequireSignedCommits : Bool := false
  AllowForcePushes : Bool := false
  AllowDeletions : Bool := false
  deriving DecidableEq, Repr

/-! ## pkg/model/workflow.go -/

/-- WorkflowStep represents a step within a job. -/
structure WorkflowStep where
  Name : String := ""
  Uses : String := ""
  Run : String := ""
  With : List (String × String) := []
  Env : List (String × String) := []
  deriving DecidableEq, Repr

/-- MatrixConfig represents a build matrix configuration. -/
structure MatrixConfig where
  OS : List String := []
  GoVersion : List String := []
  PythonVersion : List String := []
  NodeVersion : List String := []
  Include : List (List (String × String)) := []
  Exclude : List (List (String × String)) := []
  FailFast : Bool := false
  deriving DecidableEq, Repr

/-- ReusableWorkflowRef represents a reference to a reusable workflow. -/
structure ReusableWorkflowRef where
  Owner : String := ""
  Repo : String := ""
  Path : String := ""
  Ref : String := ""
  FullRef : String := ""
  deriving DecidableEq, Repr

/-- WorkflowJob represents a job within a workflow. -/
structure WorkflowJob where
  ID : String := ""
  Name : String := ""
  RunsOn : List String := []
  Steps : List WorkflowStep := []
  Needs : List String := []
  Matrix : Option MatrixConfig := none
  UsesReusableWorkflow : Bool := false
  ReusableWorkflowRef : Option ReusableWorkflowRef := none
  deriving DecidableEq, Repr

/-- Workflow represents a CI/CD workflow configuration. -/
structure Workflow where
  Name : String := ""
  Path : String := ""
  Content : String := ""
  Triggers : List String := []
  Jobs : List WorkflowJob := []
  UsesReusableWorkflow : Bool := false
  ReusableWorkflowRefs : List ReusableWorkflowRef := []
  State : String := ""
  CreatedAt : Time := 0
  UpdatedAt : Time := 0
  deriving DecidableEq, Repr

/-! ## pkg/model/result.go, continued -/

/-- Warning represents a non-blocking issue. -/
structure Warning where
  Code : String := ""
  Message : String := ""
  File : String := ""
  deriving DecidableEq, Repr

/-- RepoResult is the compliance result for a single repository. -/
structure RepoResult where
  Repo : Repo := {}
  Compliant : Bool := false
  Violations : List Violation := []
  Warnings : List Warning := []
  Skipped : Bool := false
  SkipReason : String := ""
  Error : String := ""
  ScanTimeMs : Int := 0
  deriving DecidableEq, Repr

/-- ScanSummary provides aggregate statistics for a scan. The compliance rate
is a float64 in the source and is left out. -/
structure ScanSummary where
  TotalRepos : Int := 0
  CompliantRepos : Int := 0
  NonCompliant : Int := 0
  Skipped : Int := 0
  Errors : Int := 0
  deriving DecidableEq, Repr

/-- ScanConfig captures the configuration used for a scan. -/
structure ScanConfig where
  Orgs : List String := []
  PolicyRepo : String := ""
  PolicyRef : String := ""
  Profile : String := ""
  Filter : RepoFilter := {}
  deriving DecidableEq, Repr

/-- ComplianceResult is the result of a compliance scan. -/
structure ComplianceResult where
  Timestamp : Time := 0
  Summary : ScanSummary := {}
  Repos : List RepoResult := []
  ScanDurationMs : Int := 0
  Config : ScanConfig := {}
  deriving DecidableEq, Repr

/-- IsCompliant returns true if there are no violations. -/
def RepoResult.IsCompliant (r : RepoResult) : Bool :=
  r.Violations.length == 0 && r.Error == ""

/-- ViolationCount returns the total number of violations. -/
def ComplianceResult.ViolationCount (c : ComplianceResult) : Int :=
  let count : Int := 0
  c.Repos.foldl (fun count r => count + (r.Violations.length : Int)) count

/-! ## internal/policy/context.go -/

/-- ContextBuilder builds a PolicyContext from repository data. -/
structure ContextBuilder where
  profile : Option Profile
  deriving DecidableEq, Repr

/-- NewContextBuilder creates a new context builder with an optional profile. -/
def NewContextBuilder (profile : Option Profile) : ContextBuilder :=
  { profile := profile }

/-- The body shared by the three collecting loops: an entry the set does not
hold yet is put in the set and appended to the slice. -/
def appendUnseen (st : List String × StringBoolMap) (x : String) :
    List String × StringBoolMap :=
  if !st.2.get x then (st.1 ++ [x], st.2.set x true) else st

/-- The variables of the loop of buildCIContext. -/
structure CILoopState where
  ctx : CIContext
  osMatrix : List String
  osMatrixSet : StringBoolMap
  deriving DecidableEq, Repr

/-- One job of buildCIContext: its RunsOn entries, then those of its matrix. -/
def ciJobStep (st : List String × StringBoolMap) (job : WorkflowJob) :
    List String × StringBoolMap :=
  let st := job.RunsOn.foldl appendUnseen st
  -- Check job matrix
  match job.Matrix with
  | some matrix => matrix.OS.foldl appendUnseen st
  | none => st

/-- One workflow of buildCIContext. -/
def ciWorkflowStep (st : CILoopState) (wf : Workflow) : CILoopState :=
  -- Check for reusable workflow usage
  let ctx :=
    if wf.ReusableWorkflowRefs.length > 0 then
      let ctx := { st.ctx with UsesReusableWorkflow := true }
      match wf.ReusableWorkflowRefs with
      | ref :: _ => { ctx with ReusableWorkflowRef := ref.FullRef }
      | [] => ctx
    else st.ctx
  -- Collect OS matrix from jobs
  let os := wf.Jobs.foldl ciJobStep (st.osMatrix, st.osMatrixSet)
  { ctx := ctx, osMatrix := os.1, osMatrixSet := os.2 }

def ContextBuilder.buildCIContext (_b : ContextBuilder) (workflows : List Workflow) :
    CIContext :=
  let ctx : CIContext := { HasWorkflow := decide (workflows.length > 0) }
  let st := workflows.foldl ciWorkflowStep { ctx := ctx, osMatrix := [], osMatrixSet := [] }
  { st.ctx with OSMatrix := st.osMatrix }

/-- The loop `for _, lang := range repo.Languages` of buildGoContext, which
sets isGo and breaks at the first language equal to "Go". -/
def isGoLoop : List String → Bool
  | [] => false
  | lang :: rest => if lang = "Go" then true else isGoLoop rest

/-- One job of buildGoContext: the Go versions of its matrix, if it has one. -/
def goJobStep (st : List String × StringBoolMap) (job : WorkflowJob) :
    List String × StringBoolMap :=
  match job.Matrix with
  | some matrix => matrix.GoVersion.foldl appendUnseen st
  | none => st

def ContextBuilder.buildGoContext (b : ContextBuilder) (repo : Repo)
    (workflows : List Workflow) : GoContext :=
  let ctx : GoContext := {}
  -- Check if this is a Go project
  let isGo := isGoLoop repo.Languages
  if !isGo then
    ctx
  else
    -- Set profile if provided
    let ctx :=
      match b.profile with
      | some profile => { ctx with Profile := profile.Name, Versions := profile.Go.Versions }
      | none => ctx
    -- Extract Go versions from workflow matrix
    let st := workflows.foldl (fun st wf => wf.Jobs.foldl goJobStep st)
      (([] : List String), ([] : StringBoolMap))
    let versions := st.1
    if versions.length > 0 then { ctx with Versions := versions } else ctx

/-- Build creates a PolicyContext from a repository and its associated data. -/
def ContextBuilder.Build (b : ContextBuilder) (repo : Repo) (workflows : List Workflow)
    (bp : Option BranchProtection) : PolicyContext :=
  let ctx : PolicyContext := {}
  -- Repo context
  let ctx := { ctx with Repo :=
    { Name := repo.Name
      Org := repo.Owner
      FullName := repo.FullName
      Language := repo.Languages
      Topics := repo.Topics
      Archived := repo.Archived
      Fork := repo.Fork } }
  -- CI context
  let ctx := { ctx with CI := b.buildCIContext workflows }
  -- Go context (if applicable)
  let ctx := { ctx with Go := b.buildGoContext repo workflows }
  -- Branch protection context
  match bp with
  | some bp =>
    { ctx with BranchProtection :=
      { Enabled := bp.Enabled
        RequireReviews := bp.RequireReviews
        RequireStatusChecks := bp.RequireStatusChecks
        EnforceAdmins := bp.EnforceAdmins } }
  | none => ctx

/-- BuildFromRepoResult creates a PolicyContext from a compliance scan result. -/
def ContextBuilder.BuildFromRepoResult (b : ContextBuilder) (result : RepoResult)
    (workflows : List Workflow) (bp : Option BranchProtection) : PolicyContext :=
  b.Build result.Repo workflows bp

/-- WithProfile sets the profile for context building. -/
def ContextBuilder.WithProfile (_b : ContextBuilder) (profile : Option Profile) :
    ContextBuilder :=
  { profile := profile }

/-! ## Specification vocabulary and sample inputs -/

/-- A policy holds for a request when its evaluation succeeds with `true`. -/
def Policy.holds (p : Policy) (entities : EntityMap) (req : Request) : Bool :=
  match p.eval entities req with
  | .ok b => b
  | .error _ => false

/-- Some policy of the set with the given effect holds for the request. -/
def PolicySet.someHolds (ps : PolicySet) (eff : Effect) (entities : EntityMap)
    (req : Request) : Bool :=
  ps.any (fun entry => decide (entry.2.Effect = eff) && entry.2.holds entities req)

/-- The policy `permit(principal, action, resource);` of TestEngineAddPolicy. -/
def permitAll : Policy :=
  { Effect := .Permit, eval := fun _ _ => .ok true }

/-- A policy `forbid(principal, action == Action::"merge", resource);`. -/
def forbidMerge : Policy :=
  { Effect := .Forbid, eval := fun _ req => .ok (decide (req.Action = ⟨"Action", "merge"⟩)) }

/-- An engine holding a permit-everything policy and a forbid-merge policy. -/
def sampleEngine : Engine :=
  { policySet := [("allow-all", permitAll), ("deny-merge", forbidMerge)], entities := [] }

/-- The engine `sampleEngine` with its two policies in the other order. -/
def sampleEngineSwapped : Engine :=
  { policySet := [("deny-merge", forbidMerge), ("allow-all", permitAll)], entities := [] }

/-- A parser for the two texts of TestEngineAddPolicy: the valid policy
`permit(principal, action, resource);` and nothing else. -/
def testUnmarshalCedar (text : List UInt8) : Except String Policy :=
  if text = goBytes "permit(principal, action, resource);" then .ok permitAll
  else .error "unexpected token"


/-- Keep-first deduplication: every element once, at the place of its first
occurrence. -/
def keepFirst : List String → List String
  | [] => []
  | x :: xs => x :: (keepFirst xs).filter (fun y => decide (y ≠ x))

/-- The set of a collecting loop holds exactly the entries of its slice. -/
def SetMatches (st : List String × StringBoolMap) : Prop :=
  ∀ k : String, st.2.get k = decide (k ∈ st.1)

/-- The OS identifiers of a job in the order they are visited: its RunsOn
entries, then the OS entries of its matrix when it has one. -/
def jobOSSequence (job : WorkflowJob) : List String :=
  job.RunsOn ++ (match job.Matrix with
    | some matrix => matrix.OS
    | none => [])

/-- The OS identifiers of a workflow list: workflows in input order, their jobs
in order. -/
def osSequence (workflows : List Workflow) : List String :=
  workflows.flatMap (fun wf => wf.Jobs.flatMap jobOSSequence)

/-- The Go versions a job's matrix declares, none without a matrix. -/
def jobGoVersions (job : WorkflowJob) : List String :=
  match job.Matrix with
  | some matrix => matrix.GoVersion
  | none => []

/-- The Go versions of a workflow list: workflows in input order, their jobs in
order. -/
def goVersionSequence (workflows : List Workflow) : List String :=
  workflows.flatMap (fun wf => wf.Jobs.flatMap jobGoVersions)

/-- The FullRef of the first reference of the first workflow, in input order,
that declares a reusable-workflow reference. -/
def firstDeclaredRef : List Workflow → Option String
  | [] => none
  | wf :: rest =>
    match wf.ReusableWorkflowRefs with
    | ref :: _ => some ref.FullRef
    | [] => firstDeclaredRef rest

/-- The FullRef of the first reference of the last workflow, in input order,
that declares a reusable-workflow reference. -/
def lastDeclaredRef (workflows : List Workflow) : Option String :=
  firstDeclaredRef workflows.reverse

/-- The profile most recently added under a name, in a sequence of Add calls. -/
def lastAdded (added : List Profile) (name : String) : Option Profile :=
  added.reverse.find? (fun p => decide (p.Name = name))

/-- A workflow that calls the reusable workflow `org/shared/.github/workflows/ci.yml@v1`
and runs one job on ubuntu-latest with a matrix. -/
def sampleWorkflowA : Workflow :=
  { Name := "ci"
    Jobs := [{ ID := "test", RunsOn := ["ubuntu-latest"],
               Matrix := some { OS := ["macos-latest", "ubuntu-latest"],
                                GoVersion := ["1.24", "1.25", "1.24"] } }]
    ReusableWorkflowRefs :=
      [{ Owner := "org", Repo := "shared", Path := ".github/workflows/ci.yml", Ref := "v1",
         FullRef := "org/shared/.github/workflows/ci.yml@v1" }] }

/-- A workflow that calls the reusable workflow `org/shared/.github/workflows/lint.yml@v2`. -/
def sampleWorkflowB : Workflow :=
  { Name := "lint"
    Jobs := [{ ID := "lint", RunsOn := ["windows-latest", "ubuntu-latest"] }]
    ReusableWorkflowRefs :=
      [{ Owner := "org", Repo := "shared", Path := ".github/workflows/lint.yml", Ref := "v2",
         FullRef := "org/shared/.github/workflows/lint.yml@v2" }] }

/-- A Go repository. -/
def sampleGoRepo : Repo :=
  { Owner := "org", Name := "repo", FullName := "org/repo", Languages := ["Shell", "Go"] }

/-! ## pkg/model/repo.go, continued -/

def contains : List String → String → Bool
  | [], _ => false
  | s :: rest, item => if s = item then true else contains rest item

def hasAny (slice : List String) : List String → Bool
  | [] => false
  | item :: rest => if contains slice item then true else hasAny slice rest

/-- Matches returns true if the repo matches the filter criteria. -/
def Repo.Matches (r : Repo) (filter : RepoFilter) : Bool :=
  if r.Archived && !filter.IncludeArchived then false
  else if r.Fork && !filter.IncludeForks then false
  else if decide (filter.VisibilityFilter.length > 0) &&
      !contains filter.VisibilityFilter r.Visibility then false
  else if decide (filter.IncludeLanguages.length > 0) &&
      !hasAny r.Languages filter.IncludeLanguages then false
  else if hasAny r.Languages filter.ExcludeLanguages then false
  else if decide (filter.IncludeTopics.length > 0) &&
      !hasAny r.Topics filter.IncludeTopics then false
  else if hasAny r.Topics filter.ExcludeTopics then false
  else true

/-! ## pkg/model/workflow.go, continued -/

/-- The text before and after the first occurrence of a separator, if it occurs. -/
def cutAtFirst (sep : Char) : List Char → Option (List Char × List Char)
  | [] => none
  | c :: rest =>
    if c = sep then some ([], rest)
    else
      match cutAtFirst sep rest with
      | some (before, after) => some (c :: before, after)
      | none => none

/-- The call `strings.SplitN(s, sep, n)` for a one-character separator: no
substring for n = 0, otherwise at most n substrings, the last one the
unsplit remainder. -/
def SplitN (sep : Char) : Nat → List Char → List (List Char)
  | 0, _ => []
  | 1, s => [s]
  | n + 2, s =>
    match cutAtFirst sep s with
    | some (before, after) => before :: SplitN sep (n + 1) after
    | none => [s]

/-- ParseReusableWorkflowRef parses a reusable workflow reference string.
Format: "owner/repo/.github/workflows/workflow.yml@ref" -/
def ParseReusableWorkflowRef (ref : String) : ReusableWorkflowRef :=
  let result : ReusableWorkflowRef := { FullRef := ref }
  let ref := ref.data
  let parts := SplitN '@' 2 ref
  let (result, ref) :=
    if parts.length = 2 then
      ({ result with Ref := String.mk (parts.getD 1 []) }, parts.getD 0 [])
    else (result, ref)
  let pathParts := SplitN '/' 3 ref
  let result :=
    if pathParts.length ≥ 1 then { result with Owner := String.mk (pathParts.getD 0 []) }
    else result
  let result :=
    if pathParts.length ≥ 2 then { result with Repo := String.mk (pathParts.getD 1 []) }
    else result
  let result :=
    if pathParts.length ≥ 3 then { result with Path := String.mk (pathParts.getD 2 []) }
    else result
  result

/-! ## internal/report/report.go -/

/-- Format represents the output format for reports (`type Format string`). -/
abbrev Format := String

def FormatJSON : Format := "json"
def FormatMarkdown : Format := "markdown"
def FormatSARIF : Format := "sarif"
def FormatCSV : Format := "csv"

/-- ParseFormat parses a format string into a Format. The second component is
the error, `none` for nil. -/
def ParseFormat (s : String) : Format × Option String :=
  if s = "json" then (FormatJSON, none)
  else if s = "markdown" ∨ s = "md" then (FormatMarkdown, none)
  else if s = "sarif" then (FormatSARIF, none)
  else if s = "csv" then (FormatCSV, none)
  else ("", some ("unknown format: " ++ s ++ " (supported: json, markdown, sarif, csv)"))

/-! ## internal/report/csv.go -/

/-- A value as a signed 64-bit integer: the result of int64 (and int)
arithmetic, which wraps around. -/
def wrapInt64 (x : Int) : Int :=
  (x + 2 ^ 63) % 2 ^ 64 - 2 ^ 63

/-- The conversion `string(digits)` of a byte slice that holds ASCII only. -/
def asciiString (digits : List UInt8) : String :=
  String.mk (digits.map (fun b => Char.ofNat b.toNat))

/-- The loop `for n > 0` of intToString and int64ToString, which puts the last
decimal digit of n in front of digits and divides n by 10. The first argument
bounds the number of rounds; a 64-bit value has at most 19 digits. -/
def digitLoop : Nat → Int → List UInt8 → List UInt8
  | 0, _, digits => digits
  | fuel + 1, n, digits =>
    if n > 0 then
      digitLoop fuel (Int.tdiv n 10)
        (UInt8.ofNat ((48 + Int.tmod n 10) % 256).toNat :: digits)
    else digits

def int64ToString (n : Int) : String :=
  if n = 0 then "0"
  else
    let neg := decide (n < 0)
    let n := if n < 0 then wrapInt64 (-n) else n
    let digits := digitLoop 20 n []
    let digits := if neg then (45 : UInt8) :: digits else digits
    asciiString digits

/-- The function intToString: the body of int64ToString on an int, which has
64 bits. -/
def intToString (n : Int) : String :=
  if n = 0 then "0"
  else
    let neg := decide (n < 0)
    let n := if n < 0 then wrapInt64 (-n) else n
    let digits := digitLoop 20 n []
    let digits := if neg then (45 : UInt8) :: digits else digits
    asciiString digits

def itoa (i : Int) : String :=
  if i = 0 then "0" else intToString i

def itoa64 (i : Int) : String :=
  if i = 0 then "0" else int64ToString i

/-- The header CSVFormatter.Format writes first. -/
def csvHeader : List String :=
  ["repo", "org", "compliant", "violation_count", "warning_count", "error", "skipped",
    "skip_reason", "scan_time_ms"]

/-- The row CSVFormatter.Format writes for one repository. -/
def csvRow (repo : RepoResult) : List String :=
  let compliant := "true"
  let compliant := if !repo.Compliant then "false" else compliant
  let skipped := "false"
  let skipped := if repo.Skipped then "true" else skipped
  [repo.Repo.FullName, repo.Repo.Owner, compliant, itoa (repo.Violations.length : Int),
    itoa (repo.Warnings.length : Int), repo.Error, skipped, repo.SkipReason,
    itoa64 repo.ScanTimeMs]

/-- The records CSVFormatter.Format hands to its `csv.Writer`, in order: the
header, then one row per repository. The encoding of the records as bytes
belongs to `encoding/csv`. -/
def CSVFormatter.records (result : ComplianceResult) : List (List String) :=
  result.Repos.foldl (fun records repo => records ++ [csvRow repo]) [csvHeader]

/-! ## internal/policy/loader.go -/

/-- requireWorkflowPolicy denies merge if no CI workflow exists -/
def requireWorkflowPolicy : String :=
  "\npermit(\n    principal,\n    action == Action::\"merge\",\n    resource\n)\nwhen \x7b\n    context.hasWorkflow == true\n\x7d;\n"

/-- requireTestsPolicy denies merge if tests haven't passed -/
def requireTestsPolicy : String :=
  "\npermit(\n    principal,\n    action == Action::\"merge\",\n    resource\n)\nwhen \x7b\n    context.lastRunPassed == true\n\x7d;\n"

/-- goVersionsPolicy permits build only with approved Go versions -/
def goVersionsPolicy : String :=
  "\npermit(\n    principal,\n    action == Action::\"build\",\n    resource\n)\nwhen \x7b\n    context.goVersions.containsAny([\"1.24\", \"1.25\"])\n\x7d;\n"

/-- Loader loads Cedar policies from various sources. -/
structure Loader where
  engine : Engine

/-- NewLoader creates a new policy loader. -/
def NewLoader (engine : Engine) : Loader :=
  { engine := engine }

/-- LoadFromBytes loads a policy from raw bytes with a given ID. -/
def Loader.LoadFromBytes (UnmarshalCedar : List UInt8 → Except String Policy)
    (l : Loader) (id : String) (content : List UInt8) : Option String × Loader :=
  let r := l.engine.AddPolicy UnmarshalCedar id content
  (r.1, { engine := r.2 })

/-- The map literal of LoadBuiltinPolicies, in the order the source lists it. -/
def builtinPolicies : List (String × String) :=
  [("builtin/require-workflow", requireWorkflowPolicy),
   ("builtin/require-tests", requireTestsPolicy),
   ("builtin/go-versions", goVersionsPolicy)]

/-- The loop of LoadBuiltinPolicies: the first policy that fails to parse ends
it with the wrapped error. -/
def loadPolicies (UnmarshalCedar : List UInt8 → Except String Policy) :
    List (String × String) → Loader → Option String × Loader
  | [], l => (none, l)
  | (id, content) :: rest, l =>
    match l.engine.AddPolicy UnmarshalCedar id (goBytes content) with
    | (some err, e) => (some ("loading builtin policy " ++ id ++ ": " ++ err), { engine := e })
    | (none, e) => loadPolicies UnmarshalCedar rest { engine := e }

/-- LoadBuiltinPolicies loads the built-in default policies. -/
def Loader.LoadBuiltinPolicies (UnmarshalCedar : List UInt8 → Except String Policy)
    (l : Loader) : Option String × Loader :=
  loadPolicies UnmarshalCedar builtinPolicies l

/-! ## The Cedar policies of loader.go -/

/-- Modelled from the spec: the expressions of the Cedar policy language that
the built-in policies use; the language belongs to the cedar-go library, which
is not part of the sources. -/
inductive CedarExpr where
  /-- The attribute access `context.name`. -/
  | contextAttr (name : String)
  /-- The literals `true` and `false`. -/
  | bool (b : Bool)
  /-- A set literal of strings. -/
  | strings (xs : List String)
  /-- The comparison `a == b`. -/
  | eq (a b : CedarExpr)
  /-- The call `a.containsAny(b)`. -/
  | containsAny (a b : CedarExpr)
  deriving DecidableEq, Repr

/-- The read of an attribute of a record. -/
def Record.get : Record → String → Option Value
  | [], _ => none
  | (k, v) :: rest, name => if k = name then some v else Record.get rest name

/-- Modelled from the spec: the value of a Cedar expression for a request. An
absent attribute and a containsAny on a value that is not a set are errors; a
comparison of two values of different types is false. -/
def CedarExpr.eval (req : Request) : CedarExpr → Except String Value
  | .contextAttr name =>
    match req.Context.get name with
    | some v => .ok v
    | none => .error ("attribute \x60" ++ name ++ "\x60 does not exist")
  | .bool b => .ok (.Boolean b)
  | .strings xs => .ok (.Set xs.toFinset)
  | .eq a b =>
    match a.eval req, b.eval req with
    | .ok va, .ok vb => .ok (.Boolean (decide (va = vb)))
    | .error err, _ => .error err
    | _, .error err => .error err
  | .containsAny a b =>
    match a.eval req, b.eval req with
    | .ok (.Set sa), .ok (.Set sb) => .ok (.Boolean (decide (∃ x ∈ sb, x ∈ sa)))
    | .error err, _ => .error err
    | _, .error err => .error err
    | _, _ => .error "type error: expected set"

/-- Modelled from the spec: a policy `effect(principal, action == uid, resource)
when { condition };` of the Cedar policy language, whose principal and resource
are unconstrained. -/
structure CedarPolicy where
  effect : Effect
  action : EntityUID
  condition : CedarExpr
  deriving DecidableEq, Repr

/-- Modelled from the spec: whether a Cedar policy holds for a request. A policy
whose scope does not match does not hold, and its condition is not evaluated;
a condition that is not a boolean is an error. -/
def CedarPolicy.toPolicy (p : CedarPolicy) : Policy :=
  { Effect := p.effect
    eval := fun _ req =>
      if req.Action = p.action then
        match p.condition.eval req with
        | .ok (.Boolean b) => .ok b
        | .ok _ => .error "type error: expected bool"
        | .error err => .error err
      else .ok false }

/-- The policy that the text requireWorkflowPolicy denotes. -/
def requireWorkflowParsed : CedarPolicy :=
  { effect := .Permit
    action := ⟨"Action", "merge"⟩
    condition := .eq (.contextAttr "hasWorkflow") (.bool true) }

/-- The policy that the text requireTestsPolicy denotes. -/
def requireTestsParsed : CedarPolicy :=
  { effect := .Permit
    action := ⟨"Action", "merge"⟩
    condition := .eq (.contextAttr "lastRunPassed") (.bool true) }

/-- The policy that the text goVersionsPolicy denotes. -/
def goVersionsParsed : CedarPolicy :=
  { effect := .Permit
    action := ⟨"Action", "build"⟩
    condition := .containsAny (.contextAttr "goVersions") (.strings ["1.24", "1.25"]) }

/-- Modelled from the spec: `Policy.UnmarshalCedar` on the three built-in policy
texts and on the valid text of TestEngineAddPolicy; any other text is taken as
a parse error. -/
def builtinUnmarshalCedar (text : List UInt8) : Except String Policy :=
  if text = goBytes requireWorkflowPolicy then .ok requireWorkflowParsed.toPolicy
  else if text = goBytes requireTestsPolicy then .ok requireTestsParsed.toPolicy
  else if text = goBytes goVersionsPolicy then .ok goVersionsParsed.toPolicy
  else if text = goBytes "permit(principal, action, resource);" then .ok permitAll
  else .error "unexpected token"

/-- The engine after `NewLoader(NewEngine()).LoadBuiltinPolicies()`. -/
def builtinEngine : Engine :=
  ((NewLoader NewEngine).LoadBuiltinPolicies builtinUnmarshalCedar).2.engine

/-! ## internal/policy/loader.go, continued -/

/-- The pieces of a path between its slashes, empty pieces included. -/
def splitSlash : List Char → List (List Char)
  | [] => [[]]
  | c :: rest =>
    if c = '/' then [] :: splitSlash rest
    else
      match splitSlash rest with
      | piece :: pieces => (c :: piece) :: pieces
      | [] => [[c]]

/-- One element of a path in `filepath.Clean`, on the elements kept so far, the
last one first: an empty element and `.` are dropped, `..` removes the element
before it, stays at the start of a relative path and is dropped at the root. -/
def cleanStep (rooted : Bool) (kept : List (List Char)) (elem : List Char) :
    List (List Char) :=
  if elem = [] ∨ elem = ['.'] then kept
  else if elem = ['.', '.'] then
    match kept with
    | top :: below => if top = ['.', '.'] then elem :: kept else below
    | [] => if rooted then [] else [elem]
  else elem :: kept

/-- The call `filepath.Clean(path)` on a slash-separated path: the shortest
equivalent path, `.` for the empty one. -/
def filepathClean (path : List Char) : List Char :=
  let rooted := decide (path.head? = some '/')
  let kept := (splitSlash path).foldl (cleanStep rooted) []
  let body := List.intercalate ['/'] kept.reverse
  let out := (if rooted then ['/'] else []) ++ body
  if out = [] then ['.'] else out

/-- A path without its trailing slashes. -/
def dropTrailingSlashes (path : List Char) : List Char :=
  (path.reverse.dropWhile (fun c => decide (c = '/'))).reverse

/-- The text after the last slash of a path, the whole path without a slash. -/
def afterLastSlash (path : List Char) : List Char :=
  (path.reverse.takeWhile (fun c => decide (c ≠ '/'))).reverse

/-- The text up to the last slash of a path, that slash included; empty
without a slash. -/
def uptoLastSlash (path : List Char) : List Char :=
  (path.reverse.dropWhile (fun c => decide (c ≠ '/'))).reverse

/-- The call `filepath.Base(path)`: the last element of the path, `.` for the
empty path and `/` for a path of slashes only. -/
def filepathBase (path : List Char) : List Char :=
  if path = [] then ['.']
  else
    let path := afterLastSlash (dropTrailingSlashes path)
    if path = [] then ['/'] else path

/-- The call `filepath.Dir(path)`: all but the last element of the path,
cleaned. -/
def filepathDir (path : List Char) : List Char :=
  filepathClean (uptoLastSlash path)

/-- The call `strings.TrimSuffix(s, suffix)`. -/
def TrimSuffix (s suffix : List Char) : List Char :=
  if suffix.isSuffixOf s then s.take (s.length - suffix.length) else s

/-- The policy id LoadFromFile computes from a path: the file name without its
.cedar suffix, after the name of the parent directory when there is one. -/
def policyIDOfPath (path : String) : String :=
  -- Use filename without extension as policy ID
  let base := filepathBase path.data
  let id := String.mk (TrimSuffix base ".cedar".data)
  -- Include parent directory in ID for uniqueness
  let dir := filepathDir path.data
  let parentDir := String.mk (filepathBase dir)
  if parentDir ≠ "." ∧ parentDir ≠ "/" then parentDir ++ "/" ++ id else id

/-- LoadFromFile loads a single Cedar policy file. The file system read
`os.ReadFile` and the parser are parameters. -/
def Loader.LoadFromFile (ReadFile : String → Except String (List UInt8))
    (UnmarshalCedar : List UInt8 → Except String Policy) (l : Loader) (path : String) :
    Option String × Loader :=
  match ReadFile path with
  | .error err => (some ("reading file " ++ path ++ ": " ++ err), l)
  | .ok content =>
    let id := policyIDOfPath path
    match l.engine.AddPolicy UnmarshalCedar id content with
    | (some err, e) => (some ("loading policy from " ++ path ++ ": " ++ err), { engine := e })
    | (none, e) => (none, { engine := e })

/-! ## internal/collector/github.go -/

/-- The parts of an `http.Response` that shouldRetryGitHub reads: the status
code, and the lookup `resp.Header.Get(name)`, which is empty for a header the
response does not carry. -/
structure Response where
  StatusCode : Int
  HeaderGet : String → String

def StatusForbidden : Int := 403
def StatusTooManyRequests : Int := 429
def StatusInternalServerError : Int := 500
def StatusBadGateway : Int := 502
def StatusServiceUnavailable : Int := 503
def StatusGatewayTimeout : Int := 504

/-- shouldRetryGitHub determines if a GitHub API request should be retried.
It handles both primary rate limits (X-RateLimit-Remaining=0) and
secondary rate limits (403/429 with Retry-After header). -/
def shouldRetryGitHub (resp : Option Response) (err : Option String) : Bool :=
  -- Retry on connection errors
  if err ≠ none then true
  else
    match resp with
    | none => false
    | some resp =>
      -- GitHub returns 403 for rate limits, 429 for abuse detection
      let rateLimited :=
        if resp.StatusCode = StatusForbidden ∨ resp.StatusCode = StatusTooManyRequests then
          -- Check for rate limit headers
          if resp.HeaderGet "X-RateLimit-Remaining" = "0" then true
          -- Check for Retry-After (secondary rate limit)
          else if resp.HeaderGet "Retry-After" ≠ "" then true
          -- Check for rate limit error message in response
          else if resp.HeaderGet "X-RateLimit-Limit" ≠ "" then true
          else false
        else false
      if rateLimited then true
      -- Retry on server errors
      else if resp.StatusCode = StatusInternalServerError ∨
          resp.StatusCode = StatusBadGateway ∨
          resp.StatusCode = StatusServiceUnavailable ∨
          resp.StatusCode = StatusGatewayTimeout then true
      else false

/-! ## internal/report/sarif.go -/

structure SARIFMultiformatMessage where
  Text : String := ""
  deriving DecidableEq, Repr

structure SARIFRuleConfig where
  Level : String := ""
  deriving DecidableEq, Repr

/-- SARIFRule describes a rule/policy. -/
structure SARIFRule where
  ID : String := ""
  Name : String := ""
  ShortDescription : SARIFMultiformatMessage := {}
  FullDescription : Option SARIFMultiformatMessage := none
  DefaultConfig : Option SARIFRuleConfig := none
  HelpURI : String := ""
  deriving DecidableEq, Repr

structure SARIFMessage where
  Text : String := ""
  deriving DecidableEq, Repr

structure SARIFArtifactLocation where
  URI : String := ""
  URIBaseID : String := ""
  deriving DecidableEq, Repr

structure SARIFRegion where
  StartLine : Int := 0
  StartColumn : Int := 0
  EndLine : Int := 0
  EndColumn : Int := 0
  deriving DecidableEq, Repr

structure SARIFPhysicalLocation where
  ArtifactLocation : SARIFArtifactLocation := {}
  Region : Option SARIFRegion := none
  deriving DecidableEq, Repr

structure SARIFLogicalLocation where
  Name : String := ""
  FullyQualifiedName : String := ""
  Kind : String := ""
  deriving DecidableEq, Repr

structure SARIFLocation where
  PhysicalLocation : Option SARIFPhysicalLocation := none
  LogicalLocations : List SARIFLogicalLocation := []
  deriving DecidableEq, Repr

structure SARIFFix where
  Description : SARIFMessage := {}
  deriving DecidableEq, Repr

/-- SARIFResult represents a single result/finding. -/
structure SARIFResult where
  RuleID : String := ""
  RuleIndex : Int := 0
  Level : String := ""
  Message : SARIFMessage := {}
  Locations : List SARIFLocation := []
  Fixes : List SARIFFix := []
  deriving DecidableEq, Repr

structure SARIFDriver where
  Name : String := ""
  Version : String := ""
  InformationURI : String := ""
  Rules : List SARIFRule := []
  deriving DecidableEq, Repr

structure SARIFTool where
  Driver : SARIFDriver := {}
  deriving DecidableEq, Repr

structure SARIFRun where
  Tool : SARIFTool := {}
  Results : List SARIFResult := []
  Rules : List SARIFRule := []
  deriving DecidableEq, Repr

/-- SARIF represents a SARIF log file. -/
structure SARIF where
  Version : String := ""
  Schema : String := ""
  Runs : List SARIFRun := []
  deriving DecidableEq, Repr

def severityToSARIFLevel (s : Severity) : String :=
  if s = SeverityCritical ∨ s = SeverityHigh then "error"
  else if s = SeverityMedium then "warning"
  else if s = SeverityLow ∨ s = SeverityInfo then "note"
  else "note"

/-- The assignment `m[k] = v` of a Go map with string keys, as the list of its
entries: a key already present keeps its place, a new key goes to the end. -/
def mapSet {α : Type} : List (String × α) → String → α → List (String × α)
  | [], k, v => [(k, v)]
  | (k', v') :: rest, k, v =>
    if k' = k then (k', v) :: rest else (k', v') :: mapSet rest k v

/-- The read `v, ok := m[k]` of a Go map with string keys: `none` when `ok` is
false. -/
def mapGet {α : Type} : List (String × α) → String → Option α
  | [], _ => none
  | (k', v') :: rest, k => if k' = k then some v' else mapGet rest k

/-- The variables of the loops of SARIFFormatter.Format. -/
structure SARIFLoopState where
  rulesMap : List (String × SARIFRule) := []
  ruleIndex : List (String × Int) := []
  results : List SARIFResult := []
  deriving DecidableEq, Repr

/-- The rule id of a violation: its policy, followed by a slash and its rule
when it has one. -/
def sarifRuleID (v : Violation) : String :=
  let ruleID := v.Policy
  if v.Rule ≠ "" then v.Policy ++ "/" ++ v.Rule else ruleID

/-- The result built for one violation, given its rule index. -/
def sarifResultOf (repo : RepoResult) (v : Violation) (index : Int) : SARIFResult :=
  let location : SARIFLocation :=
    { LogicalLocations :=
        [{ Name := repo.Repo.Name, FullyQualifiedName := repo.Repo.FullName,
           Kind := "repository" }] }
  -- Add file location if available
  let location :=
    if v.File ≠ "" then
      let physical : SARIFPhysicalLocation := { ArtifactLocation := { URI := v.File } }
      let physical :=
        if v.Line > 0 then { physical with Region := some { StartLine := v.Line } }
        else physical
      { location with PhysicalLocation := some physical }
    else location
  let sarifResult : SARIFResult :=
    { RuleID := sarifRuleID v
      RuleIndex := index
      Level := severityToSARIFLevel v.Severity
      Message := { Text := "[" ++ repo.Repo.FullName ++ "] " ++ v.Message }
      Locations := [location] }
  -- Add fix suggestion if remediation available
  if v.Remediation ≠ "" then
    { sarifResult with Fixes := [{ Description := { Text := v.Remediation } }] }
  else sarifResult

/-- The body of the inner loop of SARIFFormatter.Format, for one violation. -/
def sarifViolationStep (repo : RepoResult) (st : SARIFLoopState) (v : Violation) :
    SARIFLoopState :=
  let ruleID := sarifRuleID v
  -- Add rule if not seen
  let st :=
    match mapGet st.rulesMap ruleID with
    | none =>
      let rule : SARIFRule :=
        { ID := ruleID
          Name := v.Policy
          ShortDescription := { Text := v.Message }
          DefaultConfig := some { Level := severityToSARIFLevel v.Severity } }
      let rulesMap := mapSet st.rulesMap ruleID rule
      { st with rulesMap := rulesMap
                ruleIndex := mapSet st.ruleIndex ruleID ((rulesMap.length : Int) - 1) }
    | some _ => st
  -- Create result
  let sarifResult := sarifResultOf repo v ((mapGet st.ruleIndex ruleID).getD 0)
  { st with results := st.results ++ [sarifResult] }

/-- The loops of SARIFFormatter.Format over the repos and their violations. -/
def sarifCollect (repos : List RepoResult) : SARIFLoopState :=
  repos.foldl (fun st repo => repo.Violations.foldl (sarifViolationStep repo) st) {}

/-- The conversion of the rules map to a slice, `for ruleID, rule := range
rulesMap`, with the entries of the map ranged over in a given order: every
rule is stored at its index. -/
def sarifRulesIn (order : List (String × SARIFRule)) (st : SARIFLoopState) : List SARIFRule :=
  order.foldl
    (fun rules entry => rules.set ((mapGet st.ruleIndex entry.1).getD 0).toNat entry.2)
    (List.replicate st.rulesMap.length {})

/-- The conversion of the rules map to a slice, the map ranged over in the order
of insertion. -/
def sarifRules (st : SARIFLoopState) : List SARIFRule :=
  sarifRulesIn st.rulesMap st

/-- The SARIF document that SARIFFormatter.Format marshals; the encoding as
JSON belongs to `encoding/json`. -/
def SARIFFormatter.document (result : ComplianceResult) : SARIF :=
  let sarif : SARIF :=
    { Version := "2.1.0"
      Schema :=
        "https://raw.githubusercontent.com/oasis-tcs/sarif-spec/master/Schemata/sarif-schema-2.1.0.json"
      Runs := [] }
  let st := sarifCollect result.Repos
  let rules := sarifRules st
  let run : SARIFRun :=
    { Tool := { Driver := { Name := "PipelineConductor", Version := "0.1.0",
                            InformationURI := "https://github.com/grokify/pipelineconductor",
                            Rules := rules } }
      Results := st.results }
  { sarif with Runs := sarif.Runs ++ [run] }

/-- What the loops of SARIFFormatter.Format keep true: the keys of the rules
map are distinct, every rule is stored under its own id, the index map gives
every key its position among the keys, and so does the RuleIndex of every
result for its RuleID. -/
def SARIFInvariant (st : SARIFLoopState) : Prop :=
  (st.rulesMap.map Prod.fst).Nodup ∧
  (∀ entry ∈ st.rulesMap, entry.2.ID = entry.1) ∧
  (∀ k ∈ st.rulesMap.map Prod.fst,
    mapGet st.ruleIndex k = some (((st.rulesMap.map Prod.fst).indexOf k : Nat) : Int)) ∧
  (∀ res ∈ st.results, res.RuleID ∈ st.rulesMap.map Prod.fst ∧
    res.RuleIndex = (((st.rulesMap.map Prod.fst).indexOf res.RuleID : Nat) : Int))

/-- The rule id and the message of the result of every violation of a list of
repos, repo by repo. -/
def sarifExpected (repos : List RepoResult) : List (String × String) :=
  repos.flatMap (fun repo =>
    repo.Violations.map (fun v =>
      (sarifRuleID v, "[" ++ repo.Repo.FullName ++ "] " ++ v.Message)))

/-! ## Sample inputs for the loader and the reports -/

/-- A file system with two policy files of the same name in two directories
that are both called common. -/
def sampleReadFile (path : String) : Except String (List UInt8) :=
  if path = "policies/a/common/merge.cedar" then .ok (goBytes requireWorkflowPolicy)
  else if path = "policies/b/common/merge.cedar" then .ok (goBytes requireTestsPolicy)
  else .error "no such file or directory"

/-- The scan result of the report tests, with a second violation of the same
rule and one of another rule. -/
def sampleComplianceResult : ComplianceResult :=
  { Repos :=
      [{ Repo := { FullName := "testorg/repo1", Name := "repo1", Owner := "testorg" },
         Compliant := true, ScanTimeMs := 100 },
       { Repo := { FullName := "testorg/repo2", Name := "repo2", Owner := "testorg" },
         Violations :=
           [{ Policy := "ci/workflow-required", Rule := "has-workflow",
              Message := "No CI/CD workflow found", Severity := SeverityHigh,
              Remediation := "Create a .github/workflows/ci.yml file" },
            { Policy := "profile/os-matrix", Rule := "allowed-os",
              Message := "OS solaris not allowed", Severity := SeverityLow }],
         ScanTimeMs := 150 },
       { Repo := { FullName := "testorg/repo3", Name := "repo3", Owner := "testorg" },
         Violations :=
           [{ Policy := "ci/workflow-required", Rule := "has-workflow",
              Message := "No CI/CD workflow found", Severity := SeverityHigh }] }] }

/-! ## Lemmas about the evaluation loop -/

theorem foldl_reasons_fields (rs : List DiagnosticReason) (r : EvaluationResult) :
    let out := rs.foldl
      (fun (r : EvaluationResult) reason => { r with Reasons := r.Reasons ++ [reason.PolicyID] }) r
    out.Allowed = r.Allowed ∧ out.Action = r.Action ∧ out.RepoName = r.RepoName := by
  induction rs generalizing r with
  | nil => simp
  | cons x xs ih => simpa using ih _

theorem foldl_errors_fields (es : List DiagnosticError) (r : EvaluationResult) :
    let out := es.foldl
      (fun (r : EvaluationResult) err => { r with Errors := r.Errors ++ [err.String] }) r
    out.Allowed = r.Allowed ∧ out.Action = r.Action ∧ out.RepoName = r.RepoName := by
  induction es generalizing r with
  | nil => simp
  | cons x xs ih => simpa using ih _

theorem Evaluate_Allowed (e : Engine) (ctx : PolicyContext) (action : String) :
    (e.Evaluate ctx action).Allowed =
      ((Authorize e.policySet e.entities (e.buildRequest ctx action)).1 == Decision.Allow) := by
  unfold Engine.Evaluate
  simp only []
  rw [(foldl_errors_fields _ _).1, (foldl_reasons_fields _ _).1]

theorem Evaluate_Action (e : Engine) (ctx : PolicyContext) (action : String) :
    (e.Evaluate ctx action).Action = action := by
  unfold Engine.Evaluate
  simp only []
  rw [(foldl_errors_fields _ _).2.1, (foldl_reasons_fields _ _).2.1]

theorem authorize_fold_forbids (entities : EntityMap) (req : Request) (ps : PolicySet)
    (st : AuthState) :
    (ps.foldl (authorizeStep entities req) st).forbids =
      st.forbids ++ (ps.filter (fun entry =>
        decide (entry.2.Effect = Effect.Forbid) && entry.2.holds entities req)).map
          (fun entry => ⟨entry.1⟩) := by
  induction ps generalizing st with
  | nil => simp
  | cons entry rest ih =>
    rw [List.foldl_cons, ih]
    unfold authorizeStep Policy.holds
    cases hev : entry.2.eval entities req with
    | error msg => simp [List.filter_cons, hev]
    | ok b =>
      cases b with
      | false => simp [List.filter_cons, hev]
      | true => cases hef : entry.2.Effect <;> simp [List.filter_cons, hev, hef]

theorem authorize_fold_permits (entities : EntityMap) (req : Request) (ps : PolicySet)
    (st : AuthState) :
    (ps.foldl (authorizeStep entities req) st).permits =
      st.permits ++ (ps.filter (fun entry =>
        decide (entry.2.Effect = Effect.Permit) && entry.2.holds entities req)).map
          (fun entry => ⟨entry.1⟩) := by
  induction ps generalizing st with
  | nil => simp
  | cons entry rest ih =>
    rw [List.foldl_cons, ih]
    unfold authorizeStep Policy.holds
    cases hev : entry.2.eval entities req with
    | error msg => simp [List.filter_cons, hev]
    | ok b =>
      cases b with
      | false => simp [List.filter_cons, hev]
      | true => cases hef : entry.2.Effect <;> simp [List.filter_cons, hev, hef]

theorem filter_map_length_pos {α β : Type} (p : α → Bool) (f : α → β) (l : List α) :
    (0 < ((l.filter p).map f).length) ↔ l.any p = true := by
  rw [List.length_map, List.length_pos, List.any_eq_true]
  constructor
  · intro h
    obtain ⟨x, hx⟩ := List.exists_mem_of_ne_nil _ h
    exact ⟨x, (List.mem_filter.1 hx).1, (List.mem_filter.1 hx).2⟩
  · rintro ⟨x, hx, hp⟩
    exact List.ne_nil_of_mem (List.mem_filter.2 ⟨hx, hp⟩)

theorem Authorize_decision (ps : PolicySet) (entities : EntityMap) (req : Request) :
    (Authorize ps entities req).1 =
      if ps.someHolds .Forbid entities req then Decision.Deny
      else if ps.someHolds .Permit entities req then Decision.Allow
      else Decision.Deny := by
  unfold Authorize PolicySet.someHolds
  simp only [authorize_fold_forbids, authorize_fold_permits, gt_iff_lt]
  simp only [List.nil_append, filter_map_length_pos]
  split_ifs <;> rfl

theorem someHolds_perm (ps ps' : PolicySet) (eff : Effect) (entities : EntityMap)
    (req : Request) (h : ps'.Perm ps) :
    ps'.someHolds eff entities req = ps.someHolds eff entities req := by
  unfold PolicySet.someHolds
  rw [Bool.eq_iff_iff, List.any_eq_true, List.any_eq_true]
  constructor
  · rintro ⟨x, hx, hp⟩; exact ⟨x, h.mem_iff.1 hx, hp⟩
  · rintro ⟨x, hx, hp⟩; exact ⟨x, h.mem_iff.2 hx, hp⟩

/-! ## Lemmas about the profile validator -/

theorem foundIn_eq_decide_mem (v : String) (xs : List String) :
    foundIn v xs = decide (v ∈ xs) := by
  induction xs with
  | nil => simp [foundIn]
  | cons x rest ih =>
    unfold foundIn
    by_cases h : v = x
    · simp [h]
    · simp [h, ih]

theorem StringBoolMap.get_set_true (m : StringBoolMap) (k' k : String) :
    (m.set k' true).get k = (decide (k' = k) || m.get k) := by
  induction m with
  | nil => simp [StringBoolMap.set, StringBoolMap.get]
  | cons entry rest ih =>
    obtain ⟨a, b⟩ := entry
    unfold StringBoolMap.set
    by_cases h : a = k'
    · subst h
      by_cases hk : a = k <;> simp [StringBoolMap.get, hk]
    · by_cases hk : a = k
      · subst hk
        have : ¬ k' = a := fun h' => h h'.symm
        simp [StringBoolMap.get, h, this]
      · simp [StringBoolMap.get, h, hk, ih]

theorem profileOSSet_get (xs : List String) (m : StringBoolMap) (k : String) :
    (xs.foldl (fun (m : StringBoolMap) os => m.set os true) m).get k =
      (m.get k || decide (k ∈ xs)) := by
  induction xs generalizing m with
  | nil => simp
  | cons x rest ih =>
    rw [List.foldl_cons, ih, StringBoolMap.get_set_true]
    by_cases h : x = k
    · simp [h]
    · have : ¬ k = x := fun h' => h h'.symm
      simp [h, this]

theorem foldl_append_unless {α : Type} (c : α → Bool) (f : α → Violation) (xs : List α)
    (init : List Violation) :
    xs.foldl (fun violations x => if !c x then violations ++ [f x] else violations) init =
      init ++ (xs.filter (fun x => !c x)).map f := by
  induction xs generalizing init with
  | nil => simp
  | cons x rest ih =>
    rw [List.foldl_cons, ih]
    cases h : c x <;> simp [List.filter_cons, h]

/-- The list ValidateRepoAgainstProfile returns, as three filtered lists. -/
theorem ValidateRepoAgainstProfile_eq (ctx : PolicyContext) (profile : Profile) :
    ValidateRepoAgainstProfile ctx profile =
      (ctx.Go.Versions.filter (fun v => decide (v ∉ profile.Go.Versions))).map
          (versionViolation profile) ++
        ((ctx.CI.OSMatrix.filter (fun os => decide (os ∉ profile.OS))).map
            (allowedOSViolation profile) ++
          if ctx.CI.OSMatrix = [] then []
          else (profile.OS.filter (fun os => decide (os ∉ ctx.CI.OSMatrix))).map
            (requiredOSViolation profile)) := by
  unfold ValidateRepoAgainstProfile
  simp only [foldl_append_unless, foundIn_eq_decide_mem, profileOSSet_get, StringBoolMap.get,
    Bool.false_or, List.nil_append, gt_iff_lt, List.length_pos]
  cases hv : ctx.Go.Versions with
  | nil =>
    cases ho : ctx.CI.OSMatrix with
    | nil => simp
    | cons o os => simp
  | cons v vs =>
    cases ho : ctx.CI.OSMatrix with
    | nil => simp
    | cons o os => simp

theorem filter_map_all {α β : Type} (p : β → Bool) (f : α → β) (l : List α)
    (h : ∀ x, p (f x) = true) : (l.map f).filter p = l.map f := by
  rw [List.filter_eq_self]
  intro b hb
  obtain ⟨a, _, rfl⟩ := List.mem_map.1 hb
  exact h a

theorem filter_map_none {α β : Type} (p : β → Bool) (f : α → β) (l : List α)
    (h : ∀ x, p (f x) = false) : (l.map f).filter p = [] := by
  rw [List.filter_eq_nil_iff]
  intro b hb
  obtain ⟨a, _, rfl⟩ := List.mem_map.1 hb
  simp [h a]

/-! ## Lemmas about the context builder -/

theorem Build_CI (b : ContextBuilder) (repo : Repo) (workflows : List Workflow)
    (bp : Option BranchProtection) :
    (b.Build repo workflows bp).CI = b.buildCIContext workflows := by
  unfold ContextBuilder.Build
  cases bp <;> rfl

theorem Build_Go (b : ContextBuilder) (repo : Repo) (workflows : List Workflow)
    (bp : Option BranchProtection) :
    (b.Build repo workflows bp).Go = b.buildGoContext repo workflows := by
  unfold ContextBuilder.Build
  cases bp <;> rfl

theorem ciWorkflowStep_HasWorkflow (st : CILoopState) (wf : Workflow) :
    (ciWorkflowStep st wf).ctx.HasWorkflow = st.ctx.HasWorkflow := by
  unfold ciWorkflowStep
  cases h : wf.ReusableWorkflowRefs <;> simp

theorem ci_fold_HasWorkflow (workflows : List Workflow) (st : CILoopState) :
    (workflows.foldl ciWorkflowStep st).ctx.HasWorkflow = st.ctx.HasWorkflow := by
  induction workflows generalizing st with
  | nil => rfl
  | cons wf rest ih => rw [List.foldl_cons, ih, ciWorkflowStep_HasWorkflow]

theorem isGoLoop_eq_decide_mem (langs : List String) :
    isGoLoop langs = decide ("Go" ∈ langs) := by
  induction langs with
  | nil => simp [isGoLoop]
  | cons lang rest ih =>
    unfold isGoLoop
    by_cases h : lang = "Go"
    · simp [h]
    · have : ¬ "Go" = lang := fun h' => h h'.symm
      simp [h, this, ih]

theorem violation_fold_eq_sum (repos : List RepoResult) (count : Int) :
    repos.foldl (fun count r => count + (r.Violations.length : Int)) count =
      count + (repos.map (fun r => (r.Violations.length : Int))).sum := by
  induction repos generalizing count with
  | nil => simp
  | cons r rest ih => rw [List.foldl_cons, ih]; simp [add_assoc]

theorem firstDeclaredRef_append_singleton (workflows : List Workflow) (wf : Workflow) :
    lastDeclaredRef (workflows ++ [wf]) =
      match wf.ReusableWorkflowRefs with
      | ref :: _ => some ref.FullRef
      | [] => lastDeclaredRef workflows := by
  unfold lastDeclaredRef
  rw [List.reverse_append, List.reverse_singleton, List.singleton_append]
  rfl

theorem ciWorkflowStep_ref (st : CILoopState) (wf : Workflow) :
    (ciWorkflowStep st wf).ctx.ReusableWorkflowRef =
        (match wf.ReusableWorkflowRefs with
          | ref :: _ => ref.FullRef
          | [] => st.ctx.ReusableWorkflowRef) ∧
    (ciWorkflowStep st wf).ctx.UsesReusableWorkflow =
        (match wf.ReusableWorkflowRefs with
          | _ :: _ => true
          | [] => st.ctx.UsesReusableWorkflow) := by
  unfold ciWorkflowStep
  cases h : wf.ReusableWorkflowRefs <;> simp

theorem ci_fold_ref (workflows : List Workflow) (st : CILoopState) :
    (workflows.foldl ciWorkflowStep st).ctx.ReusableWorkflowRef =
        (lastDeclaredRef workflows).getD st.ctx.ReusableWorkflowRef ∧
    (workflows.foldl ciWorkflowStep st).ctx.UsesReusableWorkflow =
        ((lastDeclaredRef workflows).isSome || st.ctx.UsesReusableWorkflow) := by
  induction workflows using List.reverseRecOn with
  | nil => simp [lastDeclaredRef, firstDeclaredRef]
  | append_singleton rest wf ih =>
    rw [List.foldl_append, List.foldl_cons, List.foldl_nil,
      firstDeclaredRef_append_singleton, (ciWorkflowStep_ref _ _).1, (ciWorkflowStep_ref _ _).2]
    cases h : wf.ReusableWorkflowRefs with
    | nil => simpa using ih
    | cons ref refs => simp

theorem lastDeclaredRef_isSome (workflows : List Workflow) :
    (lastDeclaredRef workflows).isSome = true ↔
      ∃ wf ∈ workflows, wf.ReusableWorkflowRefs ≠ [] := by
  induction workflows using List.reverseRecOn with
  | nil => simp [lastDeclaredRef, firstDeclaredRef]
  | append_singleton rest wf ih =>
    rw [firstDeclaredRef_append_singleton]
    cases h : wf.ReusableWorkflowRefs with
    | nil =>
      simp only [ih, List.mem_append, List.mem_singleton]
      constructor
      · rintro ⟨w, hw, hne⟩; exact ⟨w, Or.inl hw, hne⟩
      · rintro ⟨w, hw | hw, hne⟩
        · exact ⟨w, hw, hne⟩
        · subst hw; exact absurd h hne
    | cons ref refs =>
      simp only [Option.isSome_some, true_iff]
      exact ⟨wf, by simp, by simp [h]⟩

theorem mem_keepFirst (l : List String) (y : String) : y ∈ keepFirst l ↔ y ∈ l := by
  induction l with
  | nil => simp [keepFirst]
  | cons x xs ih =>
    simp only [keepFirst, List.mem_cons, List.mem_filter, ih, decide_eq_true_eq]
    constructor
    · rintro (h | ⟨h, _⟩)
      · exact Or.inl h
      · exact Or.inr h
    · rintro (h | h)
      · exact Or.inl h
      · by_cases hyx : y = x
        · exact Or.inl hyx
        · exact Or.inr ⟨h, hyx⟩

theorem nodup_keepFirst (l : List String) : (keepFirst l).Nodup := by
  induction l with
  | nil => simp [keepFirst]
  | cons x xs ih =>
    simp only [keepFirst, List.nodup_cons]
    exact ⟨by simp [List.mem_filter], ih.filter _⟩

theorem keepFirst_sublist (l : List String) : (keepFirst l).Sublist l := by
  induction l with
  | nil => simp [keepFirst]
  | cons x xs ih =>
    simp only [keepFirst]
    exact List.Sublist.cons₂ x ((List.filter_sublist _).trans ih)

theorem keepFirst_eq_nil (l : List String) : keepFirst l = [] ↔ l = [] := by
  cases l <;> simp [keepFirst]

theorem appendUnseen_spec (st : List String × StringBoolMap) (x : String)
    (h : SetMatches st) :
    SetMatches (appendUnseen st x) ∧
    (appendUnseen st x).1 = if x ∈ st.1 then st.1 else st.1 ++ [x] := by
  unfold appendUnseen
  rw [h x]
  by_cases hx : x ∈ st.1
  · simp [hx, h]
  · simp only [hx, decide_False, Bool.not_false, if_true, if_false]
    refine ⟨?_, trivial⟩
    intro k
    simp only [StringBoolMap.get_set_true, h k, List.mem_append, List.mem_singleton]
    by_cases hk : x = k
    · simp [hk]
    · have : ¬ k = x := fun h' => hk h'.symm
      simp [hk, this]

theorem fold_appendUnseen (xs : List String) (st : List String × StringBoolMap)
    (h : SetMatches st) :
    SetMatches (xs.foldl appendUnseen st) ∧
    (xs.foldl appendUnseen st).1 =
      st.1 ++ (keepFirst xs).filter (fun y => decide (y ∉ st.1)) := by
  induction xs generalizing st with
  | nil => simp [keepFirst, h]
  | cons x rest ih =>
    obtain ⟨hinv, hval⟩ := appendUnseen_spec st x h
    obtain ⟨hinv', hval'⟩ := ih _ hinv
    rw [List.foldl_cons]
    refine ⟨hinv', ?_⟩
    rw [hval', hval]
    by_cases hx : x ∈ st.1
    · simp only [hx, if_true, keepFirst, List.filter_cons, not_true_eq_false, decide_False,
        Bool.false_eq_true, if_false, List.filter_filter]
      congr 1
      apply List.filter_congr
      intro y _
      by_cases hy : y ∈ st.1
      · simp [hy]
      · have : y ≠ x := fun hyx => hy (hyx ▸ hx)
        simp [hy, this]
    · simp only [hx, if_false, keepFirst, List.filter_cons, not_false_eq_true, decide_True,
        if_true, List.filter_filter, List.append_assoc, List.singleton_append]
      congr 2
      apply List.filter_congr
      intro y _
      by_cases hy : y ∈ st.1 <;> by_cases hyx : y = x <;> simp [hy, hyx]

theorem foldl_flatMap_eq {α β γ : Type} (f : α → List β) (g : γ → β → γ) (l : List α)
    (init : γ) :
    (l.flatMap f).foldl g init = l.foldl (fun acc a => (f a).foldl g acc) init := by
  induction l generalizing init with
  | nil => rfl
  | cons a rest ih => rw [List.flatMap_cons, List.foldl_append, ih, List.foldl_cons]

theorem ciJobStep_eq (st : List String × StringBoolMap) (job : WorkflowJob) :
    ciJobStep st job = (jobOSSequence job).foldl appendUnseen st := by
  unfold ciJobStep jobOSSequence
  cases job.Matrix <;> simp [List.foldl_append]

theorem goJobStep_eq (st : List String × StringBoolMap) (job : WorkflowJob) :
    goJobStep st job = (jobGoVersions job).foldl appendUnseen st := by
  unfold goJobStep jobGoVersions
  cases job.Matrix <;> simp

theorem ci_fold_os (workflows : List Workflow) (st : CILoopState) :
    ((workflows.foldl ciWorkflowStep st).osMatrix,
        (workflows.foldl ciWorkflowStep st).osMatrixSet) =
      (osSequence workflows).foldl appendUnseen (st.osMatrix, st.osMatrixSet) := by
  induction workflows generalizing st with
  | nil => rfl
  | cons wf rest ih =>
    have hjob : (fun acc a => (jobOSSequence a).foldl appendUnseen acc) = ciJobStep := by
      funext acc a; rw [ciJobStep_eq]
    have hseq : osSequence (wf :: rest) =
        wf.Jobs.flatMap jobOSSequence ++ osSequence rest := rfl
    rw [List.foldl_cons, ih, hseq, List.foldl_append, foldl_flatMap_eq, hjob]
    rfl

theorem buildCIContext_OSMatrix (b : ContextBuilder) (workflows : List Workflow) :
    (b.buildCIContext workflows).OSMatrix = keepFirst (osSequence workflows) := by
  unfold ContextBuilder.buildCIContext
  have h := congrArg Prod.fst (ci_fold_os workflows
    { ctx := { HasWorkflow := decide (workflows.length > 0) }, osMatrix := [],
      osMatrixSet := [] })
  simp only at h
  simp only [h]
  rw [(fold_appendUnseen _ _ (fun k => by simp [StringBoolMap.get])).2]
  simp

theorem go_fold_versions (workflows : List Workflow) :
    (workflows.foldl (fun st wf => wf.Jobs.foldl goJobStep st)
      (([] : List String), ([] : StringBoolMap))).1 = keepFirst (goVersionSequence workflows) := by
  have h : ∀ (wfs : List Workflow) (st : List String × StringBoolMap),
      wfs.foldl (fun st wf => wf.Jobs.foldl goJobStep st) st =
        (goVersionSequence wfs).foldl appendUnseen st := by
    intro wfs
    induction wfs with
    | nil => intro st; rfl
    | cons wf rest ih =>
      intro st
      have hjob : (fun acc a => (jobGoVersions a).foldl appendUnseen acc) = goJobStep := by
        funext acc a; rw [goJobStep_eq]
      have hseq : goVersionSequence (wf :: rest) =
          wf.Jobs.flatMap jobGoVersions ++ goVersionSequence rest := rfl
      rw [List.foldl_cons, ih, hseq, List.foldl_append, foldl_flatMap_eq, hjob]
  rw [h, (fold_appendUnseen _ _ (fun k => by simp [StringBoolMap.get])).2]
  simp

/-! ## Lemmas about the profile registry -/

theorem ProfileMap.get_set (m : ProfileMap) (k' k : String) (p : Profile) :
    (m.set k' p).get k = if k' = k then some p else m.get k := by
  induction m with
  | nil => simp [ProfileMap.set, ProfileMap.get]
  | cons entry rest ih =>
    obtain ⟨a, q⟩ := entry
    unfold ProfileMap.set
    by_cases h : a = k'
    · subst h
      by_cases hk : a = k <;> simp [ProfileMap.get, hk]
    · by_cases hk : a = k
      · subst hk
        have : ¬ k' = a := fun h' => h h'.symm
        simp [ProfileMap.get, h, this]
      · simp [ProfileMap.get, h, hk, ih]

theorem lastAdded_append_singleton (added : List Profile) (p : Profile) (name : String) :
    lastAdded (added ++ [p]) name = if p.Name = name then some p else lastAdded added name := by
  unfold lastAdded
  rw [List.reverse_append, List.reverse_singleton, List.singleton_append, List.find?_cons]
  by_cases h : p.Name = name <;> simp [h]

theorem lastAdded_name (added : List Profile) (name : String) (p : Profile)
    (h : lastAdded added name = some p) : p.Name = name := by
  have := List.find?_some h
  simpa using this

theorem registry_get (added : List Profile) (name : String) :
    (added.foldl ProfileManager.Add NewProfileManager).profiles.get name =
      lastAdded added name := by
  induction added using List.reverseRecOn with
  | nil => rfl
  | append_singleton rest p ih =>
    have hadd : ∀ (m : ProfileManager) (q : Profile),
        (m.Add q).profiles = m.profiles.set q.Name q := fun _ _ => rfl
    rw [List.foldl_append, List.foldl_cons, List.foldl_nil, lastAdded_append_singleton, hadd,
      ProfileMap.get_set, ih]

/-! ## Lemmas about the result fields of Evaluate -/

theorem foldl_reasons_eq (rs : List DiagnosticReason) (r : EvaluationResult) :
    rs.foldl
        (fun (r : EvaluationResult) reason => { r with Reasons := r.Reasons ++ [reason.PolicyID] })
        r =
      { r with Reasons := r.Reasons ++ rs.map (fun reason => reason.PolicyID) } := by
  induction rs generalizing r with
  | nil => simp
  | cons x xs ih => rw [List.foldl_cons, ih]; simp

theorem foldl_errors_eq (es : List DiagnosticError) (r : EvaluationResult) :
    es.foldl
        (fun (r : EvaluationResult) err => { r with Errors := r.Errors ++ [err.String] }) r =
      { r with Errors := r.Errors ++ es.map (fun err => err.String) } := by
  induction es generalizing r with
  | nil => simp
  | cons x xs ih => rw [List.foldl_cons, ih]; simp

theorem Evaluate_eq (e : Engine) (ctx : PolicyContext) (action : String) :
    e.Evaluate ctx action =
      { Allowed := (Authorize e.policySet e.entities (e.buildRequest ctx action)).1 ==
          Decision.Allow
        Action := action
        RepoName := ctx.Repo.FullName
        Reasons := (Authorize e.policySet e.entities (e.buildRequest ctx action)).2.Reasons.map
          (fun reason => reason.PolicyID)
        Errors := (Authorize e.policySet e.entities (e.buildRequest ctx action)).2.Errors.map
          (fun err => err.String)
        Diagnostic := (Authorize e.policySet e.entities (e.buildRequest ctx action)).2 } := by
  unfold Engine.Evaluate
  simp only [foldl_errors_eq, foldl_reasons_eq, List.nil_append]

/-! ## Lemmas about the repository filter -/

theorem contains_eq_decide_mem (slice : List String) (item : String) :
    contains slice item = decide (item ∈ slice) := by
  induction slice with
  | nil => simp [contains]
  | cons s rest ih =>
    unfold contains
    by_cases h : s = item
    · simp [h]
    · have : ¬ item = s := fun h' => h h'.symm
      simp [h, this, ih]

theorem hasAny_iff (slice items : List String) :
    hasAny slice items = true ↔ ∃ item ∈ items, item ∈ slice := by
  induction items with
  | nil => simp [hasAny]
  | cons item rest ih =>
    unfold hasAny
    by_cases h : item ∈ slice
    · simp [contains_eq_decide_mem, h]
    · simp [contains_eq_decide_mem, h, ih]

theorem hasAny_nil (slice : List String) : hasAny slice [] = false := rfl

theorem csv_records_eq (result : ComplianceResult) :
    CSVFormatter.records result = csvHeader :: result.Repos.map csvRow := by
  unfold CSVFormatter.records
  have h : ∀ (repos : List RepoResult) (init : List (List String)),
      repos.foldl (fun records repo => records ++ [csvRow repo]) init =
        init ++ repos.map csvRow := by
    intro repos
    induction repos with
    | nil => intro init; simp
    | cons r rest ih => intro init; rw [List.foldl_cons, ih]; simp
  rw [h]; rfl

/-! ## Lemmas about ParseReusableWorkflowRef -/

theorem cutAtFirst_append (sep : Char) (xs ys : List Char) (h : sep ∉ xs) :
    cutAtFirst sep (xs ++ sep :: ys) = some (xs, ys) := by
  induction xs with
  | nil => simp [cutAtFirst]
  | cons c rest ih =>
    have hc : ¬ c = sep := fun hcs => h (by simp [hcs])
    have hrest : sep ∉ rest := fun hm => h (List.mem_cons_of_mem _ hm)
    simp [cutAtFirst, hc, ih hrest]

theorem SplitN_cut (sep : Char) (n : Nat) (xs ys : List Char) (h : sep ∉ xs) :
    SplitN sep (n + 2) (xs ++ sep :: ys) = xs :: SplitN sep (n + 1) ys := by
  simp only [SplitN, cutAtFirst_append _ _ _ h]

/-! ## Lemmas about the built-in policies -/

theorem builtinEngine_policySet :
    builtinEngine.policySet =
      [("builtin/require-workflow", requireWorkflowParsed.toPolicy),
       ("builtin/require-tests", requireTestsParsed.toPolicy),
       ("builtin/go-versions", goVersionsParsed.toPolicy)] := by
  have h1 : builtinUnmarshalCedar (goBytes requireWorkflowPolicy) =
      .ok requireWorkflowParsed.toPolicy := by
    unfold builtinUnmarshalCedar
    rw [if_pos rfl]
  have h2 : builtinUnmarshalCedar (goBytes requireTestsPolicy) =
      .ok requireTestsParsed.toPolicy := by
    unfold builtinUnmarshalCedar
    rw [if_neg (by decide), if_pos rfl]
  have h3 : builtinUnmarshalCedar (goBytes goVersionsPolicy) =
      .ok goVersionsParsed.toPolicy := by
    unfold builtinUnmarshalCedar
    rw [if_neg (by decide), if_neg (by decide), if_pos rfl]
  simp only [builtinEngine, Loader.LoadBuiltinPolicies, builtinPolicies, loadPolicies,
    Engine.AddPolicy, NewLoader, NewEngine, NewPolicySet, h1, h2, h3, PolicySet.Add]
  simp

theorem builtin_merge_Allowed (ctx : PolicyContext) :
    (builtinEngine.Evaluate ctx "merge").Allowed =
      (ctx.CI.HasWorkflow || ctx.CI.LastRunPassed) := by
  rw [Evaluate_Allowed, Authorize_decision, builtinEngine_policySet]
  simp only [PolicySet.someHolds, Policy.holds, CedarPolicy.toPolicy, requireWorkflowParsed,
    requireTestsParsed, goVersionsParsed, Engine.buildRequest, CedarExpr.eval, Record.get,
    List.any_cons, List.any_nil]
  cases ctx.CI.HasWorkflow <;> cases ctx.CI.LastRunPassed <;> simp

/-! ## Lemmas about the fields Build leaves alone -/

theorem ciWorkflowStep_untouched (st : CILoopState) (wf : Workflow) :
    (ciWorkflowStep st wf).ctx.LastRunPassed = st.ctx.LastRunPassed ∧
    (ciWorkflowStep st wf).ctx.RequiredChecks = st.ctx.RequiredChecks := by
  unfold ciWorkflowStep
  cases h : wf.ReusableWorkflowRefs <;> simp

theorem ci_fold_untouched (workflows : List Workflow) (st : CILoopState) :
    (workflows.foldl ciWorkflowStep st).ctx.LastRunPassed = st.ctx.LastRunPassed ∧
    (workflows.foldl ciWorkflowStep st).ctx.RequiredChecks = st.ctx.RequiredChecks := by
  induction workflows generalizing st with
  | nil => exact ⟨rfl, rfl⟩
  | cons wf rest ih =>
    rw [List.foldl_cons, (ih _).1, (ih _).2]
    exact ciWorkflowStep_untouched st wf

theorem buildGoContext_untouched (b : ContextBuilder) (repo : Repo) (workflows : List Workflow) :
    (b.buildGoContext repo workflows).HasGoMod = false ∧
    (b.buildGoContext repo workflows).GoModTidy = false := by
  unfold ContextBuilder.buildGoContext
  cases b.profile <;> simp only [] <;> split_ifs <;> exact ⟨rfl, rfl⟩

theorem builtin_other_denied (ctx : PolicyContext) (action : String)
    (hm : action ≠ "merge") (hb : action ≠ "build") :
    (builtinEngine.Evaluate ctx action).Allowed = false := by
  rw [Evaluate_Allowed, Authorize_decision, builtinEngine_policySet]
  simp [PolicySet.someHolds, Policy.holds, CedarPolicy.toPolicy, requireWorkflowParsed,
    requireTestsParsed, goVersionsParsed, Engine.buildRequest, hm, hb]

/-! ## Lemmas about the parts of a workflow reference -/

theorem cutAtFirst_none_iff (sep : Char) (s : List Char) :
    cutAtFirst sep s = none ↔ sep ∉ s := by
  induction s with
  | nil => simp [cutAtFirst]
  | cons c rest ih =>
    unfold cutAtFirst
    by_cases h : c = sep
    · simp [h]
    · have h' : ¬ sep = c := fun e => h e.symm
      cases hr : cutAtFirst sep rest with
      | none => simp [h, h', hr, ← ih]
      | some p =>
        have : sep ∈ rest := by
          by_contra hn
          rw [← ih, hr] at hn
          exact Option.noConfusion hn
        simp [h, this]

theorem cutAtFirst_some (sep : Char) (s before after : List Char)
    (h : cutAtFirst sep s = some (before, after)) :
    s = before ++ sep :: after ∧ sep ∉ before := by
  induction s generalizing before with
  | nil => simp [cutAtFirst] at h
  | cons c rest ih =>
    unfold cutAtFirst at h
    by_cases hc : c = sep
    · simp only [hc, if_true, Option.some.injEq, Prod.mk.injEq] at h
      obtain ⟨rfl, rfl⟩ := h
      simp [hc]
    · simp only [hc, if_false] at h
      cases hr : cutAtFirst sep rest with
      | none => simp [hr] at h
      | some p =>
        obtain ⟨b, a⟩ := p
        simp only [hr, Option.some.injEq, Prod.mk.injEq] at h
        obtain ⟨rfl, rfl⟩ := h
        obtain ⟨h1, h2⟩ := ih b hr
        have hc' : ¬ sep = c := fun e => hc e.symm
        exact ⟨by rw [h1]; rfl, by simp [hc', h2]⟩

theorem SplitN_three_spec (head : List Char) :
    '/' ∉ (SplitN '/' 3 head).getD 0 [] ∧ '/' ∉ (SplitN '/' 3 head).getD 1 [] ∧
    ∀ c : Char, c ∉ head → ∀ part ∈ SplitN '/' 3 head, c ∉ part := by
  cases h1 : cutAtFirst '/' head with
  | none =>
    have hno := (cutAtFirst_none_iff _ _).1 h1
    simp [SplitN, h1, hno]
  | some p =>
    obtain ⟨owner, rest⟩ := p
    obtain ⟨he, hown⟩ := cutAtFirst_some _ _ _ _ h1
    cases h2 : cutAtFirst '/' rest with
    | none =>
      have hno := (cutAtFirst_none_iff _ _).1 h2
      refine ⟨by simp [SplitN, h1, h2, hown], by simp [SplitN, h1, h2, hno], ?_⟩
      intro c hc part hp
      simp only [SplitN, h1, h2, List.mem_cons, List.mem_singleton, List.mem_nil_iff,
        or_false] at hp
      rw [he] at hc
      simp only [List.mem_append, List.mem_cons, not_or] at hc
      rcases hp with rfl | rfl
      · exact hc.1
      · exact hc.2.2
    | some q =>
      obtain ⟨repo, path⟩ := q
      obtain ⟨he2, hrepo⟩ := cutAtFirst_some _ _ _ _ h2
      refine ⟨by simp [SplitN, h1, h2, hown], by simp [SplitN, h1, h2, hrepo], ?_⟩
      intro c hc part hp
      simp only [SplitN, h1, h2, List.mem_cons, List.mem_singleton, List.mem_nil_iff,
        or_false] at hp
      rw [he, he2] at hc
      simp only [List.mem_append, List.mem_cons, not_or] at hc
      rcases hp with rfl | rfl | rfl
      · exact hc.1
      · exact hc.2.2.1
      · exact hc.2.2.2.2

theorem pathParts_fields (result : ReusableWorkflowRef) (parts : List (List Char))
    (hlen : 1 ≤ parts.length) (hr : result.Repo = "") (hp : result.Path = "") :
    (let result :=
        if parts.length ≥ 1 then { result with Owner := String.mk (parts.getD 0 []) }
        else result
      let result :=
        if parts.length ≥ 2 then { result with Repo := String.mk (parts.getD 1 []) }
        else result
      let result :=
        if parts.length ≥ 3 then { result with Path := String.mk (parts.getD 2 []) }
        else result
      result) =
      { result with Owner := String.mk (parts.getD 0 []), Repo := String.mk (parts.getD 1 []),
                    Path := String.mk (parts.getD 2 []) } := by
  obtain ⟨o, r, p, ref, full⟩ := result
  simp only at hr hp
  subst hr hp
  rcases parts with _ | ⟨a, _ | ⟨b, _ | ⟨c, rest⟩⟩⟩
  · simp at hlen
  · simp
  · simp
  · simp

theorem SplitN_three_length (head : List Char) : 1 ≤ (SplitN '/' 3 head).length := by
  cases h1 : cutAtFirst '/' head with
  | none => simp [SplitN, h1]
  | some p => obtain ⟨a, b⟩ := p; simp [SplitN, h1]

theorem ParseReusableWorkflowRef_eq (s : String) :
    ParseReusableWorkflowRef s =
      match cutAtFirst '@' s.data with
      | some (before, after) =>
        { FullRef := s, Ref := String.mk after,
          Owner := String.mk ((SplitN '/' 3 before).getD 0 []),
          Repo := String.mk ((SplitN '/' 3 before).getD 1 []),
          Path := String.mk ((SplitN '/' 3 before).getD 2 []) }
      | none =>
        { FullRef := s, Ref := "",
          Owner := String.mk ((SplitN '/' 3 s.data).getD 0 []),
          Repo := String.mk ((SplitN '/' 3 s.data).getD 1 []),
          Path := String.mk ((SplitN '/' 3 s.data).getD 2 []) } := by
  unfold ParseReusableWorkflowRef
  cases h1 : cutAtFirst '@' s.data with
  | none =>
    simp only [SplitN, h1, List.length_singleton, OfNat.one_ne_ofNat, if_false]
    exact pathParts_fields { FullRef := s } _ (SplitN_three_length _) rfl rfl
  | some p =>
    obtain ⟨before, after⟩ := p
    simp only [SplitN, h1, List.length_cons, List.length_nil, if_true, List.getD_cons_zero,
      List.getD_cons_succ]
    exact pathParts_fields { FullRef := s, Ref := String.mk after } _
      (SplitN_three_length _) rfl rfl

/-! ## Lemmas about the SARIF rules -/

theorem mapGet_eq_none_iff {α : Type} (m : List (String × α)) (k : String) :
    mapGet m k = none ↔ k ∉ m.map Prod.fst := by
  induction m with
  | nil => simp [mapGet]
  | cons entry rest ih =>
    obtain ⟨a, b⟩ := entry
    unfold mapGet
    by_cases h : a = k
    · simp [h]
    · have h' : ¬ k = a := fun e => h e.symm
      simp [h, h', ih]

theorem mapSet_of_absent {α : Type} (m : List (String × α)) (k : String) (v : α)
    (h : mapGet m k = none) : mapSet m k v = m ++ [(k, v)] := by
  induction m with
  | nil => rfl
  | cons entry rest ih =>
    obtain ⟨a, b⟩ := entry
    unfold mapGet at h
    by_cases hk : a = k
    · simp [hk] at h
    · simp only [hk, if_false] at h
      simp [mapSet, hk, ih h]

theorem mapGet_mapSet {α : Type} (m : List (String × α)) (k k' : String) (v : α) :
    mapGet (mapSet m k v) k' = if k = k' then some v else mapGet m k' := by
  induction m with
  | nil => simp [mapSet, mapGet]
  | cons entry rest ih =>
    obtain ⟨a, b⟩ := entry
    unfold mapSet
    by_cases h : a = k
    · subst h
      by_cases hk : a = k' <;> simp [mapGet, hk]
    · by_cases hk : a = k'
      · subst hk
        have : ¬ k = a := fun e => h e.symm
        simp [mapGet, h, this]
      · simp [mapGet, h, hk, ih]

theorem sarifResultOf_fields (repo : RepoResult) (v : Violation) (index : Int) :
    (sarifResultOf repo v index).RuleID = sarifRuleID v ∧
    (sarifResultOf repo v index).RuleIndex = index ∧
    (sarifResultOf repo v index).Message.Text =
      "[" ++ repo.Repo.FullName ++ "] " ++ v.Message := by
  unfold sarifResultOf
  by_cases h : v.Remediation = "" <;> simp [h]

theorem take_succ_set {β : Type} (l : List β) (n : Nat) (x : β) (h : n < l.length) :
    (l.set n x).take (n + 1) = l.take n ++ [x] := by
  induction l generalizing n with
  | nil => simp at h
  | cons a rest ih =>
    cases n with
    | zero => simp
    | succ m =>
      have hm : m < rest.length := by simpa using h
      simp [ih m hm]

theorem foldl_set_index {β : Type} (idx : String → Nat) (suf : List (String × β)) :
    ∀ (n : Nat) (arr : List β), arr.length = n + suf.length →
      (∀ j (h : j < suf.length), idx (suf[j]).1 = n + j) →
      suf.foldl (fun rules entry => rules.set (idx entry.1) entry.2) arr =
        arr.take n ++ suf.map Prod.snd := by
  induction suf with
  | nil =>
    intro n arr hlen _
    have : arr.length ≤ n := by simp at hlen; omega
    simp [List.take_of_length_le this]
  | cons e rest ih =>
    intro n arr hlen hidx
    have h0 : idx e.1 = n := by simpa using hidx 0 (by simp)
    have hn : n < arr.length := by simp at hlen; omega
    rw [List.foldl_cons, h0, ih (n + 1) (arr.set n e.2)]
    · rw [take_succ_set _ _ _ hn]; simp
    · simp only [List.length_set, List.length_cons] at hlen ⊢; omega
    · intro j hj
      have := hidx (j + 1) (by simpa using hj)
      simp only [List.getElem_cons_succ] at this
      omega

theorem sarifViolationStep_seen (repo : RepoResult) (st : SARIFLoopState) (v : Violation)
    (rule : SARIFRule) (h : mapGet st.rulesMap (sarifRuleID v) = some rule) :
    sarifViolationStep repo st v =
      { rulesMap := st.rulesMap, ruleIndex := st.ruleIndex,
        results := st.results ++
          [sarifResultOf repo v ((mapGet st.ruleIndex (sarifRuleID v)).getD 0)] } := by
  unfold sarifViolationStep
  simp only [h]

theorem sarifViolationStep_new (repo : RepoResult) (st : SARIFLoopState) (v : Violation)
    (h : mapGet st.rulesMap (sarifRuleID v) = none) :
    sarifViolationStep repo st v =
      { rulesMap := st.rulesMap ++
          [(sarifRuleID v,
            { ID := sarifRuleID v, Name := v.Policy, ShortDescription := { Text := v.Message },
              DefaultConfig := some { Level := severityToSARIFLevel v.Severity } })],
        ruleIndex := mapSet st.ruleIndex (sarifRuleID v) (st.rulesMap.length : Int),
        results := st.results ++ [sarifResultOf repo v (st.rulesMap.length : Int)] } := by
  unfold sarifViolationStep
  simp only [h, mapSet_of_absent _ _ _ h, List.length_append, List.length_singleton,
    mapGet_mapSet, if_true, Option.getD_some]
  have hlen : ((st.rulesMap.length + 1 : Nat) : Int) - 1 = (st.rulesMap.length : Int) := by
    simp
  rw [hlen]

theorem sarifViolationStep_invariant (repo : RepoResult) (st : SARIFLoopState) (v : Violation)
    (h : SARIFInvariant st) : SARIFInvariant (sarifViolationStep repo st v) := by
  obtain ⟨hnd, hid, hix, hres⟩ := h
  cases hget : mapGet st.rulesMap (sarifRuleID v) with
  | some rule =>
    have hmem : sarifRuleID v ∈ st.rulesMap.map Prod.fst := by
      by_contra hn
      rw [← mapGet_eq_none_iff, hget] at hn
      exact Option.noConfusion hn
    rw [sarifViolationStep_seen repo st v rule hget]
    refine ⟨hnd, hid, hix, ?_⟩
    intro res hr
    simp only [List.mem_append, List.mem_singleton] at hr
    rcases hr with hr | rfl
    · exact hres res hr
    · simp only [(sarifResultOf_fields _ _ _).1, (sarifResultOf_fields _ _ _).2.1, hix _ hmem]
      exact ⟨hmem, rfl⟩
  | none =>
    have hnot : sarifRuleID v ∉ st.rulesMap.map Prod.fst := (mapGet_eq_none_iff _ _).1 hget
    rw [sarifViolationStep_new repo st v hget]
    have hself : List.indexOf (sarifRuleID v) (st.rulesMap.map Prod.fst ++ [sarifRuleID v]) =
        st.rulesMap.length := by
      rw [List.indexOf_append_of_not_mem hnot]; simp
    unfold SARIFInvariant
    simp only [List.map_append, List.map_cons, List.map_nil, mapGet_mapSet]
    refine ⟨?_, ?_, ?_, ?_⟩
    · rw [List.nodup_append]
      refine ⟨hnd, by simp, ?_⟩
      intro a ha hb
      simp only [List.mem_singleton] at hb
      exact hnot (hb ▸ ha)
    · intro entry he
      simp only [List.mem_append, List.mem_singleton] at he
      rcases he with he | rfl
      · exact hid entry he
      · rfl
    · intro k hk
      simp only [List.mem_append, List.mem_singleton] at hk
      by_cases hkv : sarifRuleID v = k
      · subst hkv
        simp only [if_true, hself]
      · have hk' : k ∈ st.rulesMap.map Prod.fst := by
          rcases hk with hk | hk
          · exact hk
          · exact absurd hk.symm hkv
        simp only [hkv, if_false, List.indexOf_append_of_mem hk']
        exact hix k hk'
    · intro res hr
      simp only [List.mem_append, List.mem_singleton] at hr
      rcases hr with hr | rfl
      · obtain ⟨h1, h2⟩ := hres res hr
        exact ⟨by simp [h1], by rw [List.indexOf_append_of_mem h1]; exact h2⟩
      · simp [(sarifResultOf_fields _ _ _).1, (sarifResultOf_fields _ _ _).2.1, hself]

theorem sarifViolationStep_results (repo : RepoResult) (st : SARIFLoopState) (v : Violation) :
    (sarifViolationStep repo st v).results.map (fun res => (res.RuleID, res.Message.Text)) =
      st.results.map (fun res => (res.RuleID, res.Message.Text)) ++
        [(sarifRuleID v, "[" ++ repo.Repo.FullName ++ "] " ++ v.Message)] := by
  cases hget : mapGet st.rulesMap (sarifRuleID v) with
  | some rule =>
    rw [sarifViolationStep_seen repo st v rule hget]
    simp [(sarifResultOf_fields _ _ _).1, (sarifResultOf_fields _ _ _).2.2]
  | none =>
    rw [sarifViolationStep_new repo st v hget]
    simp [(sarifResultOf_fields _ _ _).1, (sarifResultOf_fields _ _ _).2.2]

theorem sarif_fold_spec (repos : List RepoResult) (st : SARIFLoopState)
    (h : SARIFInvariant st) :
    SARIFInvariant
        (repos.foldl (fun st repo => repo.Violations.foldl (sarifViolationStep repo) st) st) ∧
    (repos.foldl (fun st repo => repo.Violations.foldl (sarifViolationStep repo) st)
        st).results.map (fun res => (res.RuleID, res.Message.Text)) =
      st.results.map (fun res => (res.RuleID, res.Message.Text)) ++ sarifExpected repos := by
  have inner : ∀ (repo : RepoResult) (vs : List Violation) (st : SARIFLoopState),
      SARIFInvariant st →
      SARIFInvariant (vs.foldl (sarifViolationStep repo) st) ∧
      (vs.foldl (sarifViolationStep repo) st).results.map
          (fun res => (res.RuleID, res.Message.Text)) =
        st.results.map (fun res => (res.RuleID, res.Message.Text)) ++
          vs.map (fun v => (sarifRuleID v, "[" ++ repo.Repo.FullName ++ "] " ++ v.Message)) := by
    intro repo vs
    induction vs with
    | nil => intro st hst; simp [hst]
    | cons v rest ih =>
      intro st hst
      obtain ⟨h1, h2⟩ := ih _ (sarifViolationStep_invariant repo st v hst)
      rw [List.foldl_cons]
      refine ⟨h1, ?_⟩
      rw [h2, sarifViolationStep_results]
      simp
  induction repos generalizing st with
  | nil => simp [h, sarifExpected]
  | cons repo rest ih =>
    obtain ⟨h1, h2⟩ := inner repo repo.Violations st h
    obtain ⟨h3, h4⟩ := ih _ h1
    rw [List.foldl_cons]
    refine ⟨h3, ?_⟩
    rw [h4, h2]
    simp [sarifExpected]

theorem sarifRules_eq (st : SARIFLoopState) (h : SARIFInvariant st) :
    sarifRules st = st.rulesMap.map Prod.snd := by
  obtain ⟨hnd, _, hix, _⟩ := h
  unfold sarifRules sarifRulesIn
  rw [foldl_set_index (fun k => ((mapGet st.ruleIndex k).getD 0).toNat) st.rulesMap 0]
  · simp
  · simp
  · intro j hj
    have hmem : (st.rulesMap[j]).1 ∈ st.rulesMap.map Prod.fst :=
      List.mem_map.2 ⟨_, List.getElem_mem hj, rfl⟩
    have hj' : j < (st.rulesMap.map Prod.fst).length := by simpa using hj
    have hkey : (st.rulesMap.map Prod.fst)[j] = (st.rulesMap[j]).1 := by simp
    simp only [hix _ hmem, Option.getD_some, Int.toNat_ofNat, Nat.zero_add]
    rw [← hkey]
    exact List.indexOf_getElem hnd j hj'

theorem sarifExpected_length (repos : List RepoResult) :
    ((sarifExpected repos).length : Int) =
      (repos.map (fun r => (r.Violations.length : Int))).sum := by
  induction repos with
  | nil => simp [sarifExpected]
  | cons repo rest ih =>
    have hcons : sarifExpected (repo :: rest) =
        repo.Violations.map (fun v =>
          (sarifRuleID v, "[" ++ repo.Repo.FullName ++ "] " ++ v.Message)) ++
          sarifExpected rest := rfl
    rw [hcons, List.length_append, List.length_map, List.map_cons, List.sum_cons, ← ih]
    push_cast
    rfl

theorem sarifInvariant_init : SARIFInvariant {} := by
  refine ⟨by simp, ?_, ?_, ?_⟩
  · intro entry he; simp at he
  · intro k hk; simp at hk
  · intro res hr; simp at hr

theorem sarif_state_rules (st : SARIFLoopState) (h : SARIFInvariant st) :
    ((sarifRules st).map (fun rule => rule.ID)).Nodup ∧
    ∀ res ∈ st.results, 0 ≤ res.RuleIndex ∧
      res.RuleIndex.toNat < (sarifRules st).length ∧
      ∃ rule : SARIFRule,
        (sarifRules st)[res.RuleIndex.toNat]? = some rule ∧ rule.ID = res.RuleID := by
  have hrules := sarifRules_eq st h
  obtain ⟨hnd, hid, _, hr⟩ := h
  have hids : (sarifRules st).map (fun rule => rule.ID) = st.rulesMap.map Prod.fst := by
    rw [hrules, List.map_map]
    exact List.map_congr_left (fun entry he => hid entry he)
  refine ⟨by rw [hids]; exact hnd, ?_⟩
  intro res hmem
  obtain ⟨hkey, hidx⟩ := hr res hmem
  have hlt := List.indexOf_lt_length.2 hkey
  have hlt' : List.indexOf res.RuleID (st.rulesMap.map Prod.fst) < (sarifRules st).length := by
    have hlen : (st.rulesMap.map Prod.fst).length = (sarifRules st).length := by
      rw [← hids, List.length_map]
    rw [← hlen]
    exact hlt
  have h1 : ((sarifRules st).map (fun rule => rule.ID))[
      List.indexOf res.RuleID (st.rulesMap.map Prod.fst)]? = some res.RuleID := by
    rw [hids, List.getElem?_eq_getElem hlt]
    exact congrArg some (List.getElem_indexOf hlt)
  rw [List.getElem?_map, List.getElem?_eq_getElem hlt'] at h1
  rw [hidx, Int.toNat_ofNat]
  exact ⟨Int.ofNat_nonneg _, hlt', _, List.getElem?_eq_getElem hlt', by simpa using h1⟩

theorem sarifCollect_spec (repos : List RepoResult) :
    SARIFInvariant (sarifCollect repos) ∧
    (sarifCollect repos).results.map (fun res => (res.RuleID, res.Message.Text)) =
      sarifExpected repos := by
  have h := sarif_fold_spec repos {} sarifInvariant_init
  exact ⟨h.1, by simpa [sarifCollect] using h.2⟩

theorem foldl_set_distinct {β : Type} (idx : String → Nat) (rest : List (String × β)) :
    ∀ (arr : List β) (done : List (String × β)),
      (∀ e ∈ done, arr[idx e.1]? = some e.2) →
      (∀ e ∈ rest, idx e.1 < arr.length) →
      ((done ++ rest).map (fun e => idx e.1)).Nodup →
      (rest.foldl (fun rules entry => rules.set (idx entry.1) entry.2) arr).length =
          arr.length ∧
        ∀ e ∈ done ++ rest,
          (rest.foldl (fun rules entry => rules.set (idx entry.1) entry.2) arr)[idx e.1]? =
            some e.2 := by
  induction rest with
  | nil =>
    intro arr done hdone _ _
    simpa using hdone
  | cons e rest ih =>
    intro arr done hdone hlt hnd
    have he : idx e.1 < arr.length := hlt e (by simp)
    have hnd' : (((done ++ [e]) ++ rest).map (fun e => idx e.1)).Nodup := by
      simpa using hnd
    have hstep : ∀ d ∈ done ++ [e], (arr.set (idx e.1) e.2)[idx d.1]? = some d.2 := by
      intro d hd
      simp only [List.mem_append, List.mem_singleton] at hd
      rcases hd with hd | rfl
      · have hne : ¬ idx e.1 = idx d.1 := by
          intro heq
          rw [List.map_append] at hnd
          obtain ⟨_, _, hdisj⟩ := List.nodup_append.1 hnd
          exact hdisj (List.mem_map.2 ⟨d, hd, rfl⟩)
            (List.mem_map.2 ⟨e, by simp, heq⟩)
        rw [List.getElem?_set, if_neg hne]
        exact hdone d hd
      · rw [List.getElem?_set]
        simp [he]
    have hlt' : ∀ x ∈ rest, idx x.1 < (arr.set (idx e.1) e.2).length := by
      intro x hx
      rw [List.length_set]
      exact hlt x (by simp [hx])
    obtain ⟨h1, h2⟩ := ih (arr.set (idx e.1) e.2) (done ++ [e]) hstep hlt' hnd'
    rw [List.foldl_cons]
    refine ⟨by rw [h1, List.length_set], ?_⟩
    intro d hd
    exact h2 d (by simpa using hd)

theorem sarifRulesIn_eq (st : SARIFLoopState) (h : SARIFInvariant st)
    (order : List (String × SARIFRule)) (hperm : order.Perm st.rulesMap) :
    sarifRulesIn order st = st.rulesMap.map Prod.snd := by
  obtain ⟨hnd, _, hix, _⟩ := h
  have hidx : ∀ e ∈ st.rulesMap,
      ((mapGet st.ruleIndex e.1).getD 0).toNat = List.indexOf e.1 (st.rulesMap.map Prod.fst) := by
    intro e he
    have hmem : e.1 ∈ st.rulesMap.map Prod.fst := List.mem_map.2 ⟨e, he, rfl⟩
    simp [hix _ hmem]
  have hinj : (st.rulesMap.map
      (fun e : String × SARIFRule => ((mapGet st.ruleIndex e.1).getD 0).toNat)).Nodup := by
    have h1 : st.rulesMap.map
          (fun e : String × SARIFRule => ((mapGet st.ruleIndex e.1).getD 0).toNat) =
        (st.rulesMap.map Prod.fst).map
          (fun k => List.indexOf k (st.rulesMap.map Prod.fst)) := by
      rw [List.map_map]
      exact List.map_congr_left (fun e he => hidx e he)
    rw [h1]
    apply List.Nodup.map_on _ hnd
    intro a ha b hb hab
    have := List.getElem_indexOf (List.indexOf_lt_length.2 ha)
    have hb' := List.getElem_indexOf (List.indexOf_lt_length.2 hb)
    simp only [hab] at this
    rw [← this, hb']
  have hnd_order : (([] ++ order).map
      (fun e : String × SARIFRule => ((mapGet st.ruleIndex e.1).getD 0).toNat)).Nodup := by
    rw [List.nil_append]
    exact ((hperm.map _).nodup_iff).2 hinj
  have hlt : ∀ e ∈ order, ((mapGet st.ruleIndex e.1).getD 0).toNat <
      (List.replicate st.rulesMap.length ({} : SARIFRule)).length := by
    intro e he
    have he' : e ∈ st.rulesMap := hperm.mem_iff.1 he
    rw [hidx e he', List.length_replicate]
    have := List.indexOf_lt_length.2 (List.mem_map.2 ⟨e, he', rfl⟩ :
      e.1 ∈ st.rulesMap.map Prod.fst)
    simpa using this
  obtain ⟨hlen, hget⟩ := foldl_set_distinct
    (fun k => ((mapGet st.ruleIndex k).getD 0).toNat) order
    (List.replicate st.rulesMap.length ({} : SARIFRule)) []
    (by intro e he; simp at he) hlt hnd_order
  unfold sarifRulesIn
  apply List.ext_getElem?
  intro i
  by_cases hi : i < st.rulesMap.length
  · have hmem : st.rulesMap[i] ∈ order := hperm.mem_iff.2 (List.getElem_mem hi)
    have hi' : i < (st.rulesMap.map Prod.fst).length := by simpa using hi
    have hkey : (st.rulesMap.map Prod.fst)[i] = (st.rulesMap[i]).1 := by simp
    have hpos : ((mapGet st.ruleIndex (st.rulesMap[i]).1).getD 0).toNat = i := by
      rw [hidx _ (List.getElem_mem hi), ← hkey]
      exact List.indexOf_getElem hnd i hi'
    have := hget _ (by simpa using hmem)
    simp only [hpos] at this
    rw [this]
    simp [hi]
  · have h1 : (List.foldl
        (fun rules entry => rules.set ((mapGet st.ruleIndex entry.1).getD 0).toNat entry.2)
        (List.replicate st.rulesMap.length ({} : SARIFRule)) order).length ≤ i := by
      rw [hlen, List.length_replicate]; omega
    rw [List.getElem?_eq_none h1, List.getElem?_eq_none (by simp; omega)]

theorem Evaluate_Allowed_of_perm (e e' : Engine) (ctx : PolicyContext) (action : String)
    (hent : e'.entities = e.entities) (hperm : e'.policySet.Perm e.policySet) :
    (e'.Evaluate ctx action).Allowed = (e.Evaluate ctx action).Allowed := by
  have hreq : e'.buildRequest ctx action = e.buildRequest ctx action := rfl
  rw [Evaluate_Allowed, Evaluate_Allowed, Authorize_decision, Authorize_decision, hreq, hent,
    someHolds_perm _ _ _ _ _ hperm, someHolds_perm _ _ _ _ _ hperm]

theorem builtin_build_Allowed (ctx : PolicyContext) :
    (builtinEngine.Evaluate ctx "build").Allowed = true ↔
      "1.24" ∈ ctx.Go.Versions ∨ "1.25" ∈ ctx.Go.Versions := by
  rw [Evaluate_Allowed, Authorize_decision, builtinEngine_policySet]
  simp [PolicySet.someHolds, Policy.holds, CedarPolicy.toPolicy, requireWorkflowParsed,
    requireTestsParsed, goVersionsParsed, Engine.buildRequest, CedarExpr.eval, Record.get,
    stringSliceToSet]
  by_cases h : "1.24" ∈ ctx.Go.Versions <;> simp [h]

/-! ## Theorems -/

/-- C1: an engine to which no policy has been added denies every action for
every context, whatever its entity store holds. -/
theorem Evaluate_empty_denies (ctx : PolicyContext) (action : String) :
    (NewEngine.Evaluate ctx action).Allowed = false ∧
    ∀ entities : EntityMap,
      (Engine.Evaluate ⟨NewPolicySet, entities⟩ ctx action).Allowed = false := by
  constructor
  · rw [Evaluate_Allowed]; simp [NewEngine, NewPolicySet, Authorize]
  · intro entities
    rw [Evaluate_Allowed]; simp [NewPolicySet, Authorize]

/-- C2: Evaluate denies when some forbid policy holds for the request, otherwise
allows when some permit policy holds, otherwise denies; and an engine holding
the same policies in another order takes the same decision. -/
theorem Evaluate_three_tier (e e' : Engine) (ctx : PolicyContext) (action : String)
    (hent : e'.entities = e.entities) (hperm : e'.policySet.Perm e.policySet) :
    (e.policySet.someHolds .Forbid e.entities (e.buildRequest ctx action) = true →
      (e.Evaluate ctx action).Allowed = false) ∧
    (e.policySet.someHolds .Forbid e.entities (e.buildRequest ctx action) = false →
      e.policySet.someHolds .Permit e.entities (e.buildRequest ctx action) = true →
      (e.Evaluate ctx action).Allowed = true) ∧
    (e.policySet.someHolds .Forbid e.entities (e.buildRequest ctx action) = false →
      e.policySet.someHolds .Permit e.entities (e.buildRequest ctx action) = false →
      (e.Evaluate ctx action).Allowed = false) ∧
    (e'.Evaluate ctx action).Allowed = (e.Evaluate ctx action).Allowed := by
  have hreq : e'.buildRequest ctx action = e.buildRequest ctx action := rfl
  refine ⟨?_, ?_, ?_, ?_⟩
  · intro hf
    rw [Evaluate_Allowed, Authorize_decision, hf]; rfl
  · intro hf hp
    rw [Evaluate_Allowed, Authorize_decision, hf, hp]; rfl
  · intro hf hp
    rw [Evaluate_Allowed, Authorize_decision, hf, hp]; rfl
  · rw [Evaluate_Allowed, Evaluate_Allowed, Authorize_decision, Authorize_decision, hreq, hent,
      someHolds_perm _ _ _ _ _ hperm, someHolds_perm _ _ _ _ _ hperm]

/-- C2, at an input: with a permit-everything and a forbid-merge policy, merge
is denied and build is allowed, in either order of the two policies. -/
theorem Evaluate_three_tier_witness :
    sampleEngineSwapped.entities = sampleEngine.entities ∧
    sampleEngineSwapped.policySet.Perm sampleEngine.policySet ∧
    (sampleEngine.Evaluate {} "merge").Allowed = false ∧
    (sampleEngineSwapped.Evaluate {} "merge").Allowed = false ∧
    (sampleEngine.Evaluate {} "build").Allowed = true ∧
    (sampleEngineSwapped.Evaluate {} "build").Allowed = true := by
  have hperm : sampleEngineSwapped.policySet.Perm sampleEngine.policySet :=
    List.Perm.swap _ _ _
  have hm := Evaluate_three_tier sampleEngine sampleEngineSwapped {} "merge" rfl hperm
  have hb := Evaluate_three_tier sampleEngine sampleEngineSwapped {} "build" rfl hperm
  have hmerge : (sampleEngine.Evaluate {} "merge").Allowed = false := hm.1 (by decide)
  have hbuild : (sampleEngine.Evaluate {} "build").Allowed = true :=
    hb.2.1 (by decide) (by decide)
  exact ⟨rfl, hperm, hmerge, hm.2.2.2.trans hmerge, hbuild, hb.2.2.2.trans hbuild⟩

/-- C3: when the text fails to parse, AddPolicy returns an error that names the
id, and the engine after the call is the engine before it: every id, the one
of the call included, has the policy it had before, or none as before. -/
theorem AddPolicy_parse_error_keeps_engine
    (UnmarshalCedar : List UInt8 → Except String Policy) (e : Engine) (id : String)
    (policyText : List UInt8) (err : String) (h : UnmarshalCedar policyText = .error err) :
    (e.AddPolicy UnmarshalCedar id policyText).1 = some ("parsing policy " ++ id ++ ": " ++ err) ∧
    (e.AddPolicy UnmarshalCedar id policyText).2 = e ∧
    (e.AddPolicy UnmarshalCedar id policyText).2.policySet = e.policySet ∧
    ∀ k : PolicyID,
      (e.AddPolicy UnmarshalCedar id policyText).2.policySet.Get k = e.policySet.Get k := by
  unfold Engine.AddPolicy
  rw [h]
  exact ⟨rfl, rfl, rfl, fun _ => rfl⟩

/-- C3, at an input: the invalid text of TestEngineAddPolicy, added to the sample
engine under an id that is already registered. -/
theorem AddPolicy_parse_error_keeps_engine_witness :
    testUnmarshalCedar (goBytes "this is not valid cedar") = .error "unexpected token" ∧
    (sampleEngine.AddPolicy testUnmarshalCedar "allow-all"
      (goBytes "this is not valid cedar")).1 =
        some "parsing policy allow-all: unexpected token" ∧
    (sampleEngine.AddPolicy testUnmarshalCedar "allow-all"
      (goBytes "this is not valid cedar")).2.policySet = sampleEngine.policySet := by
  have hparse : testUnmarshalCedar (goBytes "this is not valid cedar") =
      .error "unexpected token" := by
    unfold testUnmarshalCedar
    rw [if_neg (by decide)]
  have h := AddPolicy_parse_error_keeps_engine testUnmarshalCedar sampleEngine "allow-all"
    (goBytes "this is not valid cedar") "unexpected token" hparse
  exact ⟨hparse, h.1, h.2.2.1⟩

/-- C4: ToViolation returns no violation exactly when the result is allowed, and
a violation for every denied result. -/
theorem ToViolation_none_iff_allowed (r : EvaluationResult) :
    (r.ToViolation = none ↔ r.Allowed = true) ∧
    (r.ToViolation.isSome = true ↔ r.Allowed = false) := by
  unfold EvaluationResult.ToViolation
  cases r.Allowed <;> simp

/-- C5: the violation of a denied result has severity high when the action is
merge or deploy, and medium for every other action. -/
theorem ToViolation_severity (r : EvaluationResult) (h : r.Allowed = false) :
    ∃ v : Violation, r.ToViolation = some v ∧
      ((r.Action = "merge" ∨ r.Action = "deploy") → v.Severity = "high") ∧
      (¬ (r.Action = "merge" ∨ r.Action = "deploy") → v.Severity = "medium") := by
  unfold EvaluationResult.ToViolation
  simp only [h, Bool.false_eq_true, if_false]
  refine ⟨_, rfl, ?_, ?_⟩
  · intro hact
    simp [ActionMerge, ActionDeploy, SeverityHigh, hact]
  · intro hact
    simp only [not_or] at hact
    simp [ActionMerge, ActionDeploy, SeverityMedium, hact.1, hact.2]

/-- C5, at inputs: denied merge and deploy are high; denied release, build and
the empty action are medium. -/
theorem ToViolation_severity_witness :
    (({ Allowed := false, Action := "release" } : EvaluationResult).Allowed = false) ∧
    (∃ v : Violation,
      ({ Allowed := false, Action := "release" } : EvaluationResult).ToViolation = some v ∧
      v.Severity = "medium") ∧
    (({ Action := "merge" } : EvaluationResult).ToViolation.map (·.Severity) = some "high") ∧
    (({ Action := "deploy" } : EvaluationResult).ToViolation.map (·.Severity) = some "high") ∧
    (({ Action := "build" } : EvaluationResult).ToViolation.map (·.Severity) = some "medium") ∧
    (({ Action := "" } : EvaluationResult).ToViolation.map (·.Severity) = some "medium") := by
  obtain ⟨v, hv, _, hmed⟩ :=
    ToViolation_severity { Allowed := false, Action := "release" } rfl
  exact ⟨rfl, ⟨v, hv, hmed (by decide)⟩, by decide, by decide, by decide, by decide⟩

/-- C6: EvaluateAll returns exactly four results, those of Evaluate on build,
test, lint and merge in this order, and their Action fields are these names. -/
theorem EvaluateAll_four_results (e : Engine) (ctx : PolicyContext) :
    e.EvaluateAll ctx =
      [e.Evaluate ctx "build", e.Evaluate ctx "test", e.Evaluate ctx "lint",
        e.Evaluate ctx "merge"] ∧
    (e.EvaluateAll ctx).length = 4 ∧
    (e.EvaluateAll ctx).map (·.Action) = ["build", "test", "lint", "merge"] := by
  have h : e.EvaluateAll ctx =
      [e.Evaluate ctx "build", e.Evaluate ctx "test", e.Evaluate ctx "lint",
        e.Evaluate ctx "merge"] := rfl
  refine ⟨h, ?_, ?_⟩
  · rw [h]; rfl
  · rw [h]; simp [Evaluate_Action]

theorem filter_rule_allowed_versions (c : PolicyContext) (p : Profile) :
    (ValidateRepoAgainstProfile c p).filter (fun x => decide (x.Rule = "allowed-versions")) =
      (c.Go.Versions.filter (fun v => decide (v ∉ p.Go.Versions))).map (versionViolation p) := by
  rw [ValidateRepoAgainstProfile_eq, List.filter_append, List.filter_append,
    filter_map_all _ _ _ (fun _ => by simp [versionViolation]),
    filter_map_none _ _ _ (fun _ => by simp [allowedOSViolation])]
  split_ifs
  · simp
  · rw [filter_map_none _ _ _ (fun _ => by simp [requiredOSViolation])]; simp

/-- C7: the allowed-versions violations are, in order, one for each entry of
ctx.Go.Versions that is not in profile.Go.Versions; each has severity medium,
and the medium violations are exactly these. Versions 1.20 against 1.24, 1.25
give one medium violation, with rule allowed-versions. -/
theorem ValidateRepoAgainstProfile_allowed_versions (ctx : PolicyContext) (profile : Profile) :
    (ValidateRepoAgainstProfile ctx profile).filter (fun x => decide (x.Rule = "allowed-versions")) =
      (ctx.Go.Versions.filter (fun v => decide (v ∉ profile.Go.Versions))).map
        (versionViolation profile) ∧
    (ValidateRepoAgainstProfile ctx profile).filter (fun x => decide (x.Severity = "medium")) =
      (ctx.Go.Versions.filter (fun v => decide (v ∉ profile.Go.Versions))).map
        (versionViolation profile) ∧
    (∀ v : String, (versionViolation profile v).Rule = "allowed-versions" ∧
      (versionViolation profile v).Severity = "medium") ∧
    (ValidateRepoAgainstProfile
        { ctx with Go := { ctx.Go with Versions := ["1.20"] } }
        { profile with Go := { Versions := ["1.24", "1.25"] } }).filter
          (fun x => decide (x.Severity = "medium")) =
      [versionViolation { profile with Go := { Versions := ["1.24", "1.25"] } } "1.20"] := by
  have key : ∀ (c : PolicyContext) (p : Profile),
      (ValidateRepoAgainstProfile c p).filter (fun x => decide (x.Rule = "allowed-versions")) =
        (c.Go.Versions.filter (fun v => decide (v ∉ p.Go.Versions))).map (versionViolation p) ∧
      (ValidateRepoAgainstProfile c p).filter (fun x => decide (x.Severity = "medium")) =
        (c.Go.Versions.filter (fun v => decide (v ∉ p.Go.Versions))).map (versionViolation p) := by
    intro c p
    rw [ValidateRepoAgainstProfile_eq]
    constructor
    · rw [List.filter_append, List.filter_append,
        filter_map_all _ _ _ (fun _ => by simp [versionViolation]),
        filter_map_none _ _ _ (fun _ => by simp [allowedOSViolation])]
      split_ifs
      · simp
      · rw [filter_map_none _ _ _ (fun _ => by simp [requiredOSViolation])]; simp
    · rw [List.filter_append, List.filter_append,
        filter_map_all _ _ _ (fun _ => by simp [versionViolation, SeverityMedium]),
        filter_map_none _ _ _ (fun _ => by simp [allowedOSViolation, SeverityLow])]
      split_ifs
      · simp
      · rw [filter_map_none _ _ _ (fun _ => by simp [requiredOSViolation, SeverityInfo])]; simp
  refine ⟨(key ctx profile).1, (key ctx profile).2, fun v => ⟨rfl, rfl⟩, ?_⟩
  rw [(key _ _).2]
  have hfilter : (["1.20"] : List String).filter
      (fun v => decide (v ∉ (["1.24", "1.25"] : List String))) = ["1.20"] := by decide
  simp only [hfilter, List.map_cons, List.map_nil]

/-- C8: the allowed-os violations are, in order, one for each entry of
ctx.CI.OSMatrix that is not in profile.OS; each has severity low, and the
violations that have rule allowed-os or severity low are exactly these. -/
theorem ValidateRepoAgainstProfile_allowed_os (ctx : PolicyContext) (profile : Profile) :
    (ValidateRepoAgainstProfile ctx profile).filter
        (fun x => decide (x.Rule = "allowed-os") || decide (x.Severity = "low")) =
      (ctx.CI.OSMatrix.filter (fun os => decide (os ∉ profile.OS))).map
        (allowedOSViolation profile) ∧
    (ValidateRepoAgainstProfile ctx profile).filter
        (fun x => decide (x.Rule = "allowed-os") && decide (x.Severity = "low")) =
      (ctx.CI.OSMatrix.filter (fun os => decide (os ∉ profile.OS))).map
        (allowedOSViolation profile) ∧
    (∀ os : String, (allowedOSViolation profile os).Rule = "allowed-os" ∧
      (allowedOSViolation profile os).Severity = "low") := by
  refine ⟨?_, ?_, fun os => ⟨rfl, rfl⟩⟩
  · rw [ValidateRepoAgainstProfile_eq, List.filter_append, List.filter_append,
      filter_map_none _ _ _ (fun _ => by simp [versionViolation, SeverityMedium]),
      filter_map_all _ _ _ (fun _ => by simp [allowedOSViolation])]
    split_ifs
    · simp
    · rw [filter_map_none _ _ _ (fun _ => by simp [requiredOSViolation, SeverityInfo])]; simp
  · rw [ValidateRepoAgainstProfile_eq, List.filter_append, List.filter_append,
      filter_map_none _ _ _ (fun _ => by simp [versionViolation, SeverityMedium]),
      filter_map_all _ _ _ (fun _ => by simp [allowedOSViolation, SeverityLow])]
    split_ifs
    · simp
    · rw [filter_map_none _ _ _ (fun _ => by simp [requiredOSViolation, SeverityInfo])]; simp

/-- C9: for a non-empty OS matrix, the required-os violations are, in order, one
for each entry of profile.OS that does not occur in ctx.CI.OSMatrix; each has
severity info, and the info violations are exactly these. The matrix
ubuntu-latest against the profile ubuntu-latest, macos-latest gives one info
violation, for macos-latest. -/
theorem ValidateRepoAgainstProfile_required_os (ctx : PolicyContext) (profile : Profile)
    (h : ctx.CI.OSMatrix ≠ []) :
    (ValidateRepoAgainstProfile ctx profile).filter (fun x => decide (x.Rule = "required-os")) =
      (profile.OS.filter (fun os => decide (os ∉ ctx.CI.OSMatrix))).map
        (requiredOSViolation profile) ∧
    (ValidateRepoAgainstProfile ctx profile).filter (fun x => decide (x.Severity = "info")) =
      (profile.OS.filter (fun os => decide (os ∉ ctx.CI.OSMatrix))).map
        (requiredOSViolation profile) ∧
    (∀ os : String, (requiredOSViolation profile os).Rule = "required-os" ∧
      (requiredOSViolation profile os).Severity = "info") ∧
    (ValidateRepoAgainstProfile
        { ctx with CI := { ctx.CI with OSMatrix := ["ubuntu-latest"] } }
        { profile with OS := ["ubuntu-latest", "macos-latest"] }).filter
          (fun x => decide (x.Severity = "info")) =
      [requiredOSViolation { profile with OS := ["ubuntu-latest", "macos-latest"] }
        "macos-latest"] := by
  have key : ∀ (c : PolicyContext) (p : Profile), c.CI.OSMatrix ≠ [] →
      (ValidateRepoAgainstProfile c p).filter (fun x => decide (x.Rule = "required-os")) =
        (p.OS.filter (fun os => decide (os ∉ c.CI.OSMatrix))).map (requiredOSViolation p) ∧
      (ValidateRepoAgainstProfile c p).filter (fun x => decide (x.Severity = "info")) =
        (p.OS.filter (fun os => decide (os ∉ c.CI.OSMatrix))).map (requiredOSViolation p) := by
    intro c p hc
    rw [ValidateRepoAgainstProfile_eq, if_neg hc]
    constructor
    · rw [List.filter_append, List.filter_append,
        filter_map_none _ _ _ (fun _ => by simp [versionViolation]),
        filter_map_none _ _ _ (fun _ => by simp [allowedOSViolation]),
        filter_map_all _ _ _ (fun _ => by simp [requiredOSViolation])]
      simp
    · rw [List.filter_append, List.filter_append,
        filter_map_none _ _ _ (fun _ => by simp [versionViolation, SeverityMedium]),
        filter_map_none _ _ _ (fun _ => by simp [allowedOSViolation, SeverityLow]),
        filter_map_all _ _ _ (fun _ => by simp [requiredOSViolation, SeverityInfo])]
      simp
  refine ⟨(key ctx profile h).1, (key ctx profile h).2, fun os => ⟨rfl, rfl⟩, ?_⟩
  rw [(key _ _ (by simp)).2]
  have hfilter : (["ubuntu-latest", "macos-latest"] : List String).filter
      (fun os => decide (os ∉ (["ubuntu-latest"] : List String))) = ["macos-latest"] := by
    decide
  simp only [hfilter, List.map_cons, List.map_nil]

/-- C9, at an input: the matrix ubuntu-latest against the profile ubuntu-latest,
macos-latest gives exactly one violation, the required-os one for
macos-latest, and so no low violation. -/
theorem ValidateRepoAgainstProfile_required_os_witness :
    ({ CI := { OSMatrix := ["ubuntu-latest"] } } : PolicyContext).CI.OSMatrix ≠ [] ∧
    (ValidateRepoAgainstProfile { CI := { OSMatrix := ["ubuntu-latest"] } }
        { OS := ["ubuntu-latest", "macos-latest"] }).filter
          (fun x => decide (x.Severity = "info")) =
      [requiredOSViolation { OS := ["ubuntu-latest", "macos-latest"] } "macos-latest"] ∧
    (ValidateRepoAgainstProfile { CI := { OSMatrix := ["ubuntu-latest"] } }
        { OS := ["ubuntu-latest", "macos-latest"] }).filter
          (fun x => decide (x.Severity = "low")) = [] :=
  ⟨by decide,
    (ValidateRepoAgainstProfile_required_os { CI := { OSMatrix := ["ubuntu-latest"] } }
      { OS := ["ubuntu-latest", "macos-latest"] } (by decide)).2.1.trans (by decide),
    by decide⟩

/-- C10: with no Go version in the context there is no allowed-versions
violation; with an empty OS matrix there is neither an allowed-os nor a
required-os violation; with both lists empty there is no violation at all. -/
theorem ValidateRepoAgainstProfile_skips_empty (ctx : PolicyContext) (profile : Profile) :
    (ctx.Go.Versions = [] →
      (ValidateRepoAgainstProfile ctx profile).filter
        (fun x => decide (x.Rule = "allowed-versions")) = []) ∧
    (ctx.CI.OSMatrix = [] →
      (ValidateRepoAgainstProfile ctx profile).filter
        (fun x => decide (x.Rule = "allowed-os") || decide (x.Rule = "required-os")) = []) ∧
    (ctx.Go.Versions = [] → ctx.CI.OSMatrix = [] → ValidateRepoAgainstProfile ctx profile = []) := by
  refine ⟨?_, ?_, ?_⟩
  · intro hv
    rw [(filter_rule_allowed_versions ctx profile), hv]; rfl
  · intro ho
    rw [ValidateRepoAgainstProfile_eq, ho, List.filter_append,
      filter_map_none _ _ _ (fun _ => by simp [versionViolation])]
    simp
  · intro hv ho
    rw [ValidateRepoAgainstProfile_eq, hv, ho]; simp

/-- C10, at an input: a context with no Go version and no OS matrix has no
violation against the built-in default profile, which lists three systems. -/
theorem ValidateRepoAgainstProfile_skips_empty_witness :
    ({} : PolicyContext).Go.Versions = [] ∧ ({} : PolicyContext).CI.OSMatrix = [] ∧
    DefaultProfile.OS ≠ [] ∧
    ValidateRepoAgainstProfile {} DefaultProfile = [] ∧
    (ValidateRepoAgainstProfile { Go := { Versions := ["1.20"] } } DefaultProfile).filter
      (fun x => decide (x.Rule = "allowed-os") || decide (x.Rule = "required-os")) = [] :=
  ⟨rfl, rfl, by decide,
    (ValidateRepoAgainstProfile_skips_empty {} DefaultProfile).2.2 rfl rfl,
    (ValidateRepoAgainstProfile_skips_empty { Go := { Versions := ["1.20"] } }
      DefaultProfile).2.1 rfl⟩

/-- C11: the list ValidateRepoAgainstProfile returns is its allowed-versions
violations in ctx.Go.Versions order, then its allowed-os violations in
ctx.CI.OSMatrix order, then its required-os violations in profile.OS order; it
depends on the two lists of the context and on the profile only. -/
theorem ValidateRepoAgainstProfile_order (ctx : PolicyContext) (profile : Profile) :
    ValidateRepoAgainstProfile ctx profile =
      (ValidateRepoAgainstProfile ctx profile).filter
          (fun x => decide (x.Rule = "allowed-versions")) ++
        ((ValidateRepoAgainstProfile ctx profile).filter
            (fun x => decide (x.Rule = "allowed-os")) ++
          (ValidateRepoAgainstProfile ctx profile).filter
            (fun x => decide (x.Rule = "required-os"))) ∧
    ValidateRepoAgainstProfile ctx profile =
      (ctx.Go.Versions.filter (fun v => decide (v ∉ profile.Go.Versions))).map
          (versionViolation profile) ++
        ((ctx.CI.OSMatrix.filter (fun os => decide (os ∉ profile.OS))).map
            (allowedOSViolation profile) ++
          if ctx.CI.OSMatrix = [] then []
          else (profile.OS.filter (fun os => decide (os ∉ ctx.CI.OSMatrix))).map
            (requiredOSViolation profile)) ∧
    (∀ (ctx' : PolicyContext) (profile' : Profile),
      ctx'.Go.Versions = ctx.Go.Versions → ctx'.CI.OSMatrix = ctx.CI.OSMatrix →
      profile' = profile →
      ValidateRepoAgainstProfile ctx' profile' = ValidateRepoAgainstProfile ctx profile) := by
  refine ⟨?_, ValidateRepoAgainstProfile_eq ctx profile, ?_⟩
  · rw [ValidateRepoAgainstProfile_eq]
    simp only [List.filter_append]
    rw [filter_map_all _ _ _ (fun _ => by simp [versionViolation]),
      filter_map_none _ _ _ (fun _ => by simp [allowedOSViolation]),
      filter_map_none _ _ _ (fun _ => by simp [versionViolation]),
      filter_map_all _ _ _ (fun _ => by simp [allowedOSViolation]),
      filter_map_none _ _ _ (fun _ => by simp [versionViolation]),
      filter_map_none _ _ _ (fun _ => by simp [allowedOSViolation])]
    split_ifs
    · simp
    · rw [filter_map_none (fun x : Violation => decide (x.Rule = "allowed-versions")) _ _
          (fun _ => by simp [requiredOSViolation]),
        filter_map_none (fun x : Violation => decide (x.Rule = "allowed-os")) _ _
          (fun _ => by simp [requiredOSViolation]),
        filter_map_all _ _ _ (fun _ => by simp [requiredOSViolation])]
      simp
  · intro ctx' profile' hv ho hp
    rw [ValidateRepoAgainstProfile_eq, ValidateRepoAgainstProfile_eq, hv, ho, hp]

/-- C14: Build sets CI.HasWorkflow exactly when the workflow list is non-empty;
for the empty list HasWorkflow and UsesReusableWorkflow are false and
CI.OSMatrix is empty. -/
theorem Build_HasWorkflow (b : ContextBuilder) (repo : Repo) (workflows : List Workflow)
    (bp : Option BranchProtection) :
    ((b.Build repo workflows bp).CI.HasWorkflow = true ↔ workflows ≠ []) ∧
    (b.Build repo [] bp).CI.HasWorkflow = false ∧
    (b.Build repo [] bp).CI.UsesReusableWorkflow = false ∧
    (b.Build repo [] bp).CI.OSMatrix = [] := by
  refine ⟨?_, ?_, ?_, ?_⟩
  · rw [Build_CI]
    unfold ContextBuilder.buildCIContext
    simp only [ci_fold_HasWorkflow]
    simp [List.length_pos]
  · rw [Build_CI]; rfl
  · rw [Build_CI]; rfl
  · rw [Build_CI]; rfl

/-- C15: when "Go" is not among the repository's languages, Build returns the
zero-valued Go section, whatever the builder's profile and the workflows. -/
theorem Build_Go_zero_of_not_go (b : ContextBuilder) (repo : Repo) (workflows : List Workflow)
    (bp : Option BranchProtection) (h : "Go" ∉ repo.Languages) :
    (b.Build repo workflows bp).Go = {} ∧
    (b.Build repo workflows bp).Go.Versions = [] ∧
    (b.Build repo workflows bp).Go.Profile = "" ∧
    (b.Build repo workflows bp).Go.HasGoMod = false := by
  have hgo : (b.Build repo workflows bp).Go = {} := by
    rw [Build_Go]
    unfold ContextBuilder.buildGoContext
    simp [isGoLoop_eq_decide_mem, h]
  rw [hgo]
  exact ⟨rfl, rfl, rfl, rfl⟩

/-- C15, at an input: a repository whose language is spelled "go", a builder
holding the modern profile, a workflow whose matrix declares Go versions. -/
theorem Build_Go_zero_of_not_go_witness :
    "Go" ∉ ({ sampleGoRepo with Languages := ["go", "Golang"] } : Repo).Languages ∧
    ((NewContextBuilder (some ModernProfile)).Build
      { sampleGoRepo with Languages := ["go", "Golang"] } [sampleWorkflowA] none).Go = {} :=
  ⟨by decide,
    (Build_Go_zero_of_not_go (NewContextBuilder (some ModernProfile))
      { sampleGoRepo with Languages := ["go", "Golang"] } [sampleWorkflowA] none
      (by decide)).1⟩

/-- C17: Build copies the four branch-protection flags from a supplied record
and leaves them false without one; it returns a context in both cases. -/
theorem Build_BranchProtection (b : ContextBuilder) (repo : Repo) (workflows : List Workflow)
    (bp : BranchProtection) :
    (b.Build repo workflows (some bp)).BranchProtection =
      { Enabled := bp.Enabled
        RequireReviews := bp.RequireReviews
        RequireStatusChecks := bp.RequireStatusChecks
        EnforceAdmins := bp.EnforceAdmins } ∧
    (b.Build repo workflows none).BranchProtection =
      { Enabled := false, RequireReviews := false, RequireStatusChecks := false,
        EnforceAdmins := false } ∧
    (∃ ctx : PolicyContext, b.Build repo workflows (some bp) = ctx) ∧
    (∃ ctx : PolicyContext, b.Build repo workflows none = ctx) :=
  ⟨rfl, rfl, ⟨_, rfl⟩, ⟨_, rfl⟩⟩

/-- C19: IsCompliant is true exactly when the Violations list is empty and the
Error string is empty; Warnings, Skipped and Compliant do not change it. -/
theorem IsCompliant_iff (r : RepoResult) :
    (r.IsCompliant = true ↔ r.Violations = [] ∧ r.Error = "") ∧
    (∀ (warnings : List Warning) (skipped compliant : Bool),
      RepoResult.IsCompliant
        { r with Warnings := warnings, Skipped := skipped, Compliant := compliant } =
        r.IsCompliant) := by
  constructor
  · unfold RepoResult.IsCompliant
    simp [List.length_eq_zero]
  · intro warnings skipped compliant
    rfl

/-- C20: ViolationCount is the sum of the lengths of the Violations lists of
the Repos; it is 0 for no repos, and additive over a concatenation of repo
lists. -/
theorem ViolationCount_eq_sum (c : ComplianceResult) (xs ys : List RepoResult) :
    c.ViolationCount = (c.Repos.map (fun r => (r.Violations.length : Int))).sum ∧
    ComplianceResult.ViolationCount { c with Repos := [] } = 0 ∧
    ComplianceResult.ViolationCount { c with Repos := xs ++ ys } =
      ComplianceResult.ViolationCount { c with Repos := xs } +
        ComplianceResult.ViolationCount { c with Repos := ys } := by
  unfold ComplianceResult.ViolationCount
  simp only [violation_fold_eq_sum]
  simp

/-- C12 as stated fails: of two workflows that each declare a reusable-workflow
reference, Build records the reference of the second, not of the first. -/
theorem Build_first_ref_counterexample :
    ¬ (∀ (b : ContextBuilder) (repo : Repo) (workflows : List Workflow)
        (bp : Option BranchProtection) (ref : String),
        firstDeclaredRef workflows = some ref →
        (b.Build repo workflows bp).CI.UsesReusableWorkflow = true ∧
        (b.Build repo workflows bp).CI.ReusableWorkflowRef = ref) := by
  intro h
  have h2 := (h (NewContextBuilder none) sampleGoRepo [sampleWorkflowA, sampleWorkflowB] none
    "org/shared/.github/workflows/ci.yml@v1" (by decide)).2
  revert h2
  decide

/-- C12, amended: when at least one workflow declares a reusable-workflow
reference, Build sets CI.UsesReusableWorkflow and records the FullRef of the
first reference of the last such workflow in input order. -/
theorem Build_last_ref (b : ContextBuilder) (repo : Repo) (workflows : List Workflow)
    (bp : Option BranchProtection)
    (h : ∃ wf ∈ workflows, wf.ReusableWorkflowRefs ≠ []) :
    (b.Build repo workflows bp).CI.UsesReusableWorkflow = true ∧
    ∃ ref : String, lastDeclaredRef workflows = some ref ∧
      (b.Build repo workflows bp).CI.ReusableWorkflowRef = ref := by
  have hsome := (lastDeclaredRef_isSome workflows).2 h
  obtain ⟨ref, href⟩ := Option.isSome_iff_exists.1 hsome
  rw [Build_CI]
  unfold ContextBuilder.buildCIContext
  simp only [(ci_fold_ref _ _).1, (ci_fold_ref _ _).2, href]
  exact ⟨by simp, ref, rfl, by simp⟩

/-- C12 amended, at an input: of the two sample workflows the second one's
reference is recorded. -/
theorem Build_last_ref_witness :
    (∃ wf ∈ [sampleWorkflowA, sampleWorkflowB], wf.ReusableWorkflowRefs ≠ []) ∧
    ((NewContextBuilder none).Build sampleGoRepo [sampleWorkflowA, sampleWorkflowB]
      none).CI.UsesReusableWorkflow = true ∧
    lastDeclaredRef [sampleWorkflowA, sampleWorkflowB] =
      some "org/shared/.github/workflows/lint.yml@v2" ∧
    ((NewContextBuilder none).Build sampleGoRepo [sampleWorkflowA, sampleWorkflowB]
      none).CI.ReusableWorkflowRef = "org/shared/.github/workflows/lint.yml@v2" := by
  have hex : ∃ wf ∈ [sampleWorkflowA, sampleWorkflowB], wf.ReusableWorkflowRefs ≠ [] :=
    ⟨sampleWorkflowA, by simp, by decide⟩
  have h := Build_last_ref (NewContextBuilder none) sampleGoRepo
    [sampleWorkflowA, sampleWorkflowB] none hex
  exact ⟨hex, h.1, by decide, by decide⟩

/-- C13: the CI.OSMatrix of Build is the keep-first deduplication of the OS
identifiers visited workflow by workflow, job by job, RunsOn before Matrix.OS:
it holds exactly these identifiers, each once, in the order of their first
occurrence, which need not be sorted. -/
theorem Build_OSMatrix (b : ContextBuilder) (repo : Repo) (workflows : List Workflow)
    (bp : Option BranchProtection) :
    (b.Build repo workflows bp).CI.OSMatrix = keepFirst (osSequence workflows) ∧
    (b.Build repo workflows bp).CI.OSMatrix.Nodup ∧
    (∀ os : String,
      os ∈ (b.Build repo workflows bp).CI.OSMatrix ↔ os ∈ osSequence workflows) ∧
    (b.Build repo workflows bp).CI.OSMatrix.Sublist (osSequence workflows) ∧
    (b.Build repo [sampleWorkflowA, sampleWorkflowB] bp).CI.OSMatrix =
      ["ubuntu-latest", "macos-latest", "windows-latest"] := by
  have h : ∀ wfs : List Workflow,
      (b.Build repo wfs bp).CI.OSMatrix = keepFirst (osSequence wfs) := by
    intro wfs
    rw [Build_CI, buildCIContext_OSMatrix]
  rw [h]
  refine ⟨rfl, nodup_keepFirst _, fun os => mem_keepFirst _ os, keepFirst_sublist _, ?_⟩
  rw [h]
  decide

/-- C16: for a Go repository, a builder with a profile sets Go.Profile to the
profile's name and Go.Versions to the keep-first deduplication of the
workflows' Matrix.GoVersion entries when there are any, and to the profile's
versions otherwise; without a profile, Go.Profile is empty and Go.Versions is
the deduplicated workflow list. -/
theorem Build_Go_versions (b : ContextBuilder) (repo : Repo) (workflows : List Workflow)
    (bp : Option BranchProtection) (hgo : "Go" ∈ repo.Languages) :
    (∀ profile : Profile, b.profile = some profile →
      (b.Build repo workflows bp).Go.Profile = profile.Name ∧
      (b.Build repo workflows bp).Go.Versions =
        if goVersionSequence workflows = [] then profile.Go.Versions
        else keepFirst (goVersionSequence workflows)) ∧
    (b.profile = none →
      (b.Build repo workflows bp).Go.Profile = "" ∧
      (b.Build repo workflows bp).Go.Versions = keepFirst (goVersionSequence workflows)) := by
  rw [Build_Go]
  unfold ContextBuilder.buildGoContext
  simp only [isGoLoop_eq_decide_mem, hgo, decide_True, Bool.not_true, Bool.false_eq_true,
    if_false, go_fold_versions, gt_iff_lt, List.length_pos, ne_eq, keepFirst_eq_nil]
  constructor
  · intro profile hp
    rw [hp]
    by_cases hv : goVersionSequence workflows = [] <;> simp [hv]
  · intro hp
    rw [hp]
    by_cases hv : goVersionSequence workflows = []
    · simp [hv, keepFirst]
    · simp [hv]

/-- C16, at inputs: the workflow's versions 1.24, 1.25, 1.24 override the modern
profile's 1.25; without workflows the profile's versions stay. -/
theorem Build_Go_versions_witness :
    "Go" ∈ sampleGoRepo.Languages ∧
    ((NewContextBuilder (some ModernProfile)).Build sampleGoRepo [sampleWorkflowA]
      none).Go.Profile = "modern" ∧
    ((NewContextBuilder (some ModernProfile)).Build sampleGoRepo [sampleWorkflowA]
      none).Go.Versions = ["1.24", "1.25"] ∧
    ((NewContextBuilder (some ModernProfile)).Build sampleGoRepo [] none).Go.Versions =
      ["1.25"] ∧
    ((NewContextBuilder none).Build sampleGoRepo [sampleWorkflowA] none).Go.Profile = "" := by
  have hgo : "Go" ∈ sampleGoRepo.Languages := by decide
  have h1 := (Build_Go_versions (NewContextBuilder (some ModernProfile)) sampleGoRepo
    [sampleWorkflowA] none hgo).1 ModernProfile rfl
  have h2 := (Build_Go_versions (NewContextBuilder (some ModernProfile)) sampleGoRepo
    [] none hgo).1 ModernProfile rfl
  have h3 := (Build_Go_versions (NewContextBuilder none) sampleGoRepo
    [sampleWorkflowA] none hgo).2 rfl
  exact ⟨hgo, h1.1, h1.2.trans (by decide), h2.2.trans (by decide), h3.1⟩

/-- C18: in a manager built by Add calls, the profile registered under a name
is the one most recently added with that name; GetOrDefault returns it if
there is one, otherwise the one registered under "default" if there is one,
otherwise the built-in default profile; the Name of what it returns is the
name asked for or "default". -/
theorem GetOrDefault_fallback (added : List Profile) (name : String) :
    (added.foldl ProfileManager.Add NewProfileManager).profiles.get name =
      lastAdded added name ∧
    (∀ p : Profile,
      (added.foldl ProfileManager.Add NewProfileManager).profiles.get name = some p →
      (added.foldl ProfileManager.Add NewProfileManager).GetOrDefault name = p) ∧
    (∀ p : Profile,
      (added.foldl ProfileManager.Add NewProfileManager).profiles.get name = none →
      (added.foldl ProfileManager.Add NewProfileManager).profiles.get "default" = some p →
      (added.foldl ProfileManager.Add NewProfileManager).GetOrDefault name = p) ∧
    ((added.foldl ProfileManager.Add NewProfileManager).profiles.get name = none →
      (added.foldl ProfileManager.Add NewProfileManager).profiles.get "default" = none →
      (added.foldl ProfileManager.Add NewProfileManager).GetOrDefault name = DefaultProfile) ∧
    (((added.foldl ProfileManager.Add NewProfileManager).GetOrDefault name).Name = name ∨
      ((added.foldl ProfileManager.Add NewProfileManager).GetOrDefault name).Name =
        "default") := by
  refine ⟨registry_get added name, ?_, ?_, ?_, ?_⟩
  · intro p hp
    unfold ProfileManager.GetOrDefault
    rw [hp]
  · intro p hn hd
    unfold ProfileManager.GetOrDefault
    rw [hn, hd]
  · intro hn hd
    unfold ProfileManager.GetOrDefault
    rw [hn, hd]
  · unfold ProfileManager.GetOrDefault
    rw [registry_get, registry_get]
    cases hn : lastAdded added name with
    | some p => exact Or.inl (lastAdded_name _ _ _ hn)
    | none =>
      cases hd : lastAdded added "default" with
      | some p => exact Or.inr (lastAdded_name _ _ _ hd)
      | none => exact Or.inr rfl

/-- C18, at inputs: after LoadBuiltinProfiles, modern is found, an unknown name
and the empty name fall back to default; with only modern registered an
unknown name gives the built-in default. -/
theorem GetOrDefault_fallback_witness :
    NewProfileManager.LoadBuiltinProfiles =
      [DefaultProfile, ModernProfile, LegacyProfile].foldl ProfileManager.Add
        NewProfileManager ∧
    NewProfileManager.LoadBuiltinProfiles.GetOrDefault "modern" = ModernProfile ∧
    NewProfileManager.LoadBuiltinProfiles.GetOrDefault "nonexistent" = DefaultProfile ∧
    NewProfileManager.LoadBuiltinProfiles.GetOrDefault "" = DefaultProfile ∧
    ([ModernProfile].foldl ProfileManager.Add NewProfileManager).GetOrDefault "nonexistent" =
      DefaultProfile :=
  ⟨rfl, by decide, by decide, by decide,
    (GetOrDefault_fallback [ModernProfile] "nonexistent").2.2.2.1 (by decide) (by decide)⟩

/-- C21 as stated fails: a result with no violation and no error whose Compliant
field was left false is compliant for IsCompliant, and the CSV formatter
prints false for it. -/
theorem Compliant_field_counterexample :
    ¬ (∀ r : RepoResult,
        (r.Compliant = true ↔ r.Violations = [] ∧ r.Error = "") ∧
        r.Compliant = r.IsCompliant ∧
        ((csvRow r).getD 2 "" = "true" ↔ r.IsCompliant = true)) := by
  intro h
  have h2 := (h { Repo := { FullName := "org/repo" } }).2.1
  revert h2
  decide

/-- C21, amended: IsCompliant is true exactly when Violations and Error are
empty, whatever the Compliant field holds; the CSV formatter prints the stored
Compliant field in its compliant column, which therefore agrees with
IsCompliant exactly for the results whose field does. -/
theorem Compliant_field_stored (r : RepoResult) (result : ComplianceResult) :
    (r.IsCompliant = true ↔ r.Violations = [] ∧ r.Error = "") ∧
    (∀ compliant : Bool, RepoResult.IsCompliant { r with Compliant := compliant } =
      r.IsCompliant) ∧
    CSVFormatter.records result = csvHeader :: result.Repos.map csvRow ∧
    csvHeader.getD 2 "" = "compliant" ∧
    (csvRow r).getD 2 "" = (if r.Compliant then "true" else "false") ∧
    (((csvRow r).getD 2 "" = "true" ↔ r.IsCompliant = true) ↔ r.Compliant = r.IsCompliant) := by
  have hcol : (csvRow r).getD 2 "" = (if r.Compliant then "true" else "false") := by
    unfold csvRow
    cases r.Compliant <;> rfl
  refine ⟨?_, fun _ => rfl, csv_records_eq result, rfl, hcol, ?_⟩
  · unfold RepoResult.IsCompliant
    simp [List.length_eq_zero]
  · rw [hcol]
    generalize r.Compliant = c
    generalize r.IsCompliant = d
    cases c <;> cases d <;> decide

/-- C22 as stated fails: a skipped result with no violation and no error is
compliant for IsCompliant. -/
theorem skipped_noncompliant_counterexample :
    ¬ (∀ r : RepoResult, (r.Skipped = true ∨ r.Error ≠ "") → r.IsCompliant = false) := by
  intro h
  have h2 := h { Skipped := true, SkipReason := "archived" } (Or.inl rfl)
  revert h2
  decide

/-- C22, amended: a result whose Error is not empty is not compliant, so it is
not among the results of a list for which IsCompliant is true; IsCompliant
does not read Skipped. -/
theorem errored_noncompliant (r : RepoResult) (h : r.Error ≠ "") :
    r.IsCompliant = false ∧
    (∀ results : List RepoResult, r ∉ results.filter (fun x => x.IsCompliant)) ∧
    (∀ skipped : Bool, RepoResult.IsCompliant { r with Skipped := skipped } = r.IsCompliant) := by
  have hfalse : r.IsCompliant = false := by
    unfold RepoResult.IsCompliant
    simp [h]
  refine ⟨hfalse, ?_, fun _ => rfl⟩
  intro results hmem
  have := (List.mem_filter.1 hmem).2
  rw [hfalse] at this
  exact Bool.noConfusion this

/-- C22 amended, at an input: the errored result of TestRepoResultIsCompliant. -/
theorem errored_noncompliant_witness :
    ({ Error := "failed to fetch repository" } : RepoResult).Error ≠ "" ∧
    RepoResult.IsCompliant { Error := "failed to fetch repository" } = false ∧
    RepoResult.IsCompliant { Error := "failed to fetch repository", Skipped := true } = false :=
  ⟨by decide,
    (errored_noncompliant { Error := "failed to fetch repository" } (by decide)).1,
    by decide⟩

/-- C25: for a filter whose language, topic and visibility lists are empty,
Matches is true exactly when the repo is not archived or IncludeArchived is
set, and is not a fork or IncludeForks is set. -/
theorem Matches_empty_lists (r : Repo) (filter : RepoFilter)
    (hil : filter.IncludeLanguages = []) (hel : filter.ExcludeLanguages = [])
    (hit : filter.IncludeTopics = []) (het : filter.ExcludeTopics = [])
    (hv : filter.VisibilityFilter = []) :
    (r.Matches filter = true ↔
      (r.Archived = false ∨ filter.IncludeArchived = true) ∧
      (r.Fork = false ∨ filter.IncludeForks = true)) ∧
    (r.Matches {} = true ↔ r.Archived = false ∧ r.Fork = false) := by
  unfold Repo.Matches
  simp only [hil, hel, hit, het, hv, hasAny_nil]
  cases r.Archived <;> cases r.Fork <;> cases filter.IncludeArchived <;>
    cases filter.IncludeForks <;> simp

/-- C25, at inputs: the zero-valued filter matches a plain repo and rejects an
archived repo and a fork; the flags let them through. -/
theorem Matches_empty_lists_witness :
    ({ IncludeForks := true } : RepoFilter).IncludeLanguages = [] ∧
    Repo.Matches { Name := "forked-repo", Fork := true } { IncludeForks := true } = true ∧
    Repo.Matches { Name := "test-repo", PrimaryLanguage := "Go" } {} = true ∧
    Repo.Matches { Name := "archived-repo", Archived := true } {} = false ∧
    Repo.Matches { Name := "forked-repo", Fork := true } {} = false :=
  ⟨rfl,
    ((Matches_empty_lists { Name := "forked-repo", Fork := true } { IncludeForks := true }
      rfl rfl rfl rfl rfl).1).2 ⟨Or.inl rfl, Or.inr rfl⟩,
    by decide, by decide, by decide⟩

/-- C26: a repo that has a language of ExcludeLanguages or a topic of
ExcludeTopics does not match, whatever the other fields of the filter. -/
theorem Matches_excluded (r : Repo) (filter : RepoFilter)
    (h : (∃ lang ∈ r.Languages, lang ∈ filter.ExcludeLanguages) ∨
      (∃ topic ∈ r.Topics, topic ∈ filter.ExcludeTopics)) :
    r.Matches filter = false := by
  unfold Repo.Matches
  rcases h with ⟨lang, h1, h2⟩ | ⟨topic, h1, h2⟩
  · have hx : hasAny r.Languages filter.ExcludeLanguages = true :=
      (hasAny_iff _ _).2 ⟨lang, h2, h1⟩
    simp only [hx, if_true]
    split_ifs <;> rfl
  · have hx : hasAny r.Topics filter.ExcludeTopics = true :=
      (hasAny_iff _ _).2 ⟨topic, h2, h1⟩
    simp only [hx, if_true]
    split_ifs <;> rfl

/-- C26, at an input: the repo of the test "exclude language filter", with
its language also asked for by IncludeLanguages. -/
theorem Matches_excluded_witness :
    ((∃ lang ∈ ({ Languages := ["Go", "C"] } : Repo).Languages,
        lang ∈ ({ IncludeLanguages := ["C"], ExcludeLanguages := ["C"] } :
          RepoFilter).ExcludeLanguages) ∨
      (∃ topic ∈ ({ Languages := ["Go", "C"] } : Repo).Topics,
        topic ∈ ({ IncludeLanguages := ["C"], ExcludeLanguages := ["C"] } :
          RepoFilter).ExcludeTopics)) ∧
    Repo.Matches { Languages := ["Go", "C"] }
      { IncludeLanguages := ["C"], ExcludeLanguages := ["C"] } = false := by
  have h : (∃ lang ∈ ({ Languages := ["Go", "C"] } : Repo).Languages,
        lang ∈ ({ IncludeLanguages := ["C"], ExcludeLanguages := ["C"] } :
          RepoFilter).ExcludeLanguages) ∨
      (∃ topic ∈ ({ Languages := ["Go", "C"] } : Repo).Topics,
        topic ∈ ({ IncludeLanguages := ["C"], ExcludeLanguages := ["C"] } :
          RepoFilter).ExcludeTopics) :=
    Or.inl ⟨"C", by decide, by decide⟩
  exact ⟨h, Matches_excluded _ _ h⟩

/-- C28: ParseFormat succeeds exactly on json, markdown, md, sarif and csv,
compared case-sensitively, with the formats json, markdown, markdown, sarif
and csv; on any other string it returns the empty format and an error. -/
theorem ParseFormat_spec (s : String) :
    ((ParseFormat s).2 = none ↔ s ∈ ["json", "markdown", "md", "sarif", "csv"]) ∧
    (s ∉ ["json", "markdown", "md", "sarif", "csv"] →
      ParseFormat s =
        ("", some ("unknown format: " ++ s ++ " (supported: json, markdown, sarif, csv)"))) ∧
    ParseFormat "json" = ("json", none) ∧
    ParseFormat "markdown" = ("markdown", none) ∧
    ParseFormat "md" = ("markdown", none) ∧
    ParseFormat "sarif" = ("sarif", none) ∧
    ParseFormat "csv" = ("csv", none) ∧
    (ParseFormat "").1 = "" ∧ (ParseFormat "").2.isSome = true ∧
    (ParseFormat "JSON").1 = "" ∧ (ParseFormat "JSON").2.isSome = true := by
  refine ⟨?_, ?_, by decide, by decide, by decide, by decide, by decide, by decide, by decide,
    by decide, by decide⟩
  · unfold ParseFormat
    simp only [List.mem_cons, List.mem_singleton, List.mem_nil_iff, or_false]
    split_ifs with h1 h2 h3 h4
    · simp [h1]
    · rcases h2 with h2 | h2 <;> simp [h2]
    · simp [h3]
    · simp [h4]
    · simp only [not_or] at h2
      simp [h1, h2.1, h2.2, h3, h4]
  · intro hs
    simp only [List.mem_cons, List.mem_singleton, List.mem_nil_iff, or_false, not_or] at hs
    unfold ParseFormat
    simp [hs.1, hs.2.1, hs.2.2.1, hs.2.2.2.1, hs.2.2.2.2]

/-- C28, at an input: the unknown format yaml. -/
theorem ParseFormat_spec_witness :
    "yaml" ∉ ["json", "markdown", "md", "sarif", "csv"] ∧
    ParseFormat "yaml" =
      ("", some "unknown format: yaml (supported: json, markdown, sarif, csv)") :=
  ⟨by decide, ((ParseFormat_spec "yaml").2.1 (by decide)).trans (by decide)⟩

/-- C29: the violation of a denied result has Policy cedar/ followed by the
action and Rule the action; its Message is "Policy denied <action> action",
followed by the list of the matched policy ids when Reasons is not empty. -/
theorem ToViolation_fields (r : EvaluationResult) (h : r.Allowed = false) :
    ∃ v : Violation, r.ToViolation = some v ∧
      v.Policy = "cedar/" ++ r.Action ∧ v.Rule = r.Action ∧
      (r.Reasons = [] → v.Message = "Policy denied " ++ r.Action ++ " action") ∧
      (r.Reasons ≠ [] → v.Message =
        "Policy denied " ++ r.Action ++ " action (policies: " ++ fmtStrings r.Reasons ++ ")") := by
  unfold EvaluationResult.ToViolation
  simp only [h, Bool.false_eq_true, if_false]
  refine ⟨_, rfl, rfl, rfl, ?_, ?_⟩
  · intro hr; simp [hr]
  · intro hr; simp [List.length_pos, hr]

/-- C29, at inputs: the denied merge of TestEvaluationResultToViolation, and a
denied build without reasons. -/
theorem ToViolation_fields_witness :
    ({ Action := "merge", Allowed := false, Reasons := ["branch-protection-policy",
        "builtin/x"] } : EvaluationResult).Allowed = false ∧
    (∃ v : Violation,
      ({ Action := "merge", Allowed := false, Reasons := ["branch-protection-policy",
        "builtin/x"] } : EvaluationResult).ToViolation = some v ∧
      v.Policy = "cedar/merge" ∧ v.Rule = "merge" ∧
      v.Message = "Policy denied merge action (policies: [branch-protection-policy builtin/x])") ∧
    (({ Action := "build" } : EvaluationResult).ToViolation.map (·.Message) =
      some "Policy denied build action") := by
  obtain ⟨v, hv, hp, hr, _, hm⟩ := ToViolation_fields
    { Action := "merge", Allowed := false, Reasons := ["branch-protection-policy", "builtin/x"] }
    rfl
  exact ⟨rfl, ⟨v, hv, hp.trans (by decide), hr, (hm (by decide)).trans (by decide)⟩, by decide⟩

/-- C30: the result of Evaluate carries the requested action and the
repository's full name; it is allowed exactly when the authorizer's decision
is allow; its Reasons are the policy ids of the authorizer's reasons, in
their order, its Errors the authorizer's errors, in their order. -/
theorem Evaluate_fields (e : Engine) (ctx : PolicyContext) (action : String) :
    (e.Evaluate ctx action).Action = action ∧
    (e.Evaluate ctx action).RepoName = ctx.Repo.FullName ∧
    ((e.Evaluate ctx action).Allowed = true ↔
      (Authorize e.policySet e.entities (e.buildRequest ctx action)).1 = Decision.Allow) ∧
    (e.Evaluate ctx action).Reasons =
      (Authorize e.policySet e.entities (e.buildRequest ctx action)).2.Reasons.map
        (fun reason => reason.PolicyID) ∧
    (e.Evaluate ctx action).Errors =
      (Authorize e.policySet e.entities (e.buildRequest ctx action)).2.Errors.map
        (fun err => err.String) ∧
    (e.Evaluate ctx action).Diagnostic =
      (Authorize e.policySet e.entities (e.buildRequest ctx action)).2 := by
  rw [Evaluate_eq]
  exact ⟨rfl, rfl, by simp, rfl, rfl, rfl⟩

/-- C23 fails on the code: with exactly the built-in policies loaded, merge is
allowed for every context without a workflow whose last run passed, because
the require-tests policy permits it. -/
theorem builtin_allows_merge_without_workflow (ctx : PolicyContext) :
    ((NewLoader NewEngine).LoadBuiltinPolicies builtinUnmarshalCedar).1 = none ∧
    builtinEngine.policySet.map (fun entry => entry.1) =
      ["builtin/require-workflow", "builtin/require-tests", "builtin/go-versions"] ∧
    (builtinEngine.Evaluate
      { ctx with CI := { ctx.CI with HasWorkflow := false, LastRunPassed := true } }
      "merge").Allowed = true ∧
    (builtinEngine.Evaluate
      { CI := { HasWorkflow := false, LastRunPassed := true } } "merge").Reasons =
        ["builtin/require-tests"] := by
  refine ⟨by decide, by rw [builtinEngine_policySet]; rfl, ?_, by decide⟩
  rw [builtin_merge_Allowed]
  rfl

/-- C24 fails on the code: with exactly the built-in policies loaded, merge is
allowed for every context with a workflow whose last run did not pass, because
the require-workflow policy permits it. -/
theorem builtin_allows_merge_without_tests (ctx : PolicyContext) :
    (builtinEngine.Evaluate
      { ctx with CI := { ctx.CI with HasWorkflow := true, LastRunPassed := false } }
      "merge").Allowed = true ∧
    (builtinEngine.Evaluate
      { CI := { HasWorkflow := true, LastRunPassed := false } } "merge").Reasons =
        ["builtin/require-workflow"] := by
  refine ⟨?_, by decide⟩
  rw [builtin_merge_Allowed]
  rfl

/-- C27: parsing owner/repo/path@ref gives back owner, repo, path and ref, and
the whole string as FullRef, when owner and repo hold neither a slash nor an
at sign and path holds no at sign. -/
theorem ParseReusableWorkflowRef_format (owner repo path ref : String)
    (ho1 : '/' ∉ owner.data) (ho2 : '@' ∉ owner.data)
    (hr1 : '/' ∉ repo.data) (hr2 : '@' ∉ repo.data) (hp : '@' ∉ path.data) :
    ParseReusableWorkflowRef (owner ++ "/" ++ repo ++ "/" ++ path ++ "@" ++ ref) =
      { Owner := owner, Repo := repo, Path := path, Ref := ref,
        FullRef := owner ++ "/" ++ repo ++ "/" ++ path ++ "@" ++ ref } := by
  have hdata : (owner ++ "/" ++ repo ++ "/" ++ path ++ "@" ++ ref).data =
      (owner.data ++ '/' :: (repo.data ++ '/' :: path.data)) ++ '@' :: ref.data := by
    simp [String.data_append]
  have hat : '@' ∉ owner.data ++ '/' :: (repo.data ++ '/' :: path.data) := by
    simp [ho2, hr2, hp]
  have h1 : SplitN '@' 2 ((owner.data ++ '/' :: (repo.data ++ '/' :: path.data)) ++
      '@' :: ref.data) = [owner.data ++ '/' :: (repo.data ++ '/' :: path.data), ref.data] := by
    rw [SplitN_cut _ 0 _ _ hat]
    rfl
  have h2 : SplitN '/' 3 (owner.data ++ '/' :: (repo.data ++ '/' :: path.data)) =
      [owner.data, repo.data, path.data] := by
    rw [SplitN_cut _ 1 _ _ ho1, SplitN_cut _ 0 _ _ hr1]
    rfl
  unfold ParseReusableWorkflowRef
  simp only [hdata, h1, List.length_cons, List.length_nil, if_true, List.getD_cons_zero,
    List.getD_cons_succ, h2]
  simp

/-- C27, at an input: the first case of TestParseReusableWorkflowRef. -/
theorem ParseReusableWorkflowRef_format_witness :
    '/' ∉ "owner".data ∧ '@' ∉ "owner".data ∧ '/' ∉ "repo".data ∧ '@' ∉ "repo".data ∧
    '@' ∉ ".github/workflows/ci.yml".data ∧
    ParseReusableWorkflowRef "owner/repo/.github/workflows/ci.yml@v1" =
      { Owner := "owner", Repo := "repo", Path := ".github/workflows/ci.yml", Ref := "v1",
        FullRef := "owner/repo/.github/workflows/ci.yml@v1" } :=
  ⟨by decide, by decide, by decide, by decide, by decide,
    (ParseReusableWorkflowRef_format "owner" "repo" ".github/workflows/ci.yml" "v1"
      (by decide) (by decide) (by decide) (by decide) (by decide)).symm ▸ rfl⟩

/-- C31: every collection attribute of the request is a set that holds exactly
the elements of the context's list: languages, topics, requiredChecks,
osMatrix and goVersions. So two contexts that differ only in the order or
multiplicity of the elements of these lists give the same request, and
Evaluate takes the same decision, for every action and policy set, in whatever
order the policies are held. The elements reach the authorizer: with the
built-in policies, build is allowed exactly when 1.24 or 1.25 is among the
context's Go versions. -/
theorem buildRequest_unordered (e : Engine) (ctx : PolicyContext) (action : String)
    (langs topics checks os versions : List String)
    (hl : ∀ x, x ∈ langs ↔ x ∈ ctx.Repo.Language)
    (ht : ∀ x, x ∈ topics ↔ x ∈ ctx.Repo.Topics)
    (hc : ∀ x, x ∈ checks ↔ x ∈ ctx.CI.RequiredChecks)
    (ho : ∀ x, x ∈ os ↔ x ∈ ctx.CI.OSMatrix)
    (hv : ∀ x, x ∈ versions ↔ x ∈ ctx.Go.Versions) :
    (∃ s : Finset String,
      (e.buildRequest ctx action).Context.get "languages" = some (Value.Set s) ∧
      ∀ x, x ∈ s ↔ x ∈ ctx.Repo.Language) ∧
    (∃ s : Finset String,
      (e.buildRequest ctx action).Context.get "topics" = some (Value.Set s) ∧
      ∀ x, x ∈ s ↔ x ∈ ctx.Repo.Topics) ∧
    (∃ s : Finset String,
      (e.buildRequest ctx action).Context.get "requiredChecks" = some (Value.Set s) ∧
      ∀ x, x ∈ s ↔ x ∈ ctx.CI.RequiredChecks) ∧
    (∃ s : Finset String,
      (e.buildRequest ctx action).Context.get "osMatrix" = some (Value.Set s) ∧
      ∀ x, x ∈ s ↔ x ∈ ctx.CI.OSMatrix) ∧
    (∃ s : Finset String,
      (e.buildRequest ctx action).Context.get "goVersions" = some (Value.Set s) ∧
      ∀ x, x ∈ s ↔ x ∈ ctx.Go.Versions) ∧
    e.buildRequest
        { ctx with Repo := { ctx.Repo with Language := langs, Topics := topics }
                   CI := { ctx.CI with RequiredChecks := checks, OSMatrix := os }
                   Go := { ctx.Go with Versions := versions } } action =
      e.buildRequest ctx action ∧
    (e.Evaluate
        { ctx with Repo := { ctx.Repo with Language := langs, Topics := topics }
                   CI := { ctx.CI with RequiredChecks := checks, OSMatrix := os }
                   Go := { ctx.Go with Versions := versions } } action).Allowed =
      (e.Evaluate ctx action).Allowed ∧
    (∀ e' : Engine, e'.entities = e.entities → e'.policySet.Perm e.policySet →
      (e'.Evaluate
        { ctx with Repo := { ctx.Repo with Language := langs, Topics := topics }
                   CI := { ctx.CI with RequiredChecks := checks, OSMatrix := os }
                   Go := { ctx.Go with Versions := versions } } action).Allowed =
      (e.Evaluate ctx action).Allowed) ∧
    ((builtinEngine.Evaluate ctx "build").Allowed = true ↔
      "1.24" ∈ ctx.Go.Versions ∨ "1.25" ∈ ctx.Go.Versions) := by
  have hset : ∀ l l' : List String, (∀ x, x ∈ l ↔ x ∈ l') →
      stringSliceToSet l = stringSliceToSet l' := by
    intro l l' h
    unfold stringSliceToSet
    congr 1
    ext x
    simp [h x]
  have hreq : e.buildRequest
        { ctx with Repo := { ctx.Repo with Language := langs, Topics := topics }
                   CI := { ctx.CI with RequiredChecks := checks, OSMatrix := os }
                   Go := { ctx.Go with Versions := versions } } action =
      e.buildRequest ctx action := by
    unfold Engine.buildRequest
    simp only [hset _ _ hl, hset _ _ ht, hset _ _ hc, hset _ _ ho, hset _ _ hv]
  have hallowed : (e.Evaluate
        { ctx with Repo := { ctx.Repo with Language := langs, Topics := topics }
                   CI := { ctx.CI with RequiredChecks := checks, OSMatrix := os }
                   Go := { ctx.Go with Versions := versions } } action).Allowed =
      (e.Evaluate ctx action).Allowed := by
    rw [Evaluate_Allowed, Evaluate_Allowed, hreq]
  refine ⟨⟨ctx.Repo.Language.toFinset, ?_, fun x => List.mem_toFinset⟩,
    ⟨ctx.Repo.Topics.toFinset, ?_, fun x => List.mem_toFinset⟩,
    ⟨ctx.CI.RequiredChecks.toFinset, ?_, fun x => List.mem_toFinset⟩,
    ⟨ctx.CI.OSMatrix.toFinset, ?_, fun x => List.mem_toFinset⟩,
    ⟨ctx.Go.Versions.toFinset, ?_, fun x => List.mem_toFinset⟩,
    hreq, hallowed,
    fun e' hent hperm => (Evaluate_Allowed_of_perm e e' _ action hent hperm).trans hallowed,
    builtin_build_Allowed ctx⟩
  · simp [Engine.buildRequest, Record.get, stringSliceToSet]
  · simp [Engine.buildRequest, Record.get, stringSliceToSet]
  · simp [Engine.buildRequest, Record.get, stringSliceToSet]
  · simp [Engine.buildRequest, Record.get, stringSliceToSet]
  · simp [Engine.buildRequest, Record.get, stringSliceToSet]

/-- C31, at an input: the languages Go, Shell against Shell, Go, Go and the OS
matrix in another order give the same decision on the engine with the built-in
policies; the Go versions 1.20, 1.25 in either order allow build, and the
version 1.20 alone does not. -/
theorem buildRequest_unordered_witness :
    (∀ x, x ∈ ["Shell", "Go", "Go"] ↔
      x ∈ ({ Repo := { Language := ["Go", "Shell"] },
             CI := { OSMatrix := ["ubuntu-latest", "macos-latest"] },
             Go := { Versions := ["1.20", "1.25"] } } :
        PolicyContext).Repo.Language) ∧
    (builtinEngine.Evaluate
        { Repo := { Language := ["Shell", "Go", "Go"] },
          CI := { OSMatrix := ["macos-latest", "ubuntu-latest"] },
          Go := { Versions := ["1.25", "1.20", "1.25"] } } "build").Allowed =
      (builtinEngine.Evaluate
        { Repo := { Language := ["Go", "Shell"] },
          CI := { OSMatrix := ["ubuntu-latest", "macos-latest"] },
          Go := { Versions := ["1.20", "1.25"] } } "build").Allowed ∧
    (builtinEngine.Evaluate
        { Repo := { Language := ["Go", "Shell"] },
          CI := { OSMatrix := ["ubuntu-latest", "macos-latest"] },
          Go := { Versions := ["1.20", "1.25"] } } "build").Allowed = true ∧
    (builtinEngine.Evaluate { Go := { Versions := ["1.20"] } } "build").Allowed = false ∧
    (builtinEngine.buildRequest { Go := { Versions := ["1.25", "1.20", "1.25"] } }
        "build").Context.get "goVersions" = some (Value.Set {"1.20", "1.25"}) := by
  have hl : ∀ x, x ∈ ["Shell", "Go", "Go"] ↔
      x ∈ ({ Repo := { Language := ["Go", "Shell"] },
             CI := { OSMatrix := ["ubuntu-latest", "macos-latest"] },
             Go := { Versions := ["1.20", "1.25"] } } :
        PolicyContext).Repo.Language := by
    intro x; simp [or_comm]
  have h := buildRequest_unordered builtinEngine
    { Repo := { Language := ["Go", "Shell"] },
      CI := { OSMatrix := ["ubuntu-latest", "macos-latest"] },
      Go := { Versions := ["1.20", "1.25"] } } "build"
    ["Shell", "Go", "Go"] [] [] ["macos-latest", "ubuntu-latest"] ["1.25", "1.20", "1.25"] hl
    (fun _ => Iff.rfl) (fun _ => Iff.rfl) (by intro x; simp [or_comm])
    (by intro x; simp only [List.mem_cons, List.mem_singleton, List.mem_nil_iff, or_false]; tauto)
  exact ⟨hl, h.2.2.2.2.2.2.1, h.2.2.2.2.2.2.2.2.2 (Or.inr (by simp)), by decide, by decide⟩

/-- C32: ValidateRepoAgainstProfile returns no violation exactly when every
Go version of the context is one of the profile's and the OS matrix is empty
or holds the same identifiers as the profile's OS list; a matrix that is a
strict subset or a strict superset of the profile's list gives a violation. -/
theorem ValidateRepoAgainstProfile_nil_iff (ctx : PolicyContext) (profile : Profile) :
    (ValidateRepoAgainstProfile ctx profile = [] ↔
      (∀ v ∈ ctx.Go.Versions, v ∈ profile.Go.Versions) ∧
      (ctx.CI.OSMatrix = [] ∨ ∀ x, x ∈ ctx.CI.OSMatrix ↔ x ∈ profile.OS)) ∧
    ValidateRepoAgainstProfile { ctx with CI := { ctx.CI with OSMatrix := ["ubuntu-latest"] } }
      { profile with OS := ["ubuntu-latest", "macos-latest"] } ≠ [] ∧
    ValidateRepoAgainstProfile
      { ctx with CI := { ctx.CI with OSMatrix := ["ubuntu-latest", "macos-latest"] } }
      { profile with OS := ["ubuntu-latest"] } ≠ [] := by
  have key : ∀ (c : PolicyContext) (p : Profile),
      (ValidateRepoAgainstProfile c p = [] ↔
        (∀ v ∈ c.Go.Versions, v ∈ p.Go.Versions) ∧
        (c.CI.OSMatrix = [] ∨ ∀ x, x ∈ c.CI.OSMatrix ↔ x ∈ p.OS)) := by
    intro c p
    rw [ValidateRepoAgainstProfile_eq]
    by_cases ho : c.CI.OSMatrix = []
    · simp [ho, List.filter_eq_nil_iff]
    · simp only [ho, if_false, List.append_eq_nil, List.map_eq_nil_iff, List.filter_eq_nil_iff,
        decide_eq_true_eq, not_not, false_or]
      constructor
      · rintro ⟨hv, h1, h2⟩
        exact ⟨hv, fun x => ⟨h1 x, h2 x⟩⟩
      · rintro ⟨hv, h⟩
        exact ⟨hv, fun x hx => (h x).1 hx, fun x hx => (h x).2 hx⟩
  refine ⟨key ctx profile, ?_, ?_⟩
  · rw [Ne, key]
    simp
  · rw [Ne, key]
    simp

/-- C33: Matches is true exactly when the repo passes the archived, fork,
visibility, language and topic tests; it reads neither NamePattern nor
PrimaryLanguage. -/
theorem Matches_iff (r : Repo) (filter : RepoFilter) :
    (r.Matches filter = true ↔
      (r.Archived = false ∨ filter.IncludeArchived = true) ∧
      (r.Fork = false ∨ filter.IncludeForks = true) ∧
      (filter.VisibilityFilter = [] ∨ r.Visibility ∈ filter.VisibilityFilter) ∧
      (filter.IncludeLanguages = [] ∨ ∃ x ∈ filter.IncludeLanguages, x ∈ r.Languages) ∧
      (¬ ∃ x ∈ filter.ExcludeLanguages, x ∈ r.Languages) ∧
      (filter.IncludeTopics = [] ∨ ∃ x ∈ filter.IncludeTopics, x ∈ r.Topics) ∧
      (¬ ∃ x ∈ filter.ExcludeTopics, x ∈ r.Topics)) ∧
    (∀ (pattern language : String),
      Repo.Matches { r with PrimaryLanguage := language }
        { filter with NamePattern := pattern } = r.Matches filter) := by
  refine ⟨?_, fun _ _ => rfl⟩
  unfold Repo.Matches
  have hlen : ∀ l : List String, decide (l.length > 0) = !decide (l = []) := by
    intro l; cases l <;> simp
  simp only [hlen, contains_eq_decide_mem]
  rw [← hasAny_iff, ← hasAny_iff, ← hasAny_iff, ← hasAny_iff]
  split_ifs <;> simp_all
  rename_i ha hf hv hil _ hit _
  refine ⟨?_, ?_, ?_, ?_, ?_⟩
  · cases hx : r.Archived
    · exact Or.inl rfl
    · exact Or.inr (ha hx)
  · cases hx : r.Fork
    · exact Or.inl rfl
    · exact Or.inr (hf hx)
  · by_cases hx : filter.VisibilityFilter = []
    · exact Or.inl hx
    · exact Or.inr (hv hx)
  · by_cases hx : filter.IncludeLanguages = []
    · exact Or.inl hx
    · exact Or.inr (hil hx)
  · by_cases hx : filter.IncludeTopics = []
    · exact Or.inl hx
    · exact Or.inr (hit hx)

/-- C34: the context Build returns has CI.LastRunPassed false, no required
check, Go.HasGoMod and Go.GoModTidy false and a zero Dependencies section; its
Repo section copies the repo field for field, Org from Owner. -/
theorem Build_untouched_fields (b : ContextBuilder) (repo : Repo) (workflows : List Workflow)
    (bp : Option BranchProtection) :
    (b.Build repo workflows bp).CI.LastRunPassed = false ∧
    (b.Build repo workflows bp).CI.RequiredChecks = [] ∧
    (b.Build repo workflows bp).Go.HasGoMod = false ∧
    (b.Build repo workflows bp).Go.GoModTidy = false ∧
    (b.Build repo workflows bp).Dependencies =
      { HasRenovate := false, HasDependabot := false, OldestDependencyDays := 0,
        HasVulnerabilities := false, VulnerabilityCount := 0 } ∧
    (b.Build repo workflows bp).Repo =
      { Name := repo.Name, Org := repo.Owner, FullName := repo.FullName,
        Language := repo.Languages, Topics := repo.Topics, Archived := repo.Archived,
        Fork := repo.Fork } := by
  refine ⟨?_, ?_, ?_, ?_, ?_, ?_⟩
  · rw [Build_CI]
    unfold ContextBuilder.buildCIContext
    simp only [(ci_fold_untouched _ _).1]
  · rw [Build_CI]
    unfold ContextBuilder.buildCIContext
    simp only [(ci_fold_untouched _ _).2]
  · rw [Build_Go]; exact (buildGoContext_untouched b repo workflows).1
  · rw [Build_Go]; exact (buildGoContext_untouched b repo workflows).2
  · unfold ContextBuilder.Build
    cases bp <;> rfl
  · unfold ContextBuilder.Build
    cases bp <;> rfl

/-- C35: with exactly the built-in policies loaded, test and lint are denied
for every context, so EvaluateAll has at least two denied results and
ToViolation gives at least two violations; the order in which the three
policies were loaded does not matter. -/
theorem builtin_denies_test_and_lint (ctx : PolicyContext) :
    (builtinEngine.Evaluate ctx "test").Allowed = false ∧
    (builtinEngine.Evaluate ctx "lint").Allowed = false ∧
    2 ≤ ((builtinEngine.EvaluateAll ctx).filter (fun r => !r.Allowed)).length ∧
    2 ≤ ((builtinEngine.EvaluateAll ctx).filterMap
      (fun r => r.ToViolation)).length ∧
    (∀ e : Engine, e.entities = builtinEngine.entities →
      e.policySet.Perm builtinEngine.policySet →
      (e.Evaluate ctx "test").Allowed = false ∧ (e.Evaluate ctx "lint").Allowed = false) := by
  have ht := builtin_other_denied ctx "test" (by decide) (by decide)
  have hl := builtin_other_denied ctx "lint" (by decide) (by decide)
  have hall : builtinEngine.EvaluateAll ctx =
      [builtinEngine.Evaluate ctx "build", builtinEngine.Evaluate ctx "test",
        builtinEngine.Evaluate ctx "lint", builtinEngine.Evaluate ctx "merge"] := rfl
  have hvt : (builtinEngine.Evaluate ctx "test").ToViolation.isSome = true := by
    unfold EvaluationResult.ToViolation; simp [ht]
  have hvl : (builtinEngine.Evaluate ctx "lint").ToViolation.isSome = true := by
    unfold EvaluationResult.ToViolation; simp [hl]
  obtain ⟨vt, hvt⟩ := Option.isSome_iff_exists.1 hvt
  obtain ⟨vl, hvl⟩ := Option.isSome_iff_exists.1 hvl
  refine ⟨ht, hl, ?_, ?_, fun e hent hperm =>
    ⟨(Evaluate_Allowed_of_perm _ e ctx "test" hent hperm).trans ht,
      (Evaluate_Allowed_of_perm _ e ctx "lint" hent hperm).trans hl⟩⟩
  · rw [hall]
    simp only [List.filter_cons, ht, hl, Bool.not_false, if_true]
    split_ifs <;> simp
  · rw [hall]
    simp only [List.filterMap_cons, hvt, hvl]
    cases (builtinEngine.Evaluate ctx "build").ToViolation <;>
      cases (builtinEngine.Evaluate ctx "merge").ToViolation <;> simp

/-- C36: for every string, ParseReusableWorkflowRef returns a result whose
FullRef is the input, whose Owner and Repo hold no slash, whose Owner, Repo and
Path hold no at sign, and whose Ref is the text after the first at sign of the
input, empty when there is none. -/
theorem ParseReusableWorkflowRef_parts (s : String) :
    (ParseReusableWorkflowRef s).FullRef = s ∧
    '/' ∉ (ParseReusableWorkflowRef s).Owner.data ∧
    '/' ∉ (ParseReusableWorkflowRef s).Repo.data ∧
    '@' ∉ (ParseReusableWorkflowRef s).Owner.data ∧
    '@' ∉ (ParseReusableWorkflowRef s).Repo.data ∧
    '@' ∉ (ParseReusableWorkflowRef s).Path.data ∧
    (∀ before after : List Char, s.data = before ++ '@' :: after → '@' ∉ before →
      (ParseReusableWorkflowRef s).Ref = String.mk after) ∧
    ('@' ∉ s.data → (ParseReusableWorkflowRef s).Ref = "") := by
  have hget : ∀ (parts : List (List Char)) (i : Nat) (c : Char),
      (∀ part ∈ parts, c ∉ part) → c ∉ parts.getD i [] := by
    intro parts i c h
    by_cases hi : i < parts.length
    · rw [List.getD_eq_getElem _ _ hi]
      exact h _ (List.getElem_mem hi)
    · rw [List.getD_eq_default _ _ (Nat.le_of_not_lt hi)]
      simp
  rw [ParseReusableWorkflowRef_eq]
  cases h1 : cutAtFirst '@' s.data with
  | none =>
    have hno := (cutAtFirst_none_iff _ _).1 h1
    obtain ⟨ho, hr, hall⟩ := SplitN_three_spec s.data
    refine ⟨rfl, ho, hr, hget _ 0 _ (hall _ hno), hget _ 1 _ (hall _ hno),
      hget _ 2 _ (hall _ hno), ?_, fun _ => rfl⟩
    intro before after hs _
    exact absurd (by rw [hs]; simp) hno
  | some p =>
    obtain ⟨b, a⟩ := p
    obtain ⟨he, hb⟩ := cutAtFirst_some _ _ _ _ h1
    obtain ⟨ho, hr, hall⟩ := SplitN_three_spec b
    refine ⟨rfl, ho, hr, hget _ 0 _ (hall _ hb), hget _ 1 _ (hall _ hb),
      hget _ 2 _ (hall _ hb), ?_, ?_⟩
    · intro before after hs hbefore
      have h2 := cutAtFirst_append '@' before after hbefore
      rw [← hs, h1] at h2
      simp only [Option.some.injEq, Prod.mk.injEq] at h2
      simp only [h2.2]
    · intro hno
      exact absurd (by rw [he]; simp) hno

/-- C38: shouldRetryGitHub is true exactly when there is an error, or there is
a response whose status is 500, 502, 503 or 504, or is 403 or 429 together
with X-RateLimit-Remaining 0, a Retry-After header or an X-RateLimit-Limit
header; no response without an error, and a 2xx response, are not retried. -/
theorem shouldRetryGitHub_iff (resp : Option Response) (err : Option String) :
    (shouldRetryGitHub resp err = true ↔
      err ≠ none ∨
      ∃ r : Response, resp = some r ∧
        ((r.StatusCode = 500 ∨ r.StatusCode = 502 ∨ r.StatusCode = 503 ∨
            r.StatusCode = 504) ∨
          ((r.StatusCode = 403 ∨ r.StatusCode = 429) ∧
            (r.HeaderGet "X-RateLimit-Remaining" = "0" ∨ r.HeaderGet "Retry-After" ≠ "" ∨
              r.HeaderGet "X-RateLimit-Limit" ≠ "")))) ∧
    shouldRetryGitHub none none = false ∧
    (∀ r : Response, 200 ≤ r.StatusCode → r.StatusCode ≤ 299 →
      shouldRetryGitHub (some r) none = false) := by
  refine ⟨?_, rfl, ?_⟩
  · unfold shouldRetryGitHub
    cases err with
    | some e => simp
    | none =>
      cases resp with
      | none => simp
      | some r =>
        simp only [StatusForbidden, StatusTooManyRequests, StatusInternalServerError,
          StatusBadGateway, StatusServiceUnavailable, StatusGatewayTimeout, ne_eq,
          not_true_eq_false, if_false, false_or, Option.some.injEq, exists_eq_left']
        by_cases hs : r.StatusCode = 403 ∨ r.StatusCode = 429
        · by_cases h1 : r.HeaderGet "X-RateLimit-Remaining" = "0" <;>
            by_cases h2 : r.HeaderGet "Retry-After" = "" <;>
            by_cases h3 : r.HeaderGet "X-RateLimit-Limit" = "" <;>
            simp [hs, h1, h2, h3]
        · simp [hs]
  · intro r hlo hhi
    unfold shouldRetryGitHub
    have h1 : ¬ (r.StatusCode = StatusForbidden ∨ r.StatusCode = StatusTooManyRequests) := by
      simp only [StatusForbidden, StatusTooManyRequests]; omega
    have h2 : ¬ (r.StatusCode = StatusInternalServerError ∨ r.StatusCode = StatusBadGateway ∨
        r.StatusCode = StatusServiceUnavailable ∨ r.StatusCode = StatusGatewayTimeout) := by
      simp only [StatusInternalServerError, StatusBadGateway, StatusServiceUnavailable,
        StatusGatewayTimeout]; omega
    simp [h1, h2]

/-- C38, at an input: a 200 response that carries rate-limit headers is not
retried; a 403 with Retry-After is. -/
theorem shouldRetryGitHub_iff_witness :
    (200 : Int) ≤ (⟨200, fun _ => "0"⟩ : Response).StatusCode ∧
    (⟨200, fun _ => "0"⟩ : Response).StatusCode ≤ 299 ∧
    shouldRetryGitHub (some ⟨200, fun _ => "0"⟩) none = false ∧
    shouldRetryGitHub
      (some ⟨403, fun name => if name = "Retry-After" then "5" else ""⟩) none = true ∧
    shouldRetryGitHub (some ⟨403, fun _ => ""⟩) none = false :=
  ⟨by decide, by decide,
    (shouldRetryGitHub_iff none none).2.2 ⟨200, fun _ => "0"⟩ (by decide) (by decide),
    by decide, by decide⟩

/-- C39 fails on the code: two distinct .cedar files whose parent directories
have the same name get the same policy id, and loading the second replaces
the policy loaded from the first. -/
theorem policyID_collision :
    "policies/a/common/merge.cedar" ≠ "policies/b/common/merge.cedar" ∧
    policyIDOfPath "policies/a/common/merge.cedar" = "common/merge" ∧
    policyIDOfPath "policies/b/common/merge.cedar" = "common/merge" ∧
    (((NewLoader NewEngine).LoadFromFile sampleReadFile builtinUnmarshalCedar
        "policies/a/common/merge.cedar").2.LoadFromFile sampleReadFile builtinUnmarshalCedar
        "policies/b/common/merge.cedar").1 = none ∧
    (((NewLoader NewEngine).LoadFromFile sampleReadFile builtinUnmarshalCedar
        "policies/a/common/merge.cedar").2.LoadFromFile sampleReadFile builtinUnmarshalCedar
        "policies/b/common/merge.cedar").2.engine.policySet.map (fun entry => entry.1) =
      ["common/merge"] := by
  refine ⟨by decide, by decide, by decide, by decide, by decide⟩

/-- C40 fails on the code: for the minimum int64 value the negation wraps
around to the value itself, the digit loop does not run, and the result is
the sign alone. -/
theorem int64ToString_min :
    wrapInt64 (- (-9223372036854775808)) = -9223372036854775808 ∧
    int64ToString (-9223372036854775808) = "-" ∧
    itoa64 (-9223372036854775808) = "-" ∧
    int64ToString (-9223372036854775807) = "-9223372036854775807" ∧
    int64ToString 9223372036854775807 = "9223372036854775807" ∧
    itoa64 (-120) = "-120" ∧ itoa64 0 = "0" := by
  refine ⟨by decide, by decide, by decide, by decide, by decide, by decide, by decide⟩

/-- C37: the SARIF document has one run; the ids of its driver's rules are
pairwise distinct; it has one result per violation, in repo-then-violation
order, ViolationCount of them; the RuleIndex of every result is an index into
the rules, of a rule whose ID is the result's RuleID; and the rules do not
depend on the order in which the rules map is ranged over. -/
theorem SARIF_rules_and_results (result : ComplianceResult) :
    ∃ run : SARIFRun, (SARIFFormatter.document result).Runs = [run] ∧
      (run.Tool.Driver.Rules.map (fun rule => rule.ID)).Nodup ∧
      (run.Results.length : Int) = result.ViolationCount ∧
      run.Results.map (fun res => (res.RuleID, res.Message.Text)) =
        sarifExpected result.Repos ∧
      (∀ res ∈ run.Results, 0 ≤ res.RuleIndex ∧
        res.RuleIndex.toNat < run.Tool.Driver.Rules.length ∧
        ∃ rule : SARIFRule,
          run.Tool.Driver.Rules[res.RuleIndex.toNat]? = some rule ∧ rule.ID = res.RuleID) ∧
      (∀ order : List (String × SARIFRule),
        order.Perm (sarifCollect result.Repos).rulesMap →
        sarifRulesIn order (sarifCollect result.Repos) = run.Tool.Driver.Rules) := by
  obtain ⟨hinv, hres⟩ := sarifCollect_spec result.Repos
  obtain ⟨hnd, hidx⟩ := sarif_state_rules _ hinv
  refine ⟨_, rfl, hnd, ?_, hres, hidx,
    fun order hperm => (sarifRulesIn_eq _ hinv order hperm).trans (sarifRules_eq _ hinv).symm⟩
  show (((sarifCollect result.Repos).results.length : Nat) : Int) = result.ViolationCount
  have hlen := congrArg List.length hres
  rw [List.length_map] at hlen
  rw [hlen, sarifExpected_length]
  unfold ComplianceResult.ViolationCount
  rw [violation_fold_eq_sum]
  simp

end PipelineConductor
